import Mathlib

/-!
Verification of the zenoh routing / replica-alignment core against its
natural-language specification.

The definitions below are a shallow embedding of
`plugins/zenoh-plugin-storage-manager/src/replica/digest.rs`,
`zenoh/src/net/routing/hat/queries.rs`,
`commons/zenoh-codec/src/core/zenohid.rs` and
`commons/zenoh-util/src/keyexpr_tree/iters/tree_iter.rs`.
Rust `u64` values are embedded as `Nat` (with explicit wrapping modulo `2 ^ 64`
where the source relies on release-profile wrapping arithmetic),
`BTreeSet`/`BTreeMap`/`HashMap` values as lists kept sorted by the comparator
the source uses (`HashMap` iteration, whose order Rust leaves unspecified, is
modelled as ascending key order), and fallible operations as `Option`.
-/

namespace Zenoh

/-! ## Replica digest: data model (`replica/digest.rs`) -/

/-- Modelled from the spec: the protocol's timestamps (`uhlc::Timestamp`, an
external collaborator).  `ms` is the signed offset in milliseconds from the
system-wide fixed epoch constant `EPOCH_START` (negative values model
timestamps that precede the epoch, where `duration_since` fails), and `uid`
models the producing node's identifier, which participates in ordering and in
the canonical display. -/
structure TS where
  ms : Int
  uid : Nat
deriving DecidableEq, Repr

/-- `Ord` of the protocol timestamps: time component first, producer id second. -/
def cmpTS (a b : TS) : Ordering :=
  match compare a.ms b.ms with
  | .eq => compare a.uid b.uid
  | o => o

/-- `LogEntry { timestamp, key }`; the key expression is kept as its string. -/
structure LogEntry where
  timestamp : TS
  key : String
deriving DecidableEq, Repr

/-- `impl Ord for LogEntry`: the source compares `self.timestamp` only; the
`key` field takes no part in the ordering (while the derived `Eq` compares
both fields). -/
def cmpLog (a b : LogEntry) : Ordering :=
  cmpTS a.timestamp b.timestamp

/-- `BTreeSet::insert` under comparator `cmp`: the element is placed at its
sorted position; if an element comparing `Equal` is already present the set is
left unchanged (the new element is dropped). -/
def btreeInsert (cmp : α → α → Ordering) (x : α) : List α → List α
  | [] => [x]
  | y :: ys =>
    match cmp x y with
    | .lt => x :: y :: ys
    | .eq => y :: ys
    | .gt => y :: btreeInsert cmp x ys

/-- `BTreeSet::contains` under comparator `cmp`. -/
def btreeContains (cmp : α → α → Ordering) (x : α) (l : List α) : Bool :=
  l.any (fun y => cmp x y == .eq)

/-- Sorted-association-list `get` (`HashMap::get` / `BTreeMap::get`). -/
def mapGet (cmp : κ → κ → Ordering) (k : κ) : List (κ × ν) → Option ν
  | [] => none
  | (k2, v) :: rest =>
    match cmp k k2 with
    | .eq => some v
    | _ => mapGet cmp k rest

/-- Sorted-association-list `insert`: inserts the pair at its key position,
replacing the value if the key is already present (`HashMap::insert`). -/
def mapInsert (cmp : κ → κ → Ordering) (k : κ) (v : ν) : List (κ × ν) → List (κ × ν)
  | [] => [(k, v)]
  | (k2, v2) :: rest =>
    match cmp k k2 with
    | .lt => (k, v) :: (k2, v2) :: rest
    | .eq => (k2, v) :: rest
    | .gt => (k2, v2) :: mapInsert cmp k v rest

/-- Sorted-association-list `remove` (`HashMap::remove`). -/
def mapRemove (cmp : κ → κ → Ordering) (k : κ) : List (κ × ν) → List (κ × ν)
  | [] => []
  | (k2, v2) :: rest =>
    match cmp k k2 with
    | .eq => rest
    | _ => (k2, v2) :: mapRemove cmp k rest

/-- `map.entry(k).and_modify(f).or_insert(dflt)`: apply `f` to the stored value
when the key is present, insert `dflt` otherwise. -/
def mapUpsert (cmp : κ → κ → Ordering) (k : κ) (f : ν → ν) (dflt : ν) :
    List (κ × ν) → List (κ × ν)
  | [] => [(k, dflt)]
  | (k2, v2) :: rest =>
    match cmp k k2 with
    | .lt => (k, dflt) :: (k2, v2) :: rest
    | .eq => (k2, f v2) :: rest
    | .gt => (k2, v2) :: mapUpsert cmp k f dflt rest

/-- Apply `f` to the value stored at `k` when present (`get_mut` followed by a
field update); the map is unchanged when the key is absent. -/
def mapAdjust (cmp : κ → κ → Ordering) (k : κ) (f : ν → ν) :
    List (κ × ν) → List (κ × ν)
  | [] => []
  | (k2, v2) :: rest =>
    match cmp k k2 with
    | .eq => (k2, f v2) :: rest
    | _ => (k2, v2) :: mapAdjust cmp k f rest

/-- `HashSet::insert` on a set kept as an ascending sorted list. -/
def setInsert (cmp : κ → κ → Ordering) (k : κ) : List κ → List κ
  | [] => [k]
  | k2 :: rest =>
    match cmp k k2 with
    | .lt => k :: k2 :: rest
    | .eq => k2 :: rest
    | .gt => k2 :: setInsert cmp k rest

/-- `HashSet::extend`. -/
def setExtend (cmp : κ → κ → Ordering) (s : List κ) (more : List κ) : List κ :=
  more.foldl (fun acc k => setInsert cmp k acc) s

/-- `EraType`: derived `Ord` gives `Hot < Warm < Cold` (declaration order). -/
inductive EraType where
  | Hot
  | Warm
  | Cold
deriving DecidableEq, Repr

def eraIdx : EraType → Nat
  | .Hot => 0
  | .Warm => 1
  | .Cold => 2

def cmpEra (a b : EraType) : Ordering :=
  compare (eraIdx a) (eraIdx b)

/-- `EraType::from_str`: case-insensitivity is irrelevant for the three
canonical strings; every unknown string silently maps to `Cold`
(the source marks this with a TODO). -/
def eraFromStr (s : String) : EraType :=
  if s = "cold" then .Cold
  else if s = "warm" then .Warm
  else if s = "hot" then .Hot
  else .Cold

/-- `Interval { checksum, content: BTreeSet<u64> }` (also used for eras). -/
structure Interval where
  checksum : Nat
  content : List Nat
deriving DecidableEq, Repr

/-- `SubInterval { checksum, content: BTreeSet<LogEntry> }`. -/
structure SubInterval where
  checksum : Nat
  content : List LogEntry
deriving DecidableEq, Repr

/-- `DigestConfig`: `delta` is kept as its whole-millisecond value
(`delta.as_millis()`), the three counters are the `usize` fields. -/
structure DigestConfig where
  delta : Nat
  sub_intervals : Nat
  hot : Nat
  warm : Nat
deriving DecidableEq, Repr

/-- `Digest`.  The three `HashMap`s are embedded as association lists sorted
by key (`u64` order for intervals and subintervals, the derived
`Hot < Warm < Cold` order for eras), so structural equality of the embedding
coincides with Rust's map equality. -/
structure Digest where
  timestamp : TS
  config : DigestConfig
  checksum : Nat
  eras : List (EraType × Interval)
  intervals : List (Nat × Interval)
  subintervals : List (Nat × SubInterval)
deriving DecidableEq, Repr

/-! ## Replica digest: checksums -/

/-- The CRC-64/ECMA-182 generator polynomial used by the `crc` crate. -/
def crc64_poly : Nat := 0x42F0E1EBA9EA3693

/-- One MSB-first shift step of the (non-reflected) CRC-64 computation. -/
def crc64_shift (c : Nat) : Nat :=
  if 2 ^ 63 ≤ c then ((c <<< 1) % 2 ^ 64) ^^^ crc64_poly else (c <<< 1) % 2 ^ 64

def crc64_shifts : Nat → Nat → Nat
  | 0, c => c
  | n + 1, c => crc64_shifts n (crc64_shift c)

/-- Feed one byte into the CRC-64 state. -/
def crc64_byte (c b : Nat) : Nat :=
  crc64_shifts 8 (c ^^^ ((b % 256) <<< 56))

/-- CRC-64/ECMA-182 of a byte sequence (`init = 0`, no reflection, no xorout). -/
def crc64_bytes (bs : List Nat) : Nat :=
  bs.foldl crc64_byte 0

/-- Bytes of a formatted string.  Every string the digest hashes is ASCII
(decimal numbers, canonical timestamps, key expressions), so code points and
UTF-8 bytes coincide. -/
def strBytes (s : String) : List Nat :=
  s.data.map Char.toNat

/-- `Digest::get_content_hash`: CRC-64 over the concatenation of the formatted
items in iteration order. -/
def get_content_hash (content : List String) : Nat :=
  crc64_bytes (content.map strBytes).flatten

/-- Modelled from the spec: the canonical display of a timestamp
(`uhlc::Timestamp`'s `Display`, external to this repository) — the time
component followed by the producing id; injective on `TS`. -/
def tsDisplay (t : TS) : String :=
  toString t.ms ++ "Z/" ++ toString t.uid

/-- `Checksum::format_content` for `LogEntry`: `"{timestamp}-{key}"`. -/
def format_log_entry (e : LogEntry) : String :=
  tsDisplay e.timestamp ++ "-" ++ e.key

/-- `Checksum::format_content` for `u64`: base-10 ASCII. -/
def format_u64 (n : Nat) : String :=
  toString n

def hashLogEntries (l : List LogEntry) : Nat :=
  get_content_hash (l.map format_log_entry)

def hashU64s (l : List Nat) : Nat :=
  get_content_hash (l.map format_u64)

/-- `Digest::get_subinterval_checksum`. -/
def get_subinterval_checksum (content : List LogEntry) : Nat :=
  hashLogEntries content

/-- `Digest::get_interval_checksum`: hash the checksums of the member
subintervals, skipping ids absent from the map. -/
def get_interval_checksum (content : List Nat) (info : List (Nat × SubInterval)) : Nat :=
  hashU64s (content.filterMap (fun i => (mapGet compare i info).map SubInterval.checksum))

/-- `Digest::get_era_checksum`. -/
def get_era_checksum (content : List Nat) (info : List (Nat × Interval)) : Nat :=
  hashU64s (content.filterMap (fun i => (mapGet compare i info).map Interval.checksum))

/-- `Digest::get_digest_checksum`: hash over the ordered, present-only list
`[cold, warm, hot]` of era checksums. -/
def get_digest_checksum (content : List (EraType × Interval)) : Nat :=
  let dc :=
    (match mapGet cmpEra .Cold content with | some i => [i.checksum] | none => []) ++
    (match mapGet cmpEra .Warm content with | some i => [i.checksum] | none => []) ++
    (match mapGet cmpEra .Hot content with | some i => [i.checksum] | none => [])
  hashU64s dc

/-! ## Replica digest: bucketing -/

/-- Truncation of an exact integer value to wrapping `u64` arithmetic. -/
def wrap64 (x : Int) : Nat :=
  (x % (2 ^ 64 : Int)).toNat

/-- `Digest::get_subinterval`.  `duration_since(EPOCH_START)` fails — giving
`None` — iff the timestamp precedes the epoch; the `u64::try_from` casts fail
iff the millisecond counts do not fit in 64 bits (the `usize → u64` cast of
`sub_intervals` cannot fail on the 64-bit targets the plugin builds for).
CAVEAT, recorded by `get_subinterval_panics`: when
`delta / sub_intervals = 0` the source expression `ts / (delta / sub)` is a
`u64` division by zero and panics; this model is faithful only off that
domain (Lean's total division returns 0 there). -/
def get_subinterval (delta : Nat) (ts : TS) (subintervals : Nat) : Option Nat :=
  let tsOpt : Option Nat :=
    if 0 ≤ ts.ms ∧ ts.ms < 2 ^ 64 then some ts.ms.toNat else none
  let deltaOpt : Option Nat := if delta < 2 ^ 64 then some delta else none
  match tsOpt, deltaOpt with
  | some t, some d => some (t / (d / subintervals))
  | _, _ => none

/-- The condition under which the source's `Digest::get_subinterval` panics:
the timestamp survives the casts (so the closure body runs) while
`delta / sub_intervals = 0` makes `ts / (delta / sub)` divide by zero. -/
def get_subinterval_panics (delta : Nat) (ts : TS) (subintervals : Nat) : Bool :=
  decide (0 ≤ ts.ms ∧ ts.ms < 2 ^ 64 ∧ delta < 2 ^ 64 ∧ delta / subintervals = 0)

/-- An entry the bucketing keeps: its timestamp does not precede the epoch
and the millisecond counts fit in `u64` (otherwise `get_subinterval` yields
`None` and the engine drops the entry and continues). -/
def log_entry_valid (delta : Nat) (e : LogEntry) : Bool :=
  decide (0 ≤ e.timestamp.ms ∧ e.timestamp.ms < 2 ^ 64 ∧ delta < 2 ^ 64)

/-- `Digest::get_era`'s condition on a whole log: some entry triggers the
division-by-zero panic of `get_subinterval`. -/
def log_panics (config : DigestConfig) (log : List LogEntry) : Bool :=
  log.any (fun e => get_subinterval_panics config.delta e.timestamp config.sub_intervals)

/-- `Digest::get_interval`: the `usize → u64` cast cannot fail on 64-bit
targets; the division by `sub_intervals = 0` is unreachable because
`get_subinterval` panics (or yields `None`) first. -/
def get_interval (subinterval : Nat) (subintervals : Nat) : Option Nat :=
  some (subinterval / subintervals)

/-- `Digest::get_era`.  The `u64` subtractions wrap modulo `2 ^ 64`
(release-profile semantics; a debug build would panic on underflow when
`latest_interval` is smaller than `hot`, resp. `hot + warm`). -/
def get_era (config : DigestConfig) (latest_interval : Nat) (interval : Nat) : EraType :=
  let hot_min := wrap64 ((latest_interval : Int) - config.hot + 1)
  let warm_min := wrap64 ((latest_interval : Int) - config.hot - config.warm + 1)
  if hot_min ≤ interval then .Hot
  else if warm_min ≤ interval then .Warm
  else .Cold

/-! ## Replica digest: `create_digest` -/

/-- The loop state of `Digest::create_digest`: the three accumulated maps, the
current bucket ids, and the open bucket contents.  `int_content` and
`era_content` are the `BTreeMap<u64, u64>`s of sealed child checksums;
`digest_hash` is the `HashMap<EraType, u64>` of sealed era checksums. -/
structure CreateState where
  eras : List (EraType × Interval)
  intervals : List (Nat × Interval)
  subintervals : List (Nat × SubInterval)
  curr_sub : Nat
  curr_int : Nat
  curr_era : EraType
  sub_content : List LogEntry
  int_content : List (Nat × Nat)
  era_content : List (Nat × Nat)
  digest_hash : List (EraType × Nat)
deriving Repr

/-- One iteration of the `for entry in raw_log` loop of `create_digest`. -/
def create_step (config : DigestConfig) (latest_interval : Nat)
    (st : CreateState) (entry : LogEntry) : CreateState :=
  match get_subinterval config.delta entry.timestamp config.sub_intervals with
  | none => st
  | some sub =>
    match get_interval sub config.sub_intervals with
    | none => st
    | some interval =>
      let era := get_era config latest_interval interval
      if sub = st.curr_sub then
        { st with sub_content := btreeInsert cmpLog entry st.sub_content }
      else
        let sealedSub :=
          if st.sub_content.isEmpty then (st.subintervals, st.int_content)
          else
            let checksum := get_content_hash (st.sub_content.map format_log_entry)
            (mapInsert compare st.curr_sub ⟨checksum, st.sub_content⟩ st.subintervals,
             mapInsert compare st.curr_sub checksum st.int_content)
        let st := { st with
          subintervals := sealedSub.1
          int_content := sealedSub.2
          curr_sub := sub
          sub_content := [entry] }
        if interval = st.curr_int then st
        else
          let sealedInt :=
            if st.int_content.isEmpty then (st.intervals, st.era_content)
            else
              let checksum := get_content_hash ((st.int_content.map Prod.snd).map format_u64)
              (mapInsert compare st.curr_int ⟨checksum, st.int_content.map Prod.fst⟩ st.intervals,
               mapInsert compare st.curr_int checksum st.era_content)
          let st := { st with
            intervals := sealedInt.1
            era_content := sealedInt.2
            curr_int := interval
            int_content := [] }
          if era = st.curr_era then st
          else
            let sealedEra :=
              if st.era_content.isEmpty then (st.eras, st.digest_hash)
              else
                let checksum := get_content_hash ((st.era_content.map Prod.snd).map format_u64)
                (mapInsert cmpEra st.curr_era ⟨checksum, st.era_content.map Prod.fst⟩ st.eras,
                 mapInsert cmpEra st.curr_era checksum st.digest_hash)
            { st with
              eras := sealedEra.1
              digest_hash := sealedEra.2
              curr_era := era
              era_content := [] }

/-- The end-of-stream sealing block of `create_digest` (the trailing
`if !sub_content.is_empty()`). -/
def create_close (st : CreateState) : CreateState :=
  if st.sub_content.isEmpty then st
  else
    let checksum := get_content_hash (st.sub_content.map format_log_entry)
    let subintervals := mapInsert compare st.curr_sub ⟨checksum, st.sub_content⟩ st.subintervals
    let int_content := mapInsert compare st.curr_sub checksum st.int_content
    let ichecksum := get_content_hash ((int_content.map Prod.snd).map format_u64)
    let intervals := mapInsert compare st.curr_int ⟨ichecksum, int_content.map Prod.fst⟩ st.intervals
    let era_content := mapInsert compare st.curr_int ichecksum st.era_content
    let echecksum := get_content_hash ((era_content.map Prod.snd).map format_u64)
    let eras := mapInsert cmpEra st.curr_era ⟨echecksum, era_content.map Prod.fst⟩ st.eras
    let digest_hash := mapInsert cmpEra st.curr_era echecksum st.digest_hash
    { st with eras, intervals, subintervals, int_content, era_content, digest_hash }

/-- `raw_log.sort()`: Rust's stable sort by the (timestamp-only) `LogEntry`
order, embedded as a stable insertion sort — any two stable sorts under the
same comparator compute the same function. -/
def sortInsert (e : LogEntry) : List LogEntry → List LogEntry
  | [] => [e]
  | x :: xs =>
    match cmpLog e x with
    | .gt => x :: sortInsert e xs
    | _ => e :: x :: xs

def sortLog : List LogEntry → List LogEntry
  | [] => []
  | e :: rest => sortInsert e (sortLog rest)

/-- `Digest::create_digest`. -/
def create_digest (timestamp : TS) (config : DigestConfig)
    (raw_log : List LogEntry) (latest_interval : Nat) : Digest :=
  let sorted := sortLog raw_log
  let st0 : CreateState := ⟨[], [], [], 0, 0, .Cold, [], [], [], []⟩
  let st := create_close (sorted.foldl (create_step config latest_interval) st0)
  let digest_content :=
    (match mapGet cmpEra .Cold st.digest_hash with | some c => [c] | none => []) ++
    (match mapGet cmpEra .Warm st.digest_hash with | some c => [c] | none => []) ++
    (match mapGet cmpEra .Hot st.digest_hash with | some c => [c] | none => [])
  { timestamp
    config
    checksum := get_content_hash (digest_content.map format_u64)
    eras := st.eras
    intervals := st.intervals
    subintervals := st.subintervals }

/-! ## Replica digest: `update_digest` -/

/-- The evolving state of the two passes of `update_digest`: the digest being
mutated plus the three `*_to_update` accumulation sets. -/
structure UpdateState where
  digest : Digest
  subs_upd : List Nat
  ints_upd : List Nat
  eras_upd : List EraType
deriving Repr

/-- One iteration of the `for log_entry in content` loop of
`Digest::update_new_content`. -/
def update_new_step (latest_interval : Nat) (st : UpdateState) (log_entry : LogEntry) :
    UpdateState :=
  let current := st.digest
  match get_subinterval current.config.delta log_entry.timestamp current.config.sub_intervals with
  | none => st
  | some subinterval =>
    let subs_upd := setInsert compare subinterval st.subs_upd
    match get_interval subinterval current.config.sub_intervals with
    | none => { st with subs_upd }
    | some interval =>
      let ints_upd := setInsert compare interval st.ints_upd
      let era := get_era current.config latest_interval interval
      let eras_upd := setInsert cmpEra era st.eras_upd
      let subintervals := mapUpsert compare subinterval
        (fun e => { e with content := btreeInsert cmpLog log_entry e.content })
        ⟨0, [log_entry]⟩ current.subintervals
      let intervals := mapUpsert compare interval
        (fun e => { e with content := btreeInsert compare subinterval e.content })
        ⟨0, [subinterval]⟩ current.intervals
      let eras := mapUpsert cmpEra era
        (fun e => { e with content := btreeInsert compare interval e.content })
        ⟨0, [interval]⟩ current.eras
      { st with
        digest := { current with subintervals, intervals, eras }
        subs_upd, ints_upd, eras_upd }

/-- `Digest::update_new_content`. -/
def update_new_content (current : Digest) (content : List LogEntry)
    (latest_interval : Nat) : UpdateState :=
  content.foldl (update_new_step latest_interval) ⟨current, [], [], []⟩

/-- One iteration of the `for entry in deleted_content` loop of
`Digest::remove_deleted_content`. -/
def remove_deleted_step (latest_interval : Nat) (st : UpdateState) (entry : LogEntry) :
    UpdateState :=
  let current := st.digest
  match get_subinterval current.config.delta entry.timestamp current.config.sub_intervals with
  | none => st
  | some subinterval =>
    let subs_upd := setInsert compare subinterval st.subs_upd
    match get_interval subinterval current.config.sub_intervals with
    | none => { st with subs_upd }
    | some interval =>
      let ints_upd := setInsert compare interval st.ints_upd
      let era := get_era current.config latest_interval interval
      let eras_upd := setInsert cmpEra era st.eras_upd
      match mapGet compare subinterval current.subintervals with
      | none => { st with subs_upd, ints_upd, eras_upd }
      | some sub =>
        let newSubContent := sub.content.filter
          (fun x => x.timestamp ≠ entry.timestamp ∨ x.key ≠ entry.key)
        let subintervals := mapAdjust compare subinterval
          (fun s => { s with content := newSubContent }) current.subintervals
        if newSubContent.isEmpty then
          match mapGet compare interval current.intervals with
          | none => { st with digest := { current with subintervals }, subs_upd, ints_upd, eras_upd }
          | some int =>
            let newIntContent := int.content.filter (fun x => x ≠ subinterval)
            let intervals := mapAdjust compare interval
              (fun i => { i with content := newIntContent }) current.intervals
            if newIntContent.isEmpty then
              let eras := mapAdjust cmpEra era
                (fun e => { e with content := e.content.filter (fun x => x ≠ interval) })
                current.eras
              { st with
                digest := { current with subintervals, intervals, eras }
                subs_upd, ints_upd
                eras_upd := setInsert cmpEra era eras_upd }
            else
              { st with
                digest := { current with subintervals, intervals }
                subs_upd, ints_upd, eras_upd }
        else
          { st with digest := { current with subintervals }, subs_upd, ints_upd, eras_upd }

/-- `Digest::remove_deleted_content`. -/
def remove_deleted_content (current : Digest) (deleted_content : List LogEntry)
    (latest_interval : Nat) : UpdateState :=
  deleted_content.foldl (remove_deleted_step latest_interval) ⟨current, [], [], []⟩

/-- `Digest::recalculate_era_content`: collect every interval sitting in the
`Hot` or `Warm` era bucket whose recomputed era differs, then migrate each
one between era buckets. -/
def recalculate_era_content (current : Digest) (latest_interval : Nat) :
    Digest × List EraType :=
  let moves := current.eras.foldl (fun acc (p : EraType × Interval) =>
    if p.1 = .Hot ∨ p.1 = .Warm then
      p.2.content.foldl (fun acc interval =>
        let new_era := get_era current.config latest_interval interval
        if new_era ≠ p.1 then (interval, p.1, new_era) :: acc else acc) acc
    else acc) []
  let eras_upd := moves.foldl (fun acc (m : Nat × EraType × EraType) =>
    setInsert cmpEra m.2.2 (setInsert cmpEra m.2.1 acc)) []
  let eras := moves.foldl (fun eras (m : Nat × EraType × EraType) =>
    let eras := mapAdjust cmpEra m.2.1
      (fun e => { e with content := e.content.filter (fun x => x ≠ m.1) }) eras
    mapUpsert cmpEra m.2.2
      (fun e => { e with content := btreeInsert compare m.1 e.content })
      ⟨0, [m.1]⟩ eras) current.eras
  ({ current with eras }, eras_upd)

/-- The subinterval reconstruction loop of `update_digest`: recompute the
checksum of every touched non-empty subinterval, drop the empty ones. -/
def recompute_subintervals (toUpd : List Nat) (subintervals : List (Nat × SubInterval)) :
    List (Nat × SubInterval) :=
  toUpd.foldl (fun subs sub =>
    match mapGet compare sub subs with
    | none => subs
    | some s =>
      if s.content.isEmpty then mapRemove compare sub subs
      else mapAdjust compare sub
        (fun s2 => { s2 with checksum := get_subinterval_checksum s2.content }) subs)
    subintervals

/-- The interval reconstruction loop: retain only children still present in
the subinterval map, recompute the checksum, drop intervals left empty. -/
def recompute_intervals (toUpd : List Nat) (subintervals : List (Nat × SubInterval))
    (intervals : List (Nat × Interval)) : List (Nat × Interval) :=
  toUpd.foldl (fun ints int =>
    match mapGet compare int ints with
    | none => ints
    | some i =>
      let content := i.content.filter (fun x => (mapGet compare x subintervals).isSome)
      if content.isEmpty then mapRemove compare int ints
      else mapAdjust compare int
        (fun _ => { checksum := get_interval_checksum content subintervals, content }) ints)
    intervals

/-- The era reconstruction loop. -/
def recompute_eras (toUpd : List EraType) (intervals : List (Nat × Interval))
    (eras : List (EraType × Interval)) : List (EraType × Interval) :=
  toUpd.foldl (fun eras era_type =>
    match mapGet cmpEra era_type eras with
    | none => eras
    | some e =>
      let content := e.content.filter (fun x => (mapGet compare x intervals).isSome)
      if content.isEmpty then mapRemove cmpEra era_type eras
      else mapAdjust cmpEra era_type
        (fun _ => { checksum := get_era_checksum content intervals, content }) eras)
    eras

/-- `Digest::update_digest`. -/
def update_digest (current : Digest) (latest_interval : Nat) (last_snapshot_time : TS)
    (new_content : List LogEntry) (deleted_content : List LogEntry) : Digest :=
  let removed := remove_deleted_content current deleted_content latest_interval
  let added := update_new_content removed.digest new_content latest_interval
  let realigned := recalculate_era_content added.digest latest_interval
  let subs_upd := setExtend compare added.subs_upd removed.subs_upd
  let ints_upd := setExtend compare added.ints_upd removed.ints_upd
  let eras_upd := setExtend cmpEra (setExtend cmpEra added.eras_upd removed.eras_upd)
    realigned.2
  let subintervals := recompute_subintervals subs_upd realigned.1.subintervals
  let intervals := recompute_intervals ints_upd subintervals realigned.1.intervals
  let eras := recompute_eras eras_upd intervals realigned.1.eras
  { timestamp := last_snapshot_time
    config := realigned.1.config
    checksum := get_digest_checksum eras
    eras, intervals, subintervals }

/-! ## Replica digest: `compress` -/

/-- `Digest::compress`: the hot-era loop copies each interval in full but
re-creates its subintervals with empty content; the warm-era loop keeps only
interval checksums; the cold era is flattened to its era checksum. -/
def compress (d : Digest) : Digest :=
  let hotPart :
      List (Nat × Interval) × List (Nat × SubInterval) :=
    match mapGet cmpEra .Hot d.eras with
    | none => ([], [])
    | some eras =>
      eras.content.foldl (fun acc int =>
        match mapGet compare int d.intervals with
        | none => acc
        | some inter =>
          let acc1 := mapInsert compare int inter acc.1
          let acc2 := inter.content.foldl (fun acc2 sub =>
            match mapGet compare sub d.subintervals with
            | none => acc2
            | some subinterval =>
              mapInsert compare sub ⟨subinterval.checksum, []⟩ acc2) acc.2
          (acc1, acc2)) ([], [])
  let compressed :=
    match mapGet cmpEra .Warm d.eras with
    | none => hotPart.1
    | some era =>
      era.content.foldl (fun acc int =>
        match mapGet compare int d.intervals with
        | none => acc
        | some interval =>
          mapInsert compare int ⟨interval.checksum, []⟩ acc) hotPart.1
  let compressed_eras := d.eras.foldl (fun acc (p : EraType × Interval) =>
    if p.1 = .Cold then
      mapInsert cmpEra .Cold ⟨p.2.checksum, []⟩ acc
    else
      mapInsert cmpEra p.1 p.2 acc) []
  { timestamp := d.timestamp
    config := d.config
    checksum := d.checksum
    eras := compressed_eras
    intervals := compressed
    subintervals := hotPart.2 }

/-! ## Queryable declaration engine (`net/routing/hat/queries.rs`) -/

inductive WhatAmI where
  | Router
  | Peer
  | Client
deriving DecidableEq, Repr

/-- `QueryableInfo { complete: u8, distance: u8 }`. -/
structure QueryableInfo where
  complete : Nat
  distance : Nat
deriving DecidableEq, Repr

/-- `merge_qabl_infos` in the default build (`not(feature = "complete_n")`):
`complete` becomes `u8::from(this.complete != 0 || info.complete != 0)` and
`distance` the minimum of the two distances. -/
def merge_qabl_infos (this : QueryableInfo) (info : QueryableInfo) : QueryableInfo :=
  { complete := if this.complete ≠ 0 ∨ info.complete ≠ 0 then 1 else 0
    distance := min this.distance info.distance }

/-- The attributes of a `FaceState` the queryable engine reads. -/
structure FaceState where
  id : Nat
  zid : Nat
  whatami : WhatAmI
deriving DecidableEq, Repr

/-- A `SessionContext` restricted to the fields the queryable engine reads. -/
structure SessionContext where
  face : FaceState
  qabl : Option QueryableInfo
deriving DecidableEq, Repr

/-- A resource `Context` restricted to the queryable registrations; the maps
are keyed by `ZenohId` (embedded as `Nat`). -/
structure ResContext where
  router_qabls : List (Nat × QueryableInfo)
  peer_qabls : List (Nat × QueryableInfo)
deriving DecidableEq, Repr

/-- A `Resource` restricted to what `local_qabl_info` and its siblings read;
`session_ctxs` is kept in `.values()` iteration order. -/
structure Resource where
  context : Option ResContext
  session_ctxs : List SessionContext
deriving DecidableEq, Repr

/-- The slice of `Tables` the aggregation functions read.  `full_peer_net`
models `tables.hat.full_net(WhatAmI::Peer)` and `failover_brokering` models
`tables.hat.failover_brokering`; both live in `hat/mod.rs`, outside the
analysed sources — the spec describes them as the operator's
fully-connected-peer-mesh policy flag and the peer link-disjoint
reachability predicate. -/
structure TablesQ where
  whatami : WhatAmI
  zid : Nat
  full_peer_net : Bool
  failover_brokering : Nat → Nat → Bool

/-- The `fold(None, |accu, (zid, info)| ...)` closure all three aggregation
functions run over a zid-keyed registration map: merge entries whose zid
differs from the local one, skip the rest. -/
def qabl_fold_step (zid : Nat) (accu : Option QueryableInfo) (p : Nat × QueryableInfo) :
    Option QueryableInfo :=
  if p.1 ≠ zid then
    some (match accu with
      | some a => merge_qabl_infos a p.2
      | none => p.2)
  else accu

/-- The `fold(info, |accu, ctx| ...)` closure over `session_ctxs.values()`:
merge the context's queryable info when one is registered. -/
def session_fold_step (accu : Option QueryableInfo) (ctx : SessionContext) :
    Option QueryableInfo :=
  match ctx.qabl with
  | some info =>
    some (match accu with
      | some a => merge_qabl_infos a info
      | none => info)
  | none => accu

/-- `local_router_qabl_info`. -/
def local_router_qabl_info (tables : TablesQ) (res : Resource) : QueryableInfo :=
  let info : Option QueryableInfo :=
    if tables.full_peer_net then
      match res.context with
      | some ctx => ctx.peer_qabls.foldl (qabl_fold_step tables.zid) none
      | none => none
    else none
  (res.session_ctxs.foldl session_fold_step info).getD ⟨0, 0⟩

/-- `local_peer_qabl_info`. -/
def local_peer_qabl_info (tables : TablesQ) (res : Resource) : QueryableInfo :=
  let info : Option QueryableInfo :=
    if tables.whatami = .Router then
      match res.context with
      | some ctx => ctx.router_qabls.foldl (qabl_fold_step tables.zid) none
      | none => none
    else none
  (res.session_ctxs.foldl session_fold_step info).getD ⟨0, 0⟩

/-- `local_qabl_info`'s session-context visibility test, with Rust's
`&&`/`||` precedence kept: `(ctx.face.id != face.id && ctx.face.whatami !=
Peer) || face.whatami != Peer || failover_brokering(ctx.face.zid,
face.zid)`. -/
def qabl_vis (tables : TablesQ) (face : FaceState) (ctx : SessionContext) : Bool :=
  (ctx.face.id != face.id && ctx.face.whatami != .Peer)
    || face.whatami != .Peer
    || tables.failover_brokering ctx.face.zid face.zid

/-- The guarded session-context fold step of `local_qabl_info`. -/
def vis_fold_step (tables : TablesQ) (face : FaceState)
    (accu : Option QueryableInfo) (ctx : SessionContext) : Option QueryableInfo :=
  if qabl_vis tables face ctx then session_fold_step accu ctx else accu

/-- `local_qabl_info`. -/
def local_qabl_info (tables : TablesQ) (res : Resource) (face : FaceState) :
    QueryableInfo :=
  let info : Option QueryableInfo :=
    if tables.whatami = .Router then
      match res.context with
      | some ctx => ctx.router_qabls.foldl (qabl_fold_step tables.zid) none
      | none => none
    else none
  let info : Option QueryableInfo :=
    if res.context.isSome ∧ tables.full_peer_net then
      match res.context with
      | some ctx => ctx.peer_qabls.foldl (qabl_fold_step tables.zid) info
      | none => info
    else info
  (res.session_ctxs.foldl (vis_fold_step tables face) info).getD ⟨0, 0⟩

/-- Merging one more queryable info into an optional accumulator — the shape
shared by every fold step of the aggregation functions. -/
def opt_merge (a : Option QueryableInfo) (i : QueryableInfo) : Option QueryableInfo :=
  some (match a with
    | some x => merge_qabl_infos x i
    | none => i)

/-- The merge-fold the spec describes: the first selected entry taken as is,
the rest merged in with `merge_qabl_infos`, the default when nothing is
selected. -/
def spec_merge_fold (l : List QueryableInfo) : QueryableInfo :=
  match l with
  | [] => ⟨0, 0⟩
  | h :: t => t.foldl merge_qabl_infos h

/-- The zid-filtered infos of a registration map. -/
def sel_qabls (zid : Nat) (m : List (Nat × QueryableInfo)) : List QueryableInfo :=
  (m.filter (fun p => p.1 ≠ zid)).map Prod.snd

/-- The claim's session-context visibility test — the **disjunction** of the
id test and the role test (`ctx.face.id ≠ dst.id ∨ ctx.face.role ≠ Peer`),
or dst is not a Peer, or failover brokering holds. -/
def qabl_vis_or (tables : TablesQ) (face : FaceState) (ctx : SessionContext) : Bool :=
  (ctx.face.id != face.id || ctx.face.whatami != .Peer)
    || face.whatami != .Peer
    || tables.failover_brokering ctx.face.zid face.zid

/-- The corrected visibility test — the **conjunction** of the id test and the
role test, as the source's operator precedence dictates. -/
def qabl_vis_and (tables : TablesQ) (face : FaceState) (ctx : SessionContext) : Bool :=
  (ctx.face.id != face.id && ctx.face.whatami != .Peer)
    || face.whatami != .Peer
    || tables.failover_brokering ctx.face.zid face.zid

/-- The claim's reading of `local_qabl_info` — the session-context entries
selected with the **disjunction** of the id test and the role test. -/
def spec_local_qabl_info_or (tables : TablesQ) (res : Resource) (face : FaceState) :
    QueryableInfo :=
  spec_merge_fold (
    (if tables.whatami = .Router then
      match res.context with
      | some ctx => sel_qabls tables.zid ctx.router_qabls
      | none => []
    else []) ++
    (if tables.full_peer_net then
      match res.context with
      | some ctx => sel_qabls tables.zid ctx.peer_qabls
      | none => []
    else []) ++
    ((res.session_ctxs.filter (qabl_vis_or tables face)).filterMap
      SessionContext.qabl))

/-- The corrected reading — identical except that the session-context selector
is the conjunction version. -/
def spec_local_qabl_info_and (tables : TablesQ) (res : Resource) (face : FaceState) :
    QueryableInfo :=
  spec_merge_fold (
    (if tables.whatami = .Router then
      match res.context with
      | some ctx => sel_qabls tables.zid ctx.router_qabls
      | none => []
    else []) ++
    (if tables.full_peer_net then
      match res.context with
      | some ctx => sel_qabls tables.zid ctx.peer_qabls
      | none => []
    else []) ++
    ((res.session_ctxs.filter (qabl_vis_and tables face)).filterMap
      SessionContext.qabl))

/-! ### Node-removal slice (`queries_remove_node` and callees) -/

/-- A face together with its `local_qabls` registry (`Resource → QueryableInfo`,
keyed here by resource id); the outbound `primitives` sink is external I/O and
is not part of the state. -/
structure FaceR where
  id : Nat
  zid : Nat
  whatami : WhatAmI
  local_qabls : List (Nat × QueryableInfo)
deriving DecidableEq, Repr

/-- A resource with a live context: its queryable registrations and session
contexts.  `id` stands for the `Arc` identity that `Arc::ptr_eq` and the hat
sets use. -/
structure QRes where
  id : Nat
  router_qabls : List (Nat × QueryableInfo)
  peer_qabls : List (Nat × QueryableInfo)
  session_ctxs : List SessionContext
deriving DecidableEq, Repr

/-- The tables state the node-removal path touches: the resource store, the
two hat-level global registries (`tables.hat.router_qabls` /
`tables.hat.peer_qabls`, kept as resource-id sets), and the faces.  Route
caches are outside this slice (their recomputation does not touch any
registration).  `full_peer_net` and `failover_brokering` are modelled from the
spec as in `TablesQ`. -/
structure TablesR where
  whatami : WhatAmI
  zid : Nat
  full_peer_net : Bool
  failover_brokering : Nat → Nat → Bool
  resources : List QRes
  hat_router_qabls : List Nat
  hat_peer_qabls : List Nat
  faces : List FaceR

def TablesR.toQ (t : TablesR) : TablesQ :=
  ⟨t.whatami, t.zid, t.full_peer_net, t.failover_brokering⟩

def QRes.toResource (r : QRes) : Resource :=
  ⟨some ⟨r.router_qabls, r.peer_qabls⟩, r.session_ctxs⟩

def FaceR.toState (f : FaceR) : FaceState :=
  ⟨f.id, f.zid, f.whatami⟩

def findRes (t : TablesR) (rid : Nat) : Option QRes :=
  t.resources.find? (fun r => r.id == rid)

def updRes (t : TablesR) (rid : Nat) (f : QRes → QRes) : TablesR :=
  { t with resources := t.resources.map (fun r => if r.id = rid then f r else r) }

/-- `propagate_simple_queryable` (its state effect: updating each destination
face's `local_qabls`; the declare send is external I/O). -/
def propagate_role_ok (t : TablesR) (src : Option FaceState) (dst : FaceR) : Bool :=
  match t.whatami with
  | .Router =>
    if t.full_peer_net then dst.whatami == .Client
    else dst.whatami != .Router
      && (src.isNone
          || (src.map FaceState.whatami).getD .Client != .Peer
          || dst.whatami != .Peer
          || t.failover_brokering ((src.map FaceState.zid).getD 0) dst.zid)
  | .Peer =>
    if t.full_peer_net then dst.whatami == .Client
    else src.isNone
      || (src.map FaceState.whatami).getD .Client == .Client
      || dst.whatami == .Client
  | .Client =>
    src.isNone
      || (src.map FaceState.whatami).getD .Client == .Client
      || dst.whatami == .Client

/-- `propagate_simple_queryable` (its state effect: updating each destination
face's `local_qabls`; the declare send is external I/O). -/
def propagate_simple_queryable (t : TablesR) (res : QRes) (src : Option FaceState) :
    TablesR :=
  { t with faces := t.faces.map (fun dst =>
      let info := local_qabl_info t.toQ res.toResource dst.toState
      let current := mapGet compare res.id dst.local_qabls
      if (src.isNone || (src.map FaceState.id).getD 0 != dst.id)
          && (current.isNone || current != some info)
          && propagate_role_ok t src dst then
        { dst with local_qabls := mapInsert compare res.id info dst.local_qabls }
      else dst) }

/-- `propagate_forget_simple_queryable` (state effect only). -/
def propagate_forget_simple_queryable (t : TablesR) (rid : Nat) : TablesR :=
  { t with faces := t.faces.map (fun face =>
      if (mapGet compare rid face.local_qabls).isSome then
        { face with local_qabls := mapRemove compare rid face.local_qabls }
      else face) }

/-- `propagate_forget_simple_queryable_to_peers` (state effect only). -/
def propagate_forget_simple_queryable_to_peers (t : TablesR) (res : QRes) : TablesR :=
  if ¬ t.full_peer_net
      ∧ res.router_qabls.length = 1
      ∧ (mapGet compare t.zid res.router_qabls).isSome then
    { t with faces := t.faces.map (fun face =>
        if face.whatami = .Peer
            ∧ (mapGet compare res.id face.local_qabls).isSome
            ∧ ¬ res.session_ctxs.any (fun s =>
                face.zid ≠ s.face.zid
                ∧ s.qabl.isSome
                ∧ (s.face.whatami = .Client
                    ∨ (s.face.whatami = .Peer
                        ∧ t.failover_brokering s.face.zid face.zid))) then
          { face with local_qabls := mapRemove compare res.id face.local_qabls }
        else face) }
  else t

/-- `register_peer_queryable` (sourced propagation only sends, so its state
effect is the registration and the client propagation at peers). -/
def register_peer_queryable (t : TablesR) (face : Option FaceState) (rid : Nat)
    (qabl_info : QueryableInfo) (peer : Nat) : TablesR :=
  match findRes t rid with
  | none => t
  | some res =>
    let current := mapGet compare peer res.peer_qabls
    let t :=
      if current.isNone ∨ current ≠ some qabl_info then
        let t := updRes t rid (fun r =>
          { r with peer_qabls := mapInsert compare peer qabl_info r.peer_qabls })
        { t with hat_peer_qabls := setInsert compare rid t.hat_peer_qabls }
      else t
    if t.whatami = .Peer then
      match findRes t rid with
      | some res2 => propagate_simple_queryable t res2 face
      | none => t
    else t

/-- `unregister_peer_queryable`. -/
def unregister_peer_queryable (t : TablesR) (rid : Nat) (peer : Nat) : TablesR :=
  let t := updRes t rid (fun r =>
    { r with peer_qabls := mapRemove compare peer r.peer_qabls })
  match findRes t rid with
  | none => t
  | some res =>
    if res.peer_qabls.isEmpty then
      let t := { t with hat_peer_qabls := t.hat_peer_qabls.filter (fun x => x ≠ rid) }
      if t.whatami = .Peer then propagate_forget_simple_queryable t rid else t
    else t

/-- `undeclare_peer_queryable` (the sourced forget only sends). -/
def undeclare_peer_queryable (t : TablesR) (rid : Nat) (peer : Nat) : TablesR :=
  match findRes t rid with
  | none => t
  | some res =>
    if (mapGet compare peer res.peer_qabls).isSome then
      unregister_peer_queryable t rid peer
    else t

/-- `unregister_router_queryable`. -/
def unregister_router_queryable (t : TablesR) (rid : Nat) (router : Nat) : TablesR :=
  let t := updRes t rid (fun r =>
    { r with router_qabls := mapRemove compare router r.router_qabls })
  let t :=
    match findRes t rid with
    | none => t
    | some res =>
      if res.router_qabls.isEmpty then
        let t := { t with hat_router_qabls := t.hat_router_qabls.filter (fun x => x ≠ rid) }
        let t := if t.full_peer_net then undeclare_peer_queryable t rid t.zid else t
        propagate_forget_simple_queryable t rid
      else t
  match findRes t rid with
  | none => t
  | some res => propagate_forget_simple_queryable_to_peers t res

/-- `undeclare_router_queryable`. -/
def undeclare_router_queryable (t : TablesR) (rid : Nat) (router : Nat) : TablesR :=
  match findRes t rid with
  | none => t
  | some res =>
    if (mapGet compare router res.router_qabls).isSome then
      unregister_router_queryable t rid router
    else t

/-- `register_router_queryable` (sourced propagation only sends). -/
def register_router_queryable (t : TablesR) (face : Option FaceState) (rid : Nat)
    (qabl_info : QueryableInfo) (router : Nat) : TablesR :=
  match findRes t rid with
  | none => t
  | some res =>
    let current := mapGet compare router res.router_qabls
    let t :=
      if current.isNone ∨ current ≠ some qabl_info then
        let t := updRes t rid (fun r =>
          { r with router_qabls := mapInsert compare router qabl_info r.router_qabls })
        { t with hat_router_qabls := setInsert compare rid t.hat_router_qabls }
      else t
    let t :=
      if t.full_peer_net then
        if face.isNone ∨ (face.map FaceState.whatami).getD .Client ≠ .Peer then
          match findRes t rid with
          | some res2 =>
            let local_info := local_peer_qabl_info t.toQ res2.toResource
            register_peer_queryable t face rid local_info t.zid
          | none => t
        else t
      else t
    match findRes t rid with
    | some res2 => propagate_simple_queryable t res2 face
    | none => t

/-- `remote_peer_qabls`. -/
def remote_peer_qabls (t : TablesR) (res : QRes) : Bool :=
  res.peer_qabls.any (fun p => p.1 ≠ t.zid)

/-- Modelled from the spec: `Resource::clean` (dispatcher/resource.rs, outside
the analysed sources) — a resource whose context has no registrations left
(I3: router/peer queryable maps empty, no live session registration) is
removed from the store. -/
def clean_resource (t : TablesR) (rid : Nat) : TablesR :=
  { t with resources := t.resources.filter (fun r =>
      ¬ (r.id = rid ∧ r.router_qabls.isEmpty ∧ r.peer_qabls.isEmpty
          ∧ r.session_ctxs.all (fun s => s.qabl.isNone))) }

/-- `queries_remove_node`.  Both branches select the resources to purge by
scanning `tables.hat.router_qabls` and matching the node against
`res.context().router_qabls` — also in the `WhatAmI::Peer` branch, which then
unregisters from the **peer** scope (`pubsub_remove_node` scans
`hat.peer_subs` / `peer_subs` at the same place).  Route-cache recomputation
(`compute_matches_query_routes_`) touches no registration and is outside this
slice. -/
def queries_remove_node (t : TablesR) (node : Nat) (net_type : WhatAmI) : TablesR :=
  match net_type with
  | .Router =>
    let qabls := t.hat_router_qabls.filter (fun rid =>
      match findRes t rid with
      | some res => (mapGet compare node res.router_qabls).isSome
      | none => false)
    qabls.foldl (fun t rid =>
      let t := unregister_router_queryable t rid node
      clean_resource t rid) t
  | .Peer =>
    let qabls := t.hat_router_qabls.filter (fun rid =>
      match findRes t rid with
      | some res => (mapGet compare node res.router_qabls).isSome
      | none => false)
    qabls.foldl (fun t rid =>
      let t := unregister_peer_queryable t rid node
      let t :=
        if t.whatami = .Router then
          match findRes t rid with
          | none => t
          | some res =>
            let client_qabls := res.session_ctxs.any (fun ctx => ctx.qabl.isSome)
            let peer_qabls := remote_peer_qabls t res
            if ¬ client_qabls ∧ ¬ peer_qabls then
              undeclare_router_queryable t rid t.zid
            else
              let local_info := local_router_qabl_info t.toQ res.toResource
              register_router_queryable t none rid local_info t.zid
        else t
      clean_resource t rid) t
  | .Client => t

/-! ## ZenohId codec (`zenoh-codec/src/core/zenohid.rs`) -/

/-- `ZenohId::MAX_SIZE`. -/
def zenohid_max_size : Nat := 16

/-- Modelled from the spec: a Zid is a 1–16 byte opaque identity, so
`ZenohId::try_from(&[u8])` (zenoh-protocol, outside the analysed sources)
accepts exactly the byte slices of length 1 to `MAX_SIZE` and
`as_slice` returns those bytes back. -/
def zenohid_try_from (bs : List Nat) : Option (List Nat) :=
  if 1 ≤ bs.length ∧ bs.length ≤ zenohid_max_size then some bs else none

/-- `Reader::read_exact` over a byte stream: take exactly `n` bytes or fail. -/
def read_exact (n : Nat) (input : List Nat) : Option (List Nat × List Nat) :=
  if n ≤ input.length then some (input.take n, input.drop n) else none

/-- Modelled from the spec: the external codec's variable-length `usize`
encoding (`Zenoh080`'s zint, little-endian base-128 continuation bytes),
which `zenohid.rs` invokes for the length prefix. -/
def write_usize (n : Nat) : List Nat :=
  if h : n < 128 then [n]
  else (n % 128 + 128) :: write_usize (n / 128)
decreasing_by
  exact Nat.div_lt_self (by omega) (by omega)

/-- Modelled from the spec: the matching variable-length `usize` decoder. -/
def read_usize : List Nat → Option (Nat × List Nat)
  | [] => none
  | b :: rest =>
    if b < 128 then some (b, rest)
    else
      match read_usize rest with
      | some (m, r2) => some ((b - 128) + 128 * m, r2)
      | none => none

/-- `impl RCodec<ZenohId> for Zenoh080`: read the length prefix, reject sizes
above `MAX_SIZE`, read that many bytes, convert. -/
def zenoh080_read_zenohid (input : List Nat) : Option (List Nat × List Nat) :=
  match read_usize input with
  | none => none
  | some (size, rest) =>
    if size > zenohid_max_size then none
    else
      match read_exact size rest with
      | none => none
      | some (bytes, rest2) => (zenohid_try_from bytes).map (fun id => (id, rest2))

/-- `impl WCodec<&ZenohId> for Zenoh080`: `self.write(writer, x.as_slice())` —
the external slice codec writes the length prefix then the bytes. -/
def zenoh080_write_zenohid (id : List Nat) : List Nat :=
  write_usize id.length ++ id

/-- `impl WCodec<&ZenohId> for Zenoh080Length`: reject a configured length
above `MAX_SIZE`, then write the raw bytes. -/
def zenoh080length_write_zenohid (length : Nat) (id : List Nat) : Option (List Nat) :=
  if length > zenohid_max_size then none else some id

/-- `impl RCodec<ZenohId> for Zenoh080Length`. -/
def zenoh080length_read_zenohid (length : Nat) (input : List Nat) :
    Option (List Nat × List Nat) :=
  if length > zenohid_max_size then none
  else
    match read_exact length input with
    | none => none
    | some (bytes, rest) => (zenohid_try_from bytes).map (fun id => (id, rest))

/-! ## Key-expression tree iterator (`keyexpr_tree/iters/tree_iter.rs`) -/

/-- A key-expression tree node: a label and its children collection. -/
inductive KTree where
  | node : Nat → List KTree → KTree

def KTree.children : KTree → List KTree
  | .node _ cs => cs

mutual

def treeSize : KTree → Nat
  | .node _ cs => 1 + forestSize cs

def forestSize : List KTree → Nat
  | [] => 0
  | t :: ts => treeSize t + forestSize ts

end

/-- The measure under which the iterator's work decreases: twice the nodes
still reachable plus the stack height. -/
def stackMeasure (st : List (List KTree)) : Nat :=
  2 * (st.map forestSize).sum + st.length

/-- `TreeIter::next`: the iterator state is the stack of child iterators
(`iterators`, top of the `Vec` = head of the list, each iterator being the
children not yet yielded).  Yield the top iterator's next node after pushing
its children; pop exhausted iterators; stop on an empty stack. -/
def tree_iter_next : List (List KTree) → Option (KTree × List (List KTree))
  | [] => none
  | [] :: rest => tree_iter_next rest
  | (t :: ts) :: rest => some (t, t.children :: ts :: rest)

/-- `DepthInstrumented<TreeIter>::next`: same loop, also returning
`iterators.len()` read just before the yield (the value wrapped with
`NonZeroUsize::new_unchecked`). -/
def depth_next : List (List KTree) → Option (Nat × KTree × List (List KTree))
  | [] => none
  | [] :: rest => depth_next rest
  | (t :: ts) :: rest => some (rest.length + 1, t, t.children :: ts :: rest)

/-- The full run of `DepthInstrumented<TreeIter>` from a stack state: every
yielded `(depth, node)` pair in order. -/
def tree_trace : List (List KTree) → List (Nat × KTree)
  | [] => []
  | [] :: rest => tree_trace rest
  | (t :: ts) :: rest => (rest.length + 1, t) :: tree_trace (t.children :: ts :: rest)
termination_by st => stackMeasure st
decreasing_by
  · simp [stackMeasure, forestSize] <;> omega
  · rcases t with ⟨a, cs⟩
    simp [stackMeasure, forestSize, KTree.children, treeSize] <;> omega

mutual

/-- Depth-annotated pre-order flatten of a tree: the node labelled with `d`
(one more than its ancestor count when started at `d = 1`), then its
descendants labelled one deeper. -/
def preFlat (d : Nat) : KTree → List (Nat × KTree)
  | .node a cs => (d, .node a cs) :: preForest (d + 1) cs

def preForest (d : Nat) : List KTree → List (Nat × KTree)
  | [] => []
  | t :: ts => preFlat d t ++ preForest d ts

end

mutual

/-- Plain depth-first pre-order flatten: every node before its descendants. -/
def preorderT : KTree → List KTree
  | .node a cs => .node a cs :: preorderF cs

def preorderF : List KTree → List KTree
  | [] => []
  | t :: ts => preorderT t ++ preorderF ts

end

/-- Depth-annotated pre-order of a whole iterator stack (top first, depths
decreasing with stack position). -/
def stackFlat : List (List KTree) → List (Nat × KTree)
  | [] => []
  | l :: rest => preForest (rest.length + 1) l ++ stackFlat rest

/-- The interval ids an era bucket of a digest holds (empty when the era is
absent) — the list `compress` iterates for the Hot and Warm eras. -/
def eraContent (d : Digest) (e : EraType) : List Nat :=
  match mapGet cmpEra e d.eras with
  | some b => b.content
  | none => []

/-- A one-entry digest whose single interval sits in the Hot era, used to
evaluate `compress` concretely. -/
def hotDigest : Digest :=
  { timestamp := ⟨0, 1⟩
    config := ⟨1000, 10, 6, 30⟩
    checksum := 7
    eras := [(.Hot, ⟨5, [3]⟩)]
    intervals := [(3, ⟨4, [31]⟩)]
    subintervals := [(31, ⟨9, [⟨⟨100, 1⟩, "k/a"⟩]⟩)] }

/-! ## Comparator and container predicates -/

/-- A total preorder presented as a comparator (the shape of Rust's `Ord`
implementations; `eq` need not coincide with structural equality, as for
`LogEntry`). -/
structure TotalCmp (cmp : α → α → Ordering) : Prop where
  refl : ∀ a, cmp a a = .eq
  swap : ∀ a b, cmp b a = (cmp a b).swap
  lt_trans : ∀ {a b c}, cmp a b = .lt → cmp b c = .lt → cmp a c = .lt
  lt_of_lt_of_eq : ∀ {a b c}, cmp a b = .lt → cmp b c = .eq → cmp a c = .lt
  lt_of_eq_of_lt : ∀ {a b c}, cmp a b = .eq → cmp b c = .lt → cmp a c = .lt

/-- A comparator whose `eq` is structural equality (the map keys: `u64`,
`EraType`). -/
structure KeyCmp (cmp : α → α → Ordering) : Prop where
  total : TotalCmp cmp
  eq_iff : ∀ a b, cmp a b = .eq ↔ a = b

/-- Sortedness of a container kept as a strictly ascending list. -/
def CSorted (cmp : α → α → Ordering) (l : List α) : Prop :=
  l.Pairwise (fun a b => cmp a b = .lt)

/-- Sortedness of an association list by its keys. -/
def MSorted (cmp : κ → κ → Ordering) (m : List (κ × ν)) : Prop :=
  m.Pairwise (fun p q => cmp p.1 q.1 = .lt)

/-! ## Round-trip analysis devices (`update_digest`) -/

/-- The subinterval id an entry buckets into. -/
def subId (cfg : DigestConfig) (e : LogEntry) : Option Nat :=
  get_subinterval cfg.delta e.timestamp cfg.sub_intervals

/-- The subinterval id of a valid entry. -/
def subOf (cfg : DigestConfig) (e : LogEntry) : Nat :=
  (subId cfg e).getD 0

/-- The interval id an entry buckets into. -/
def intId (cfg : DigestConfig) (e : LogEntry) : Option Nat :=
  (subId cfg e).map (fun s => s / cfg.sub_intervals)

/-- The interval id of a valid entry. -/
def intOf (cfg : DigestConfig) (e : LogEntry) : Nat :=
  (intId cfg e).getD 0

/-- The era an entry buckets into. -/
def eraId (cfg : DigestConfig) (li : Nat) (e : LogEntry) : Option EraType :=
  (intId cfg e).map (get_era cfg li)

/-- Fold of `BTreeSet` insertions. -/
def insAllC (cmp : α → α → Ordering) (S : List α) (b : List α) : List α :=
  S.foldl (fun c x => btreeInsert cmp x c) b

/-- One per-bucket step of the add pass on a subinterval bucket. -/
def bucketAdd (e : LogEntry) (b : Option SubInterval) : SubInterval :=
  match b with
  | some s => ⟨s.checksum, btreeInsert cmpLog e s.content⟩
  | none => ⟨0, [e]⟩

/-- The add pass restricted to one subinterval bucket. -/
def bucketAddAll (l : List LogEntry) (b : Option SubInterval) : Option SubInterval :=
  l.foldl (fun acc e => some (bucketAdd e acc)) b

/-- One per-bucket step of the add pass on an interval or era bucket. -/
def childAdd (c : Nat) (b : Option Interval) : Interval :=
  match b with
  | some i => ⟨i.checksum, btreeInsert compare c i.content⟩
  | none => ⟨0, [c]⟩

/-- The add pass restricted to one interval or era bucket. -/
def childAddAll (cs : List Nat) (b : Option Interval) : Option Interval :=
  cs.foldl (fun acc c => some (childAdd c acc)) b

/-- The subintervals-map component of the add pass. -/
def addSubs (cfg : DigestConfig) (A : List LogEntry) (m : List (Nat × SubInterval)) :
    List (Nat × SubInterval) :=
  A.foldl (fun m e =>
    match subId cfg e with
    | none => m
    | some sub => mapUpsert compare sub
        (fun s => { s with content := btreeInsert cmpLog e s.content })
        ⟨0, [e]⟩ m) m

/-- The intervals-map component of the add pass. -/
def addInts (cfg : DigestConfig) (A : List LogEntry) (m : List (Nat × Interval)) :
    List (Nat × Interval) :=
  A.foldl (fun m e =>
    match subId cfg e with
    | none => m
    | some sub => mapUpsert compare (sub / cfg.sub_intervals)
        (fun i => { i with content := btreeInsert compare sub i.content })
        ⟨0, [sub]⟩ m) m

/-- The eras-map component of the add pass. -/
def addEras (cfg : DigestConfig) (li : Nat) (A : List LogEntry)
    (m : List (EraType × Interval)) : List (EraType × Interval) :=
  A.foldl (fun m e =>
    match subId cfg e with
    | none => m
    | some sub => mapUpsert cmpEra (get_era cfg li (sub / cfg.sub_intervals))
        (fun b => { b with
          content := btreeInsert compare (sub / cfg.sub_intervals) b.content })
        ⟨0, [sub / cfg.sub_intervals]⟩ m) m

/-- The `subintervals_to_update` component of either pass. -/
def updSubs (cfg : DigestConfig) (A : List LogEntry) (s0 : List Nat) : List Nat :=
  A.foldl (fun s e =>
    match subId cfg e with
    | none => s
    | some sub => setInsert compare sub s) s0

/-- The `intervals_to_update` component of either pass. -/
def updInts (cfg : DigestConfig) (A : List LogEntry) (s0 : List Nat) : List Nat :=
  A.foldl (fun s e =>
    match subId cfg e with
    | none => s
    | some sub => setInsert compare (sub / cfg.sub_intervals) s) s0

/-- The `eras_to_update` component of either pass. -/
def updEras (cfg : DigestConfig) (li : Nat) (A : List LogEntry) (s0 : List EraType) :
    List EraType :=
  A.foldl (fun s e =>
    match subId cfg e with
    | none => s
    | some sub => setInsert cmpEra (get_era cfg li (sub / cfg.sub_intervals)) s) s0

/-- Sequential structural-removal filters of a removal prefix. -/
def rmAll (P : List LogEntry) (l : List LogEntry) : List LogEntry :=
  P.foldl (fun l e =>
    l.filter (fun x => x.timestamp ≠ e.timestamp ∨ x.key ≠ e.key)) l

/-- `x` survives every structural-removal filter of `S`. -/
def freshPred (S : List LogEntry) (x : LogEntry) : Bool :=
  S.all (fun e => decide (x.timestamp ≠ e.timestamp ∨ x.key ≠ e.key))

/-- The entries of a removal prefix that bucket into subinterval `sid`. -/
def psub (cfg : DigestConfig) (P : List LogEntry) (sid : Nat) : List LogEntry :=
  P.filter (fun e => subId cfg e = some sid)

/-- The entries of a list that bucket into interval `i`. -/
def pint (cfg : DigestConfig) (P : List LogEntry) (i : Nat) : List LogEntry :=
  P.filter (fun e => intId cfg e = some i)

/-- The entries of a list that bucket into era `er`. -/
def pera (cfg : DigestConfig) (li : Nat) (P : List LogEntry) (er : EraType) :
    List LogEntry :=
  P.filter (fun e => eraId cfg li e = some er)

/-- Subinterval bucket `sid` of `msub` is emptied by removing prefix `P`. -/
def subEmptyB (cfg : DigestConfig) (msub : List (Nat × SubInterval))
    (P : List LogEntry) (sid : Nat) : Bool :=
  match mapGet compare sid msub with
  | some s => (rmAll (psub cfg P sid) s.content).isEmpty
  | none => false

/-- Interval bucket `i` of `mint` is emptied by removing prefix `P`: every
child subinterval collapses. -/
def intEmptyB (cfg : DigestConfig) (msub : List (Nat × SubInterval))
    (mint : List (Nat × Interval)) (P : List LogEntry) (i : Nat) : Bool :=
  match mapGet compare i mint with
  | some b => (b.content.filter (fun sid => ! subEmptyB cfg msub P sid)).isEmpty
  | none => false

/-- The value the interval reconstruction loop leaves at a touched key. -/
def recompute_int_val (subs : List (Nat × SubInterval)) (o : Option Interval) :
    Option Interval :=
  match o with
  | none => none
  | some i =>
    let c := i.content.filter (fun x => (mapGet compare x subs).isSome)
    if c.isEmpty then none else some ⟨get_interval_checksum c subs, c⟩

/-- The value the era reconstruction loop leaves at a touched key. -/
def recompute_era_val (ints : List (Nat × Interval)) (o : Option Interval) :
    Option Interval :=
  match o with
  | none => none
  | some b =>
    let c := b.content.filter (fun x => (mapGet compare x ints).isSome)
    if c.isEmpty then none else some ⟨get_era_checksum c ints, c⟩

/-- The invariant the removal fold maintains, relative to the digest `D1` the
fold starts from: every bucket's content carries the accumulated structural
filters of the processed prefix `P`, the parent contents drop exactly the
collapsed children, checksums and sortedness are untouched, and the
`*_to_update` sets hold exactly the prefix's bucket ids. -/
def RemInv (cfg : DigestConfig) (li : Nat) (D1 : Digest) (P : List LogEntry)
    (st : UpdateState) : Prop :=
  st.digest.config = cfg
  ∧ st.digest.timestamp = D1.timestamp
  ∧ st.digest.checksum = D1.checksum
  ∧ (∀ sid, mapGet compare sid st.digest.subintervals
      = (mapGet compare sid D1.subintervals).map
          (fun s => ⟨s.checksum, rmAll (psub cfg P sid) s.content⟩))
  ∧ (∀ i, mapGet compare i st.digest.intervals
      = (mapGet compare i D1.intervals).map
          (fun b => ⟨b.checksum, b.content.filter
            (fun sid => ! subEmptyB cfg D1.subintervals P sid)⟩))
  ∧ (∀ er, mapGet cmpEra er st.digest.eras
      = (mapGet cmpEra er D1.eras).map
          (fun b => ⟨b.checksum, b.content.filter
            (fun i => ! intEmptyB cfg D1.subintervals D1.intervals P i)⟩))
  ∧ MSorted compare st.digest.subintervals
  ∧ MSorted compare st.digest.intervals
  ∧ MSorted cmpEra st.digest.eras
  ∧ (∀ k, k ∈ st.subs_upd ↔ ∃ e ∈ P, subId cfg e = some k)
  ∧ (∀ k, k ∈ st.ints_upd ↔ ∃ e ∈ P, intId cfg e = some k)
  ∧ (∀ k, k ∈ st.eras_upd ↔ ∃ e ∈ P, eraId cfg li e = some k)

/-- The digest invariant `update_digest` maintains, relative to the current
`latest_interval`: sorted maps, nonempty buckets whose stored checksums match
a recomputation, exact parent-child containment, and era assignment by
`get_era`. -/
def CoherentProp (D : Digest) (li : Nat) : Prop :=
  MSorted compare D.subintervals
  ∧ MSorted compare D.intervals
  ∧ MSorted cmpEra D.eras
  ∧ (∀ p ∈ D.subintervals,
      p.2.content ≠ []
      ∧ p.2.checksum = get_subinterval_checksum p.2.content
      ∧ p.1 ∈ ((mapGet compare (p.1 / D.config.sub_intervals) D.intervals).map
          Interval.content).getD [])
  ∧ (∀ q ∈ D.intervals,
      q.2.content ≠ []
      ∧ CSorted compare q.2.content
      ∧ q.2.checksum = get_interval_checksum q.2.content D.subintervals
      ∧ (∀ sid ∈ q.2.content,
          (mapGet compare sid D.subintervals).isSome
            ∧ sid / D.config.sub_intervals = q.1)
      ∧ q.1 ∈ ((mapGet cmpEra (get_era D.config li q.1) D.eras).map
          Interval.content).getD [])
  ∧ (∀ r ∈ D.eras,
      r.2.content ≠ []
      ∧ CSorted compare r.2.content
      ∧ r.2.checksum = get_era_checksum r.2.content D.intervals
      ∧ ∀ i ∈ r.2.content,
          (mapGet compare i D.intervals).isSome ∧ get_era D.config li i = r.1)
  ∧ D.checksum = get_digest_checksum D.eras

instance {cmp : κ → κ → Ordering} {m : List (κ × ν)} : Decidable (MSorted cmp m) := by
  unfold MSorted
  infer_instance

instance {cmp : α → α → Ordering} {l : List α} : Decidable (CSorted cmp l) := by
  unfold CSorted
  infer_instance

instance {D : Digest} {li : Nat} : Decidable (CoherentProp D li) := by
  unfold CoherentProp
  infer_instance

/-- The subintervals map `update_digest` computes when nothing is deleted. -/
def phase1subs (cfg : DigestConfig) (A : List LogEntry)
    (m : List (Nat × SubInterval)) : List (Nat × SubInterval) :=
  recompute_subintervals (updSubs cfg A []) (addSubs cfg A m)

/-- The intervals map `update_digest` computes when nothing is deleted. -/
def phase1ints (cfg : DigestConfig) (A : List LogEntry)
    (msub : List (Nat × SubInterval)) (m : List (Nat × Interval)) :
    List (Nat × Interval) :=
  recompute_intervals (updInts cfg A []) (phase1subs cfg A msub) (addInts cfg A m)

/-- The eras map `update_digest` computes when nothing is deleted. -/
def phase1eras (cfg : DigestConfig) (li : Nat) (A : List LogEntry)
    (msub : List (Nat × SubInterval)) (mint : List (Nat × Interval))
    (m : List (EraType × Interval)) : List (EraType × Interval) :=
  recompute_eras (updEras cfg li A []) (phase1ints cfg A msub mint)
    (addEras cfg li A m)

/-- The digest `update_digest` returns when nothing is deleted (assuming the
era realignment is a no-op, which `update_digest_nil_del` establishes). -/
def phase1 (D : Digest) (li : Nat) (ts : TS) (A : List LogEntry) : Digest :=
  { timestamp := ts
    config := D.config
    checksum := get_digest_checksum
      (phase1eras D.config li A D.subintervals D.intervals D.eras)
    eras := phase1eras D.config li A D.subintervals D.intervals D.eras
    intervals := phase1ints D.config A D.subintervals D.intervals
    subintervals := phase1subs D.config A D.subintervals }

/-- The subintervals map `update_digest` computes when nothing is added. -/
def phase2subs (D1 : Digest) (li : Nat) (A : List LogEntry) :
    List (Nat × SubInterval) :=
  recompute_subintervals
    (setExtend compare [] (remove_deleted_content D1 A li).subs_upd)
    (remove_deleted_content D1 A li).digest.subintervals

/-- The intervals map `update_digest` computes when nothing is added. -/
def phase2ints (D1 : Digest) (li : Nat) (A : List LogEntry) :
    List (Nat × Interval) :=
  recompute_intervals
    (setExtend compare [] (remove_deleted_content D1 A li).ints_upd)
    (phase2subs D1 li A)
    (remove_deleted_content D1 A li).digest.intervals

/-- The eras map `update_digest` computes when nothing is added. -/
def phase2eras (D1 : Digest) (li : Nat) (A : List LogEntry) :
    List (EraType × Interval) :=
  recompute_eras
    (setExtend cmpEra [] (remove_deleted_content D1 A li).eras_upd)
    (phase2ints D1 li A)
    (remove_deleted_content D1 A li).digest.eras

/-- The digest `update_digest` returns when nothing is added (assuming the
era realignment is a no-op, which `update_digest_nil_new` establishes). -/
def phase2 (D1 : Digest) (li : Nat) (ts : TS) (A : List LogEntry) : Digest :=
  { timestamp := ts
    config := (remove_deleted_content D1 A li).digest.config
    checksum := get_digest_checksum (phase2eras D1 li A)
    eras := phase2eras D1 li A
    intervals := phase2ints D1 li A
    subintervals := phase2subs D1 li A }

/-! ## Concrete example inputs -/

/-- The reference replication config: `delta = 1000 ms`, 10 subintervals,
6 hot and 30 warm intervals. -/
def c1cfg : DigestConfig := ⟨1000, 10, 6, 30⟩

def c1t0 : TS := ⟨0, 0⟩

def c1ts : TS := ⟨5, 1⟩

def c1e : LogEntry := ⟨⟨1671634800000, 1⟩, "demo/example/a"⟩

def c1li : Nat := 1671634800

/-- The empty digest at `c1li`. -/
def c1empty : Digest := create_digest c1t0 c1cfg [] c1li

/-- A digest already holding `c1e`. -/
def c1D : Digest := update_digest c1empty c1li c1t0 [c1e] []

/-- Tables for the `local_qabl_info` precedence example: a Router with no
fully-connected peer mesh and no failover brokering. -/
def c5tq : TablesQ := ⟨.Router, 0, false, fun _ _ => false⟩

/-- A resource with no sourced registrations and one session context: a Peer
face (id 1) with a registered queryable `⟨1, 5⟩`. -/
def c5res : Resource := ⟨some ⟨[], []⟩, [⟨⟨1, 10, .Peer⟩, some ⟨1, 5⟩⟩]⟩

/-- The destination face of the example: a different Peer (id 2). -/
def c5dst : FaceState := ⟨2, 20, .Peer⟩

/-- Tables for the aggregation order-independence example. -/
def c9tq : TablesQ := ⟨.Router, 0, true, fun _ _ => false⟩

def c9f : FaceState := ⟨9, 9, .Client⟩

def c9rq : List (Nat × QueryableInfo) := [(1, ⟨1, 2⟩), (2, ⟨0, 7⟩)]

def c9rq' : List (Nat × QueryableInfo) := [(2, ⟨0, 7⟩), (1, ⟨1, 2⟩)]

def c9pq : List (Nat × QueryableInfo) := [(3, ⟨0, 4⟩), (4, ⟨1, 9⟩)]

def c9pq' : List (Nat × QueryableInfo) := [(4, ⟨1, 9⟩), (3, ⟨0, 4⟩)]

def c9sc : List SessionContext :=
  [⟨⟨3, 3, .Client⟩, some ⟨1, 1⟩⟩, ⟨⟨4, 4, .Client⟩, none⟩]

def c9sc' : List SessionContext :=
  [⟨⟨4, 4, .Client⟩, none⟩, ⟨⟨3, 3, .Client⟩, some ⟨1, 1⟩⟩]

/-- A Peer's tables holding one resource whose **only** queryable registration
for node 5 is peer-scoped: `peer_qabls = [(5, ⟨1, 0⟩)]`, empty
`router_qabls`, listed in `hat.peer_qabls` alone. -/
def c4tables : TablesR :=
  { whatami := .Peer
    zid := 0
    full_peer_net := false
    failover_brokering := fun _ _ => false
    resources := [⟨1, [], [(5, ⟨1, 0⟩)], []⟩]
    hat_router_qabls := []
    hat_peer_qabls := [1]
    faces := [] }

/-- The same tables but with node 5 also registered router-scope (the shape
the removal loop's selector actually scans). -/
def c4tables2 : TablesR :=
  { c4tables with
    resources := [⟨1, [(5, ⟨1, 0⟩)], [(5, ⟨1, 0⟩)], []⟩]
    hat_router_qabls := [1] }

/-- A two-node chain for the tree-iterator example. -/
def c10t : KTree := .node 0 [.node 1 []]

/-! ## Comparator facts -/

theorem cmpTS_eq_iff (a b : TS) : cmpTS a b = .eq ↔ a = b := by
  unfold cmpTS
  rcases a with ⟨ams, auid⟩
  rcases b with ⟨bms, buid⟩
  rcases h : compare ams bms with _ | _ | _ <;>
    simp_all [compare_eq_iff_eq, compare_lt_iff_lt, compare_gt_iff_gt] <;> omega

theorem compare_swap_lin {α : Type} [LinearOrder α] (a b : α) :
    compare b a = (compare a b).swap := by
  rcases lt_trichotomy a b with h | h | h
  · rw [compare_lt_iff_lt.mpr h, compare_gt_iff_gt.mpr h]
    rfl
  · subst h
    rw [compare_eq_iff_eq.mpr rfl]
    rfl
  · rw [compare_gt_iff_gt.mpr h, compare_lt_iff_lt.mpr h]
    rfl

theorem cmpTS_swap (a b : TS) : cmpTS b a = (cmpTS a b).swap := by
  unfold cmpTS
  rw [compare_swap_lin a.ms b.ms]
  rcases h : compare a.ms b.ms with _ | _ | _ <;>
    simp [h, Ordering.swap, compare_swap_lin a.uid b.uid]

theorem cmpLog_swap (a b : LogEntry) : cmpLog b a = (cmpLog a b).swap :=
  cmpTS_swap a.timestamp b.timestamp

theorem cmpTS_le_iff (a b : TS) :
    cmpTS a b ≠ .gt ↔ (a.ms < b.ms ∨ (a.ms = b.ms ∧ a.uid ≤ b.uid)) := by
  unfold cmpTS
  rcases h : compare a.ms b.ms with _ | _ | _ <;>
    simp_all [compare_eq_iff_eq, compare_lt_iff_lt, compare_gt_iff_gt] <;>
      omega

theorem cmpLog_le_trans {a b c : LogEntry}
    (h1 : cmpLog a b ≠ .gt) (h2 : cmpLog b c ≠ .gt) : cmpLog a c ≠ .gt := by
  rw [cmpLog, cmpTS_le_iff] at h1 h2 ⊢
  omega

theorem cmpLog_le_total (a b : LogEntry) : cmpLog a b ≠ .gt ∨ cmpLog b a ≠ .gt := by
  rw [cmpLog, cmpLog, cmpTS_le_iff, cmpTS_le_iff]
  omega

/-! ## Sorting facts (`raw_log.sort()`) -/

theorem sortInsert_perm (e : LogEntry) (l : List LogEntry) :
    (sortInsert e l).Perm (e :: l) := by
  induction l with
  | nil => simp [sortInsert]
  | cons x xs ih =>
    unfold sortInsert
    rcases h : cmpLog e x with _ | _ | _
    · simp
    · simp
    · exact ((ih.cons x).trans (List.Perm.swap e x xs))

theorem sortLog_perm (l : List LogEntry) : (sortLog l).Perm l := by
  induction l with
  | nil => simp [sortLog]
  | cons e rest ih =>
    exact (sortInsert_perm e (sortLog rest)).trans (ih.cons e)

theorem sortInsert_cons_le {e x : LogEntry} (xs : List LogEntry)
    (h : cmpLog e x ≠ .gt) : sortInsert e (x :: xs) = e :: x :: xs := by
  rcases h2 : cmpLog e x with _ | _ | _ <;> simp_all [sortInsert]

theorem sortInsert_cons_gt {e x : LogEntry} (xs : List LogEntry)
    (h : cmpLog e x = .gt) : sortInsert e (x :: xs) = x :: sortInsert e xs := by
  simp only [sortInsert, h]

theorem cmpLog_le_of_gt {e x : LogEntry} (h : cmpLog e x = .gt) : cmpLog x e ≠ .gt := by
  rw [cmpLog_swap, h]
  simp [Ordering.swap]

theorem sortInsert_sorted {l : List LogEntry}
    (hs : l.Pairwise (fun a b => cmpLog a b ≠ .gt)) (e : LogEntry) :
    (sortInsert e l).Pairwise (fun a b => cmpLog a b ≠ .gt) := by
  induction l with
  | nil => simp [sortInsert]
  | cons x xs ih =>
    rcases List.pairwise_cons.mp hs with ⟨hx, hxs⟩
    rcases h : cmpLog e x with _ | _ | _
    · rw [sortInsert_cons_le xs (by simp [h])]
      refine List.pairwise_cons.mpr ⟨?_, hs⟩
      intro y hy
      rcases List.mem_cons.mp hy with hy | hy
      · subst hy; simp [h]
      · exact cmpLog_le_trans (by simp [h]) (hx y hy)
    · rw [sortInsert_cons_le xs (by simp [h])]
      refine List.pairwise_cons.mpr ⟨?_, hs⟩
      intro y hy
      rcases List.mem_cons.mp hy with hy | hy
      · subst hy; simp [h]
      · exact cmpLog_le_trans (by simp [h]) (hx y hy)
    · rw [sortInsert_cons_gt xs h]
      refine List.pairwise_cons.mpr ⟨?_, ih hxs⟩
      intro y hy
      have hmem := (sortInsert_perm e xs).mem_iff.mp hy
      rcases List.mem_cons.mp hmem with hy2 | hy2
      · subst hy2
        exact cmpLog_le_of_gt h
      · exact hx y hy2

theorem sortLog_sorted (l : List LogEntry) :
    (sortLog l).Pairwise (fun a b => cmpLog a b ≠ .gt) := by
  induction l with
  | nil => simp [sortLog]
  | cons e rest ih => exact sortInsert_sorted ih e

theorem sortInsert_of_le {m : List LogEntry} (e : LogEntry)
    (h : ∀ y ∈ m, cmpLog e y ≠ .gt) : sortInsert e m = e :: m := by
  cases m with
  | nil => rfl
  | cons x xs => exact sortInsert_cons_le xs (h x (by simp))

theorem filter_sortInsert (p : LogEntry → Bool) (e : LogEntry) : ∀ {m : List LogEntry},
    m.Pairwise (fun a b => cmpLog a b ≠ .gt) →
    (sortInsert e m).filter p = if p e then sortInsert e (m.filter p) else m.filter p := by
  intro m
  induction m with
  | nil =>
    intro _
    cases h : p e <;> simp [sortInsert, List.filter, h]
  | cons x xs ih =>
    intro hs
    rcases List.pairwise_cons.mp hs with ⟨hx, hxs⟩
    by_cases hgt : cmpLog e x = .gt
    · rw [sortInsert_cons_gt xs hgt]
      cases hpe : p e <;> cases hpx : p x
      · simp [List.filter_cons, hpx, ih hxs, hpe]
      · simp [List.filter_cons, hpx, ih hxs, hpe]
      · simp [List.filter_cons, hpx, ih hxs, hpe]
      · simp [List.filter_cons, hpx, ih hxs, hpe]
        rw [sortInsert_cons_gt (xs.filter p) hgt]
    · rw [sortInsert_cons_le xs hgt]
      have hrest : ∀ y ∈ xs.filter p, cmpLog e y ≠ .gt := by
        intro y hy
        exact cmpLog_le_trans hgt (hx y (List.mem_of_mem_filter hy))
      cases hpe : p e <;> cases hpx : p x
      · simp [List.filter_cons, hpx, hpe]
      · simp [List.filter_cons, hpx, hpe]
      · simp [List.filter_cons, hpx, hpe]
        rw [sortInsert_of_le e hrest]
      · simp [List.filter_cons, hpx, hpe]
        rw [sortInsert_of_le e (by
          intro y hy
          rcases List.mem_cons.mp hy with hy2 | hy2
          · subst hy2; exact hgt
          · exact hrest y hy2)]

theorem filter_sortLog (p : LogEntry → Bool) (l : List LogEntry) :
    (sortLog l).filter p = sortLog (l.filter p) := by
  induction l with
  | nil => rfl
  | cons e rest ih =>
    show (sortInsert e (sortLog rest)).filter p = sortLog (List.filter p (e :: rest))
    rw [filter_sortInsert p e (sortLog_sorted rest), List.filter_cons]
    cases h : p e <;> simp [h, sortLog, ih]

theorem sorted_perm_noties_eq : ∀ {l1 l2 : List LogEntry},
    l1.Perm l2 →
    l1.Pairwise (fun a b => cmpLog a b ≠ .gt) →
    l2.Pairwise (fun a b => cmpLog a b ≠ .gt) →
    l1.Pairwise (fun a b => cmpLog a b ≠ .eq) → l1 = l2
  | [], l2, hp, _, _, _ => by
    have := hp.symm.eq_nil
    rw [this]
  | a :: t1, [], hp, _, _, _ => by
    exact absurd hp.eq_nil (by simp)
  | a :: t1, b :: t2, hp, hs1, hs2, ht => by
    rcases List.pairwise_cons.mp hs1 with ⟨ha1, hs1t⟩
    rcases List.pairwise_cons.mp hs2 with ⟨hb2, hs2t⟩
    rcases List.pairwise_cons.mp ht with ⟨hta, htt⟩
    by_cases hab : a = b
    · subst hab
      have := sorted_perm_noties_eq (hp.cons_inv) hs1t hs2t htt
      rw [this]
    · exfalso
      have hamem : a ∈ b :: t2 := hp.mem_iff.mp (by simp)
      have hbmem : b ∈ a :: t1 := hp.mem_iff.mpr (by simp)
      have hat2 : a ∈ t2 := by
        rcases List.mem_cons.mp hamem with h | h
        · exact absurd h hab
        · exact h
      have hbt1 : b ∈ t1 := by
        rcases List.mem_cons.mp hbmem with h | h
        · exact absurd h.symm hab
        · exact h
      have h1 : cmpLog a b ≠ .gt := ha1 b hbt1
      have h2 : cmpLog b a ≠ .gt := hb2 a hat2
      have h3 : cmpLog a b ≠ .eq := hta b hbt1
      rw [cmpLog_swap] at h2
      rcases h : cmpLog a b with _ | _ | _
      · rw [h] at h2; simp [Ordering.swap] at h2
      · exact h3 h
      · exact h1 h

/-! ## Bucketing totality facts -/

theorem get_subinterval_isSome_iff (delta : Nat) (e : LogEntry) (subs : Nat) :
    (get_subinterval delta e.timestamp subs).isSome = log_entry_valid delta e := by
  unfold get_subinterval log_entry_valid
  split_ifs <;> simp_all

theorem get_subinterval_eq_none (delta : Nat) (e : LogEntry) (subs : Nat)
    (h : log_entry_valid delta e = false) :
    get_subinterval delta e.timestamp subs = none := by
  have := get_subinterval_isSome_iff delta e subs
  rw [h] at this
  exact Option.not_isSome_iff_eq_none.mp (by simp [this])

theorem create_step_invalid (cfg : DigestConfig) (li : Nat) (st : CreateState)
    (e : LogEntry) (h : log_entry_valid cfg.delta e = false) :
    create_step cfg li st e = st := by
  unfold create_step
  rw [get_subinterval_eq_none cfg.delta e cfg.sub_intervals h]

theorem create_fold_skips_invalid (cfg : DigestConfig) (li : Nat) :
    ∀ (l : List LogEntry) (st : CreateState),
      l.foldl (create_step cfg li) st
        = (l.filter (log_entry_valid cfg.delta)).foldl (create_step cfg li) st := by
  intro l
  induction l with
  | nil => intro st; rfl
  | cons e rest ih =>
    intro st
    rw [List.foldl_cons, List.filter_cons]
    cases h : log_entry_valid cfg.delta e
    · rw [create_step_invalid cfg li st e h]
      simpa using ih st
    · simpa using ih (create_step cfg li st e)

theorem update_new_step_invalid (li : Nat) (st : UpdateState) (e : LogEntry)
    (h : log_entry_valid st.digest.config.delta e = false) :
    update_new_step li st e = st := by
  simp only [update_new_step]
  rw [get_subinterval_eq_none _ e _ h]

theorem remove_deleted_step_invalid (li : Nat) (st : UpdateState) (e : LogEntry)
    (h : log_entry_valid st.digest.config.delta e = false) :
    remove_deleted_step li st e = st := by
  simp only [remove_deleted_step]
  rw [get_subinterval_eq_none _ e _ h]

theorem update_new_step_config (li : Nat) (st : UpdateState) (e : LogEntry) :
    (update_new_step li st e).digest.config = st.digest.config := by
  simp only [update_new_step]
  repeat' split
  all_goals rfl

theorem remove_deleted_step_config (li : Nat) (st : UpdateState) (e : LogEntry) :
    (remove_deleted_step li st e).digest.config = st.digest.config := by
  simp only [remove_deleted_step]
  repeat' split
  all_goals rfl

theorem remove_fold_config (li : Nat) :
    ∀ (R : List LogEntry) (st : UpdateState),
      (R.foldl (remove_deleted_step li) st).digest.config = st.digest.config := by
  intro R
  induction R with
  | nil => intro st; rfl
  | cons e rest ih =>
    intro st
    rw [List.foldl_cons, ih (remove_deleted_step li st e), remove_deleted_step_config]

theorem remove_fold_skips_invalid (li : Nat) (d : Nat) :
    ∀ (R : List LogEntry) (st : UpdateState), st.digest.config.delta = d →
      R.foldl (remove_deleted_step li) st
        = (R.filter (log_entry_valid d)).foldl (remove_deleted_step li) st := by
  intro R
  induction R with
  | nil => intro st _; rfl
  | cons e rest ih =>
    intro st hst
    rw [List.foldl_cons, List.filter_cons]
    cases h : log_entry_valid d e
    · rw [remove_deleted_step_invalid li st e (by rw [hst]; exact h)]
      simpa using ih st hst
    · have := ih (remove_deleted_step li st e)
        (by rw [remove_deleted_step_config]; exact hst)
      simpa using this

theorem update_fold_skips_invalid (li : Nat) (d : Nat) :
    ∀ (A : List LogEntry) (st : UpdateState), st.digest.config.delta = d →
      A.foldl (update_new_step li) st
        = (A.filter (log_entry_valid d)).foldl (update_new_step li) st := by
  intro A
  induction A with
  | nil => intro st _; rfl
  | cons e rest ih =>
    intro st hst
    rw [List.foldl_cons, List.filter_cons]
    cases h : log_entry_valid d e
    · rw [update_new_step_invalid li st e (by rw [hst]; exact h)]
      simpa using ih st hst
    · have := ih (update_new_step li st e)
        (by rw [update_new_step_config]; exact hst)
      simpa using this

/-! ## Sorted-container infrastructure -/

theorem TotalCmp.gt_iff {cmp : α → α → Ordering} (T : TotalCmp cmp) (a b : α) :
    cmp a b = .gt ↔ cmp b a = .lt := by
  rw [T.swap b a]
  rcases h : cmp b a with _ | _ | _ <;> decide

theorem TotalCmp.eq_symm {cmp : α → α → Ordering} (T : TotalCmp cmp) {a b : α}
    (h : cmp a b = .eq) : cmp b a = .eq := by
  rw [T.swap a b, h]
  rfl

theorem TotalCmp.lt_asymm {cmp : α → α → Ordering} (T : TotalCmp cmp) {a b : α}
    (h : cmp a b = .lt) : cmp b a ≠ .lt := by
  rw [T.swap a b, h]
  simp [Ordering.swap]

theorem totalCmp_nat : TotalCmp (compare : Nat → Nat → Ordering) := by
  refine ⟨?_, ?_, ?_, ?_, ?_⟩
  · intro a
    exact compare_eq_iff_eq.mpr rfl
  · intro a b
    exact compare_swap_lin a b
  all_goals
    intro a b c h1 h2
  · exact compare_lt_iff_lt.mpr
      (lt_trans (compare_lt_iff_lt.mp h1) (compare_lt_iff_lt.mp h2))
  · exact compare_lt_iff_lt.mpr (compare_eq_iff_eq.mp h2 ▸ compare_lt_iff_lt.mp h1)
  · exact compare_lt_iff_lt.mpr (compare_eq_iff_eq.mp h1 ▸ compare_lt_iff_lt.mp h2)

theorem keyCmp_nat : KeyCmp (compare : Nat → Nat → Ordering) :=
  ⟨totalCmp_nat, fun _ _ => compare_eq_iff_eq⟩

theorem cmpEra_eq_iff (a b : EraType) : cmpEra a b = .eq ↔ a = b := by
  cases a <;> cases b <;> simp [cmpEra, eraIdx] <;> decide

theorem keyCmp_cmpEra : KeyCmp cmpEra := by
  refine ⟨⟨?_, ?_, ?_, ?_, ?_⟩, cmpEra_eq_iff⟩
  · intro a; cases a <;> decide
  · intro a b; cases a <;> cases b <;> decide
  all_goals (intro a b c; cases a <;> cases b <;> cases c <;> decide)

theorem cmpTS_lt_iff (a b : TS) :
    cmpTS a b = .lt ↔ (a.ms < b.ms ∨ (a.ms = b.ms ∧ a.uid < b.uid)) := by
  unfold cmpTS
  rcases h : compare a.ms b.ms with _ | _ | _ <;>
    simp_all [compare_eq_iff_eq, compare_lt_iff_lt, compare_gt_iff_gt] <;>
      omega

theorem cmpTS_eq_iff_parts (a b : TS) :
    cmpTS a b = .eq ↔ (a.ms = b.ms ∧ a.uid = b.uid) := by
  rw [cmpTS_eq_iff]
  constructor
  · intro h; rw [h]; exact ⟨rfl, rfl⟩
  · intro h
    rcases a with ⟨ams, auid⟩
    rcases b with ⟨bms, buid⟩
    simp_all

theorem totalCmp_cmpLog : TotalCmp cmpLog := by
  refine ⟨?_, ?_, ?_, ?_, ?_⟩
  · intro a
    exact (cmpTS_eq_iff a.timestamp a.timestamp).mpr rfl
  · intro a b
    exact cmpTS_swap a.timestamp b.timestamp
  · intro a b c h1 h2
    rw [cmpLog, cmpTS_lt_iff] at h1 h2 ⊢
    omega
  · intro a b c h1 h2
    rw [cmpLog, cmpTS_lt_iff] at h1 ⊢
    rw [cmpLog, cmpTS_eq_iff_parts] at h2
    omega
  · intro a b c h1 h2
    rw [cmpLog, cmpTS_eq_iff_parts] at h1
    rw [cmpLog, cmpTS_lt_iff] at h2 ⊢
    omega

theorem mapGet_nil {cmp : κ → κ → Ordering} (k : κ) :
    mapGet (ν := ν) cmp k [] = none := rfl

theorem mapGet_cons_self {cmp : κ → κ → Ordering} (T : TotalCmp cmp)
    (p : κ × ν) (rest : List (κ × ν)) : mapGet cmp p.1 (p :: rest) = some p.2 := by
  rcases p with ⟨k, v⟩
  unfold mapGet
  rw [T.refl k]

theorem mapGet_cons_ne {cmp : κ → κ → Ordering} (K : KeyCmp cmp)
    {k k1 : κ} (hne : k ≠ k1) (v1 : ν) (r : List (κ × ν)) :
    mapGet cmp k ((k1, v1) :: r) = mapGet cmp k r := by
  have h2 : cmp k k1 ≠ .eq := fun hc => hne ((K.eq_iff k k1).mp hc)
  show (match cmp k k1 with | .eq => some v1 | _ => mapGet cmp k r) = mapGet cmp k r
  split
  · exact absurd (by assumption) h2
  · rfl

theorem mapGet_eq_none_of_not_mem {cmp : κ → κ → Ordering} (K : KeyCmp cmp)
    {k : κ} : ∀ {m : List (κ × ν)}, k ∉ m.map Prod.fst → mapGet cmp k m = none
  | [], _ => rfl
  | (k2, v2) :: rest, h => by
    have hne : k ≠ k2 := by
      intro hc
      exact h (by simp [hc])
    rw [mapGet_cons_ne K hne]
    exact mapGet_eq_none_of_not_mem K (by intro hm; exact h (by simp [hm]))

theorem mapGet_mapInsert_self {cmp : κ → κ → Ordering} (K : KeyCmp cmp)
    (k : κ) (v : ν) : ∀ (m : List (κ × ν)),
      mapGet cmp k (mapInsert cmp k v m) = some v
  | [] => by
    simp only [mapInsert]
    exact mapGet_cons_self K.total (k, v) []
  | (k2, v2) :: rest => by
    unfold mapInsert
    rcases hc : cmp k k2 with _ | _ | _
    · exact mapGet_cons_self K.total (k, v) _
    · have hk : k = k2 := (K.eq_iff k k2).mp hc
      subst hk
      exact mapGet_cons_self K.total (k, v) rest
    · have hne : k ≠ k2 := by
        intro hk
        subst hk
        rw [K.total.refl k] at hc
        cases hc
      rw [mapGet_cons_ne K hne]
      exact mapGet_mapInsert_self K k v rest

theorem mapGet_mapInsert_ne {cmp : κ → κ → Ordering} (K : KeyCmp cmp)
    {k' k : κ} (hne : k' ≠ k) (v : ν) : ∀ (m : List (κ × ν)),
      mapGet cmp k' (mapInsert cmp k v m) = mapGet cmp k' m
  | [] => by
    simp only [mapInsert]
    rw [mapGet_cons_ne K hne]
  | (k2, v2) :: rest => by
    unfold mapInsert
    rcases hc : cmp k k2 with _ | _ | _
    · rw [mapGet_cons_ne K hne]
    · have hk : k = k2 := (K.eq_iff k k2).mp hc
      subst hk
      rw [mapGet_cons_ne K hne, mapGet_cons_ne K hne]
    · by_cases hk2 : k' = k2
      · subst hk2
        rw [show ((k', v2) :: mapInsert cmp k v rest) = ((k', v2) : κ × ν) :: mapInsert cmp k v rest from rfl]
        rw [mapGet_cons_self K.total (k', v2), mapGet_cons_self K.total (k', v2)]
      · rw [mapGet_cons_ne K hk2, mapGet_cons_ne K hk2]
        exact mapGet_mapInsert_ne K hne v rest

theorem mapGet_mapRemove_ne {cmp : κ → κ → Ordering} (K : KeyCmp cmp)
    {k' k : κ} (hne : k' ≠ k) : ∀ (m : List (κ × ν)),
      mapGet cmp k' (mapRemove cmp k m) = mapGet cmp k' m
  | [] => rfl
  | (k2, v2) :: rest => by
    unfold mapRemove
    rcases hc : cmp k k2 with _ | _ | _
    · by_cases hk2 : k' = k2
      · subst hk2
        rw [mapGet_cons_self K.total (k', v2), mapGet_cons_self K.total (k', v2)]
      · rw [mapGet_cons_ne K hk2, mapGet_cons_ne K hk2]
        exact mapGet_mapRemove_ne K hne rest
    · have hk : k = k2 := (K.eq_iff k k2).mp hc
      subst hk
      rw [mapGet_cons_ne K hne]
    · by_cases hk2 : k' = k2
      · subst hk2
        rw [mapGet_cons_self K.total (k', v2), mapGet_cons_self K.total (k', v2)]
      · rw [mapGet_cons_ne K hk2, mapGet_cons_ne K hk2]
        exact mapGet_mapRemove_ne K hne rest

theorem mapGet_mapRemove_self {cmp : κ → κ → Ordering} (K : KeyCmp cmp)
    (k : κ) : ∀ {m : List (κ × ν)}, MSorted cmp m →
      mapGet cmp k (mapRemove cmp k m) = none
  | [], _ => rfl
  | (k2, v2) :: rest, hs => by
    rcases List.pairwise_cons.mp hs with ⟨hk2, hrest⟩
    unfold mapRemove
    rcases hc : cmp k k2 with _ | _ | _
    · have hne : k ≠ k2 := by
        intro hk
        subst hk
        rw [K.total.refl k] at hc
        cases hc
      rw [mapGet_cons_ne K hne]
      exact mapGet_mapRemove_self K k hrest
    · have hk : k = k2 := (K.eq_iff k k2).mp hc
      subst hk
      apply mapGet_eq_none_of_not_mem K
      intro hmem
      rcases List.mem_map.mp hmem with ⟨p, hp, hpk⟩
      have := hk2 p hp
      rw [hpk] at this
      rw [K.total.refl k] at this
      cases this
    · have hne : k ≠ k2 := by
        intro hk
        subst hk
        rw [K.total.refl k] at hc
        cases hc
      rw [mapGet_cons_ne K hne]
      exact mapGet_mapRemove_self K k hrest

theorem mapGet_mapAdjust_self {cmp : κ → κ → Ordering} (K : KeyCmp cmp)
    (k : κ) (f : ν → ν) : ∀ (m : List (κ × ν)),
      mapGet cmp k (mapAdjust cmp k f m) = (mapGet cmp k m).map f
  | [] => rfl
  | (k2, v2) :: rest => by
    unfold mapAdjust
    rcases hc : cmp k k2 with _ | _ | _
    · have hne : k ≠ k2 := by
        intro hk
        subst hk
        rw [K.total.refl k] at hc
        cases hc
      rw [mapGet_cons_ne K hne, mapGet_cons_ne K hne]
      exact mapGet_mapAdjust_self K k f rest
    · have hk : k = k2 := (K.eq_iff k k2).mp hc
      subst hk
      rw [mapGet_cons_self K.total (k, f v2), mapGet_cons_self K.total (k, v2)]
      rfl
    · have hne : k ≠ k2 := by
        intro hk
        subst hk
        rw [K.total.refl k] at hc
        cases hc
      rw [mapGet_cons_ne K hne, mapGet_cons_ne K hne]
      exact mapGet_mapAdjust_self K k f rest

theorem mapGet_mapAdjust_ne {cmp : κ → κ → Ordering} (K : KeyCmp cmp)
    {k' k : κ} (hne : k' ≠ k) (f : ν → ν) : ∀ (m : List (κ × ν)),
      mapGet cmp k' (mapAdjust cmp k f m) = mapGet cmp k' m
  | [] => rfl
  | (k2, v2) :: rest => by
    unfold mapAdjust
    rcases hc : cmp k k2 with _ | _ | _
    · by_cases hk2 : k' = k2
      · subst hk2
        rw [mapGet_cons_self K.total (k', v2), mapGet_cons_self K.total (k', v2)]
      · rw [mapGet_cons_ne K hk2, mapGet_cons_ne K hk2]
        exact mapGet_mapAdjust_ne K hne f rest
    · have hk : k = k2 := (K.eq_iff k k2).mp hc
      subst hk
      rw [mapGet_cons_ne K hne, mapGet_cons_ne K hne]
    · by_cases hk2 : k' = k2
      · subst hk2
        rw [mapGet_cons_self K.total (k', v2), mapGet_cons_self K.total (k', v2)]
      · rw [mapGet_cons_ne K hk2, mapGet_cons_ne K hk2]
        exact mapGet_mapAdjust_ne K hne f rest

theorem mapGet_mapUpsert_ne {cmp : κ → κ → Ordering} (K : KeyCmp cmp)
    {k' k : κ} (hne : k' ≠ k) (f : ν → ν) (d : ν) : ∀ (m : List (κ × ν)),
      mapGet cmp k' (mapUpsert cmp k f d m) = mapGet cmp k' m
  | [] => by
    simp only [mapUpsert]
    rw [mapGet_cons_ne K hne]
  | (k2, v2) :: rest => by
    unfold mapUpsert
    rcases hc : cmp k k2 with _ | _ | _
    · rw [mapGet_cons_ne K hne]
    · have hk : k = k2 := (K.eq_iff k k2).mp hc
      subst hk
      rw [mapGet_cons_ne K hne, mapGet_cons_ne K hne]
    · by_cases hk2 : k' = k2
      · subst hk2
        rw [mapGet_cons_self K.total (k', v2), mapGet_cons_self K.total (k', v2)]
      · rw [mapGet_cons_ne K hk2, mapGet_cons_ne K hk2]
        exact mapGet_mapUpsert_ne K hne f d rest

theorem mapGet_mapUpsert_self {cmp : κ → κ → Ordering} (K : KeyCmp cmp)
    (k : κ) (f : ν → ν) (d : ν) : ∀ {m : List (κ × ν)}, MSorted cmp m →
      mapGet cmp k (mapUpsert cmp k f d m)
        = some (match mapGet cmp k m with | some v => f v | none => d)
  | [], _ => by
    simp only [mapUpsert, mapGet_nil]
    exact mapGet_cons_self K.total (k, d) []
  | (k2, v2) :: rest, hs => by
    rcases List.pairwise_cons.mp hs with ⟨hk2, hrest⟩
    unfold mapUpsert
    rcases hc : cmp k k2 with _ | _ | _
    · have hget : mapGet cmp k ((k2, v2) :: rest) = none := by
        apply mapGet_eq_none_of_not_mem K
        intro hmem
        rcases List.mem_map.mp hmem with ⟨p, hp, hpk⟩
        rcases List.mem_cons.mp hp with hp2 | hp2
        · subst hp2
          simp only [] at hpk
          rw [hpk] at hc
          rw [K.total.refl k] at hc
          cases hc
        · have hlt := hk2 p hp2
          have := K.total.lt_trans hc hlt
          rw [hpk] at this
          rw [K.total.refl k] at this
          cases this
      rw [hget]
      exact mapGet_cons_self K.total (k, d) _
    · have hk : k = k2 := (K.eq_iff k k2).mp hc
      subst hk
      rw [mapGet_cons_self K.total (k, f v2), mapGet_cons_self K.total (k, v2)]
    · have hne : k ≠ k2 := by
        intro hk
        subst hk
        rw [K.total.refl k] at hc
        cases hc
      rw [mapGet_cons_ne K hne, mapGet_cons_ne K hne]
      exact mapGet_mapUpsert_self K k f d hrest

/-! ### Sortedness preservation -/

theorem mem_keys_mapInsert {cmp : κ → κ → Ordering} (K : KeyCmp cmp)
    (k : κ) (v : ν) : ∀ {m : List (κ × ν)} (q : κ × ν),
      q ∈ mapInsert cmp k v m → q.1 = k ∨ q ∈ m
  | [], q, hq => by
    simp [mapInsert] at hq
    left
    rw [hq]
  | r :: rs, q, hq => by
    unfold mapInsert at hq
    rcases hc2 : cmp k r.1 with _ | _ | _ <;> rw [hc2] at hq
    · rcases List.mem_cons.mp hq with h | h
      · left; rw [h]
      · right; exact h
    · rcases List.mem_cons.mp hq with h | h
      · left
        rw [h]
        exact ((K.eq_iff k r.1).mp hc2).symm ▸ rfl
      · right; exact List.mem_cons_of_mem _ h
    · rcases List.mem_cons.mp hq with h | h
      · right; rw [h]; exact List.mem_cons_self _ _
      · rcases mem_keys_mapInsert K k v q h with h2 | h2
        · left; exact h2
        · right; exact List.mem_cons_of_mem _ h2

theorem mem_keys_mapAdjust {cmp : κ → κ → Ordering} (k : κ) (f : ν → ν) :
    ∀ {m : List (κ × ν)} (q : κ × ν),
      q ∈ mapAdjust cmp k f m → q.1 ∈ m.map Prod.fst
  | [], q, hq => by simp [mapAdjust] at hq
  | r :: rs, q, hq => by
    unfold mapAdjust at hq
    rcases hc2 : cmp k r.1 with _ | _ | _ <;> rw [hc2] at hq
    · rcases List.mem_cons.mp hq with h | h
      · rw [h]; simp
      · simp only [List.map_cons, List.mem_cons]
        right
        exact mem_keys_mapAdjust k f q h
    · rcases List.mem_cons.mp hq with h | h
      · rw [h]; simp
      · simp only [List.map_cons, List.mem_cons]
        right
        exact List.mem_map_of_mem _ h
    · rcases List.mem_cons.mp hq with h | h
      · rw [h]; simp
      · simp only [List.map_cons, List.mem_cons]
        right
        exact mem_keys_mapAdjust k f q h

theorem mem_keys_mapUpsert {cmp : κ → κ → Ordering} (K : KeyCmp cmp)
    (k : κ) (f : ν → ν) (d : ν) : ∀ {m : List (κ × ν)} (q : κ × ν),
      q ∈ mapUpsert cmp k f d m → q.1 = k ∨ q.1 ∈ m.map Prod.fst
  | [], q, hq => by
    simp [mapUpsert] at hq
    left
    rw [hq]
  | r :: rs, q, hq => by
    unfold mapUpsert at hq
    rcases hc2 : cmp k r.1 with _ | _ | _ <;> rw [hc2] at hq
    · rcases List.mem_cons.mp hq with h | h
      · left; rw [h]
      · right
        rcases List.mem_cons.mp h with h2 | h2
        · rw [h2]; simp
        · simp only [List.map_cons, List.mem_cons]
          right
          exact List.mem_map_of_mem _ h2
    · rcases List.mem_cons.mp hq with h | h
      · right; rw [h]; simp
      · right
        simp only [List.map_cons, List.mem_cons]
        right
        exact List.mem_map_of_mem _ h
    · rcases List.mem_cons.mp hq with h | h
      · right; rw [h]; simp
      · rcases mem_keys_mapUpsert K k f d q h with h2 | h2
        · left; exact h2
        · right
          simp only [List.map_cons, List.mem_cons]
          right
          exact h2

theorem msorted_mapInsert {cmp : κ → κ → Ordering} (K : KeyCmp cmp)
    (k : κ) (v : ν) : ∀ {m : List (κ × ν)}, MSorted cmp m →
      MSorted cmp (mapInsert cmp k v m)
  | [], _ => List.pairwise_singleton _ _
  | (k2, v2) :: rest, hs => by
    rcases List.pairwise_cons.mp hs with ⟨hk2, hrest⟩
    unfold mapInsert
    rcases hc : cmp k k2 with _ | _ | _
    · refine List.pairwise_cons.mpr ⟨?_, hs⟩
      intro p hp
      rcases List.mem_cons.mp hp with hp2 | hp2
      · subst hp2; exact hc
      · exact K.total.lt_trans hc (hk2 p hp2)
    · exact List.pairwise_cons.mpr ⟨hk2, hrest⟩
    · refine List.pairwise_cons.mpr ⟨?_, msorted_mapInsert K k v hrest⟩
      intro p hp
      rcases mem_keys_mapInsert K k v p hp with h2 | h2
      · rw [h2]
        exact (K.total.gt_iff k k2).mp hc
      · exact hk2 p h2

theorem msorted_mapRemove {cmp : κ → κ → Ordering} (k : κ) :
    ∀ {m : List (κ × ν)}, MSorted cmp m → MSorted cmp (mapRemove cmp k m) := by
  intro m hs
  have : (mapRemove cmp k m).Sublist m := by
    induction m with
    | nil => simp [mapRemove]
    | cons p rest ih =>
      unfold mapRemove
      rcases hc : cmp k p.1 with _ | _ | _
      · exact (ih (List.pairwise_cons.mp hs).2).cons₂ p
      · exact List.sublist_cons_self p rest
      · exact (ih (List.pairwise_cons.mp hs).2).cons₂ p
  exact hs.sublist this

theorem msorted_mapAdjust {cmp : κ → κ → Ordering} (k : κ) (f : ν → ν) :
    ∀ {m : List (κ × ν)}, MSorted cmp m → MSorted cmp (mapAdjust cmp k f m)
  | [], _ => List.Pairwise.nil
  | (k2, v2) :: rest, hs => by
    rcases List.pairwise_cons.mp hs with ⟨hk2, hrest⟩
    unfold mapAdjust
    rcases hc : cmp k k2 with _ | _ | _
    · refine List.pairwise_cons.mpr ⟨?_, msorted_mapAdjust k f hrest⟩
      intro p hp
      rcases List.mem_map.mp (mem_keys_mapAdjust k f p hp) with ⟨q, hq, hqk⟩
      rw [← hqk]
      exact hk2 q hq
    · exact List.pairwise_cons.mpr ⟨hk2, hrest⟩
    · refine List.pairwise_cons.mpr ⟨?_, msorted_mapAdjust k f hrest⟩
      intro p hp
      rcases List.mem_map.mp (mem_keys_mapAdjust k f p hp) with ⟨q, hq, hqk⟩
      rw [← hqk]
      exact hk2 q hq

theorem msorted_mapUpsert {cmp : κ → κ → Ordering} (K : KeyCmp cmp)
    (k : κ) (f : ν → ν) (d : ν) : ∀ {m : List (κ × ν)}, MSorted cmp m →
      MSorted cmp (mapUpsert cmp k f d m)
  | [], _ => List.pairwise_singleton _ _
  | (k2, v2) :: rest, hs => by
    rcases List.pairwise_cons.mp hs with ⟨hk2, hrest⟩
    unfold mapUpsert
    rcases hc : cmp k k2 with _ | _ | _
    · refine List.pairwise_cons.mpr ⟨?_, hs⟩
      intro p hp
      rcases List.mem_cons.mp hp with hp2 | hp2
      · subst hp2; exact hc
      · exact K.total.lt_trans hc (hk2 p hp2)
    · exact List.pairwise_cons.mpr ⟨hk2, hrest⟩
    · refine List.pairwise_cons.mpr ⟨?_, msorted_mapUpsert K k f d hrest⟩
      intro p hp
      rcases mem_keys_mapUpsert K k f d p hp with h2 | h2
      · rw [h2]
        exact (K.total.gt_iff k k2).mp hc
      · rcases List.mem_map.mp h2 with ⟨q, hq, hqk⟩
        rw [← hqk]
        exact hk2 q hq

/-! ### Extensionality -/

theorem msorted_head_get {cmp : κ → κ → Ordering} (K : KeyCmp cmp)
    {p : κ × ν} {rest : List (κ × ν)} (hs : MSorted cmp (p :: rest)) :
    mapGet cmp p.1 (p :: rest) = some p.2 := by
  unfold mapGet
  rcases p with ⟨k, v⟩
  rw [K.total.refl k]

theorem mapGet_mem_of_some {cmp : κ → κ → Ordering} (K : KeyCmp cmp) :
    ∀ {m : List (κ × ν)} {k : κ} {v : ν},
      mapGet cmp k m = some v → k ∈ m.map Prod.fst
  | [], k, v, h => by simp [mapGet] at h
  | (k2, v2) :: rest, k, v, h => by
    unfold mapGet at h
    rcases hc : cmp k k2 with _ | _ | _ <;> rw [hc] at h
    · exact List.mem_cons_of_mem _ (mapGet_mem_of_some K h)
    · simp [(K.eq_iff k k2).mp hc]
    · exact List.mem_cons_of_mem _ (mapGet_mem_of_some K h)

theorem msorted_not_mem_keys {cmp : κ → κ → Ordering} (K : KeyCmp cmp)
    {k1 : κ} {r : List (κ × ν)} (hk1 : ∀ p ∈ r, cmp k1 p.1 = .lt) :
    k1 ∉ r.map Prod.fst := by
  intro hmem
  rcases List.mem_map.mp hmem with ⟨q, hq, hqk⟩
  have := hk1 q hq
  rw [hqk] at this
  rw [K.total.refl k1] at this
  cases this

theorem msorted_ext {cmp : κ → κ → Ordering} (K : KeyCmp cmp) :
    ∀ {m1 m2 : List (κ × ν)}, MSorted cmp m1 → MSorted cmp m2 →
      (∀ k, mapGet cmp k m1 = mapGet cmp k m2) → m1 = m2
  | [], [], _, _, _ => rfl
  | [], (k2, v2) :: r2, _, hs2, hget => by
    have := hget k2
    rw [msorted_head_get K hs2] at this
    simp [mapGet] at this
  | (k1, v1) :: r1, [], hs1, _, hget => by
    have := hget k1
    rw [msorted_head_get K hs1] at this
    simp [mapGet] at this
  | (k1, v1) :: r1, (k2, v2) :: r2, hs1, hs2, hget => by
    rcases List.pairwise_cons.mp hs1 with ⟨hk1, hr1⟩
    rcases List.pairwise_cons.mp hs2 with ⟨hk2, hr2⟩
    have hk12 : k1 = k2 := by
      by_contra hne
      have hg1 := hget k1
      rw [msorted_head_get K hs1] at hg1
      have hmem1 := mapGet_mem_of_some K hg1.symm
      have hg2 := hget k2
      rw [msorted_head_get K hs2] at hg2
      have hmem2 := mapGet_mem_of_some K hg2
      simp only [List.map_cons, List.mem_cons] at hmem1 hmem2
      rcases hmem1 with h | h
      · exact hne h
      · rcases List.mem_map.mp h with ⟨q, hq, hqk⟩
        have hlt1 : cmp k2 k1 = .lt := by
          rw [← hqk]
          exact hk2 q hq
        rcases hmem2 with h2 | h2
        · exact hne h2.symm
        · rcases List.mem_map.mp h2 with ⟨q2, hq2, hqk2⟩
          have hlt2 : cmp k1 k2 = .lt := by
            rw [← hqk2]
            exact hk1 q2 hq2
          exact K.total.lt_asymm hlt1 hlt2
    subst hk12
    have hv : v1 = v2 := by
      have h := hget k1
      rw [msorted_head_get K hs1, msorted_head_get K hs2] at h
      exact Option.some.inj h
    subst hv
    have htails : r1 = r2 := by
      apply msorted_ext K hr1 hr2
      intro k
      by_cases hk : k = k1
      · subst hk
        rw [mapGet_eq_none_of_not_mem K (msorted_not_mem_keys K hk1),
          mapGet_eq_none_of_not_mem K (msorted_not_mem_keys K hk2)]
      · have := hget k
        rw [mapGet_cons_ne K hk v1 r1, mapGet_cons_ne K hk v1 r2] at this
        exact this
    rw [htails]

/-! ### Bucket (`BTreeSet` content) lemmas -/

theorem mem_btreeInsert_of_mem {cmp : α → α → Ordering} (x : α) :
    ∀ {l : List α} {z : α}, z ∈ l → z ∈ btreeInsert cmp x l
  | y :: ys, z, hz => by
    unfold btreeInsert
    rcases hc : cmp x y with _ | _ | _
    · exact List.mem_cons_of_mem _ hz
    · exact hz
    · rcases List.mem_cons.mp hz with h | h
      · rw [h]; exact List.mem_cons_self _ _
      · exact List.mem_cons_of_mem _ (mem_btreeInsert_of_mem x h)

theorem mem_of_mem_btreeInsert {cmp : α → α → Ordering} (x : α) :
    ∀ {l : List α} {z : α}, z ∈ btreeInsert cmp x l → z = x ∨ z ∈ l
  | [], z, hz => by
    simp [btreeInsert] at hz
    left
    exact hz
  | y :: ys, z, hz => by
    unfold btreeInsert at hz
    rcases hc : cmp x y with _ | _ | _ <;> rw [hc] at hz
    · rcases List.mem_cons.mp hz with h | h
      · left; exact h
      · right; exact h
    · right; exact hz
    · rcases List.mem_cons.mp hz with h | h
      · right; rw [h]; exact List.mem_cons_self _ _
      · rcases mem_of_mem_btreeInsert x h with h2 | h2
        · left; exact h2
        · right; exact List.mem_cons_of_mem _ h2

theorem mem_btreeInsert_self {cmp : α → α → Ordering} (x : α) :
    ∀ {l : List α}, (∀ y ∈ l, cmp x y ≠ .eq) → x ∈ btreeInsert cmp x l
  | [], _ => by simp [btreeInsert]
  | y :: ys, h => by
    unfold btreeInsert
    rcases hc : cmp x y with _ | _ | _
    · exact List.mem_cons_self _ _
    · exact absurd hc (h y (List.mem_cons_self _ _))
    · exact List.mem_cons_of_mem _
        (mem_btreeInsert_self x (fun z hz => h z (List.mem_cons_of_mem _ hz)))

theorem btreeInsert_of_collision {cmp : α → α → Ordering} (T : TotalCmp cmp) (x : α) :
    ∀ {l : List α}, CSorted cmp l → (∃ y ∈ l, cmp x y = .eq) →
      btreeInsert cmp x l = l
  | [], _, hex => by simp at hex
  | y :: ys, hs, hex => by
    rcases List.pairwise_cons.mp hs with ⟨hy, hys⟩
    unfold btreeInsert
    rcases hc : cmp x y with _ | _ | _
    · exfalso
      rcases hex with ⟨z, hz, hze⟩
      rcases List.mem_cons.mp hz with h | h
      · rw [h] at hze
        rw [hze] at hc
        cases hc
      · have hlt := hy z h
        have := T.lt_of_lt_of_eq (T.lt_trans hc hlt) (T.eq_symm hze)
        rw [T.refl x] at this
        cases this
    · rfl
    · rcases hex with ⟨z, hz, hze⟩
      rcases List.mem_cons.mp hz with h | h
      · rw [h] at hze
        rw [hze] at hc
        cases hc
      · rw [btreeInsert_of_collision T x hys ⟨z, h, hze⟩]

theorem csorted_btreeInsert {cmp : α → α → Ordering} (T : TotalCmp cmp) (x : α) :
    ∀ {l : List α}, CSorted cmp l → CSorted cmp (btreeInsert cmp x l)
  | [], _ => List.pairwise_singleton _ _
  | y :: ys, hs => by
    rcases List.pairwise_cons.mp hs with ⟨hy, hys⟩
    unfold btreeInsert
    rcases hc : cmp x y with _ | _ | _
    · refine List.pairwise_cons.mpr ⟨?_, hs⟩
      intro z hz
      rcases List.mem_cons.mp hz with h | h
      · rw [h]; exact hc
      · exact T.lt_trans hc (hy z h)
    · exact hs
    · refine List.pairwise_cons.mpr ⟨?_, csorted_btreeInsert T x hys⟩
      intro z hz
      rcases mem_of_mem_btreeInsert x hz with h | h
      · rw [h]
        exact (T.gt_iff x y).mp hc
      · exact hy z h

theorem csorted_ext {cmp : α → α → Ordering} (T : TotalCmp cmp) :
    ∀ {l1 l2 : List α}, CSorted cmp l1 → CSorted cmp l2 →
      (∀ x, x ∈ l1 ↔ x ∈ l2) → l1 = l2
  | [], [], _, _, _ => rfl
  | [], b :: t2, _, _, hmem => by
    have := (hmem b).mpr (List.mem_cons_self _ _)
    simp at this
  | a :: t1, [], _, _, hmem => by
    have := (hmem a).mp (List.mem_cons_self _ _)
    simp at this
  | a :: t1, b :: t2, hs1, hs2, hmem => by
    rcases List.pairwise_cons.mp hs1 with ⟨ha, ht1⟩
    rcases List.pairwise_cons.mp hs2 with ⟨hb, ht2⟩
    have hab : a = b := by
      by_contra hne
      have ha2 : a ∈ b :: t2 := (hmem a).mp (List.mem_cons_self _ _)
      have hb1 : b ∈ a :: t1 := (hmem b).mpr (List.mem_cons_self _ _)
      have hat2 : a ∈ t2 := by
        rcases List.mem_cons.mp ha2 with h | h
        · exact absurd h hne
        · exact h
      have hbt1 : b ∈ t1 := by
        rcases List.mem_cons.mp hb1 with h | h
        · exact absurd h.symm hne
        · exact h
      exact T.lt_asymm (hb a hat2) (ha b hbt1)
    subst hab
    have hnot1 : a ∉ t1 := by
      intro hmem2
      have := ha a hmem2
      rw [T.refl a] at this
      cases this
    have hnot2 : a ∉ t2 := by
      intro hmem2
      have := hb a hmem2
      rw [T.refl a] at this
      cases this
    have htails : t1 = t2 := by
      apply csorted_ext T ht1 ht2
      intro x
      constructor
      · intro hx
        have : x ∈ a :: t2 := (hmem x).mp (List.mem_cons_of_mem _ hx)
        rcases List.mem_cons.mp this with h | h
        · rw [h] at hx
          exact absurd hx hnot1
        · exact h
      · intro hx
        have : x ∈ a :: t1 := (hmem x).mpr (List.mem_cons_of_mem _ hx)
        rcases List.mem_cons.mp this with h | h
        · rw [h] at hx
          exact absurd hx hnot2
        · exact h
    rw [htails]

/-! ### `HashSet` (sorted-list) lemmas -/

theorem mem_setInsert {cmp : κ → κ → Ordering} (K : KeyCmp cmp) (k : κ) :
    ∀ (s : List κ) (a : κ), a ∈ setInsert cmp k s ↔ a = k ∨ a ∈ s
  | [], a => by simp [setInsert]
  | k2 :: rest, a => by
    unfold setInsert
    rcases hc : cmp k k2 with _ | _ | _
    · simp
    · have hk : k = k2 := (K.eq_iff k k2).mp hc
      subst hk
      constructor
      · intro h; right; exact h
      · intro h
        rcases h with h | h
        · rw [h]; exact List.mem_cons_self _ _
        · exact h
    · constructor
      · intro h
        rcases List.mem_cons.mp h with h2 | h2
        · right; rw [h2]; exact List.mem_cons_self _ _
        · rcases (mem_setInsert K k rest a).mp h2 with h3 | h3
          · left; exact h3
          · right; exact List.mem_cons_of_mem _ h3
      · intro h
        rcases h with h | h
        · rw [h]
          exact List.mem_cons_of_mem _
            ((mem_setInsert K k rest k).mpr (Or.inl rfl))
        · rcases List.mem_cons.mp h with h2 | h2
          · rw [h2]; exact List.mem_cons_self _ _
          · exact List.mem_cons_of_mem _ ((mem_setInsert K k rest a).mpr (Or.inr h2))

theorem mem_setExtend {cmp : κ → κ → Ordering} (K : KeyCmp cmp) :
    ∀ (more s : List κ) (a : κ), a ∈ setExtend cmp s more ↔ a ∈ s ∨ a ∈ more
  | [], s, a => by simp [setExtend]
  | k :: rest, s, a => by
    unfold setExtend
    rw [List.foldl_cons]
    have := mem_setExtend K rest (setInsert cmp k s) a
    rw [setExtend] at this
    rw [this, mem_setInsert K k s a]
    constructor
    · intro h
      rcases h with (h | h) | h
      · right; rw [h]; exact List.mem_cons_self _ _
      · left; exact h
      · right; exact List.mem_cons_of_mem _ h
    · intro h
      rcases h with h | h
      · left; right; exact h
      · rcases List.mem_cons.mp h with h2 | h2
        · left; left; exact h2
        · right; exact h2

/-! ## Claim C2 -/

set_option maxRecDepth 8000 in
/-- C2 (counterexample): `create_digest` is not order independent when the raw
log holds two distinct entries sharing a timestamp but differing in key: the
timestamp-only `LogEntry` order makes the stable sort keep their input order
and the subinterval `BTreeSet` silently drop the second one, so the two
permutations of the same log produce different digests. -/
theorem create_digest_order_dependent_counterexample :
    create_digest ⟨1671634800000, 1⟩ ⟨1000, 10, 6, 30⟩
        [⟨⟨1671634800000, 1⟩, "demo/example/a"⟩, ⟨⟨1671634800000, 1⟩, "demo/example/b"⟩]
        1671612730
      ≠ create_digest ⟨1671634800000, 1⟩ ⟨1000, 10, 6, 30⟩
        [⟨⟨1671634800000, 1⟩, "demo/example/b"⟩, ⟨⟨1671634800000, 1⟩, "demo/example/a"⟩]
        1671612730 := by
  decide

/-- C2 (amended): `create_digest` is order independent for raw logs in which no
two distinct entries compare `Equal` under the timestamp-only `LogEntry`
order: for every permutation of such a log the resulting digests coincide. -/
theorem create_digest_order_independent (ts : TS) (cfg : DigestConfig) (li : Nat)
    (L L2 : List LogEntry) (hperm : L.Perm L2)
    (hties : L.Pairwise (fun a b => cmpLog a b ≠ .eq)) :
    create_digest ts cfg L li = create_digest ts cfg L2 li := by
  have hsymm : ∀ {x y : LogEntry}, cmpLog x y ≠ .eq → cmpLog y x ≠ .eq := by
    intro x y hxy
    rw [cmpLog_swap]
    rcases h : cmpLog x y with _ | _ | _ <;> simp [h, Ordering.swap] <;> exact hxy h
  have hties1 : (sortLog L).Pairwise (fun a b => cmpLog a b ≠ .eq) :=
    hties.perm (sortLog_perm L).symm hsymm
  have hsort : sortLog L = sortLog L2 :=
    sorted_perm_noties_eq
      ((sortLog_perm L).trans (hperm.trans (sortLog_perm L2).symm))
      (sortLog_sorted L) (sortLog_sorted L2) hties1
  unfold create_digest
  rw [hsort]

/-- C2 witness: the amended theorem applied to a two-entry log with distinct
timestamps and its transposition. -/
theorem create_digest_order_independent_witness :
    create_digest ⟨10, 1⟩ ⟨1000, 10, 6, 30⟩ [⟨⟨20, 1⟩, "k/a"⟩, ⟨⟨10, 1⟩, "k/b"⟩] 5
      = create_digest ⟨10, 1⟩ ⟨1000, 10, 6, 30⟩ [⟨⟨10, 1⟩, "k/b"⟩, ⟨⟨20, 1⟩, "k/a"⟩] 5 :=
  create_digest_order_independent ⟨10, 1⟩ ⟨1000, 10, 6, 30⟩ 5
    [⟨⟨20, 1⟩, "k/a"⟩, ⟨⟨10, 1⟩, "k/b"⟩] [⟨⟨10, 1⟩, "k/b"⟩, ⟨⟨20, 1⟩, "k/a"⟩]
    (by decide) (by decide)

/-! ## Claim C6 -/

set_option maxRecDepth 8000 in
/-- C6: the subinterval content does **not** break timestamp ties by key bytes
— `LogEntry`'s `Ord` compares timestamps only, so the `BTreeSet` treats two
distinct entries with equal timestamps and different keys as duplicates and
silently drops the second inserted one instead of retaining both: evaluated on
`create_digest` over such a pair, the subinterval bucket holds only the first
entry, and `BTreeSet::insert` of the tied second entry leaves the set
unchanged. -/
theorem subinterval_tie_entry_dropped :
    ((create_digest ⟨1671634800000, 1⟩ ⟨1000, 10, 6, 30⟩
        [⟨⟨1671634800000, 1⟩, "demo/example/a"⟩, ⟨⟨1671634800000, 1⟩, "demo/example/b"⟩]
        1671634800).subintervals.map (fun p => (p.1, p.2.content)))
      = [(16716348000, [⟨⟨1671634800000, 1⟩, "demo/example/a"⟩])]
    ∧ btreeInsert cmpLog ⟨⟨1671634800000, 1⟩, "demo/example/b"⟩
        [⟨⟨1671634800000, 1⟩, "demo/example/a"⟩]
      = [⟨⟨1671634800000, 1⟩, "demo/example/a"⟩] := by
  constructor
  · decide
  · decide

/-! ## Claim C7 -/

/-- C7 (counterexample): the bucketing is not total on every input — with
`delta = 5ms` and `sub_intervals = 10` the divisor `delta / sub_intervals` is
zero, so for any entry whose timestamp survives the casts the source
expression `ts / (delta / sub)` divides by zero and panics (in every build
profile), instead of returning a digest normally. -/
theorem digest_bucketing_panics_counterexample :
    get_subinterval_panics 5 ⟨0, 0⟩ 10 = true
    ∧ log_panics ⟨5, 10, 6, 30⟩ [⟨⟨0, 0⟩, "a"⟩] = true
    ∧ (5 : Nat) / 10 = 0 := by
  decide

/-- C7 (amended): whenever the config satisfies
`0 < delta_ms / sub_intervals` (ruling out the division-by-zero panic),
`create_digest` and `update_digest` are total and defensive: no entry can
trigger the panic, an entry is bucketed iff its timestamp is at or after the
epoch and fits the casts, and both functions simply drop the offending
entries — they compute the same digest as on the valid sublists.  (The era
computation never fails under release-profile wrapping subtraction, as
embedded in `get_era`.) -/
theorem digest_defensive_total (cfg : DigestConfig) (ts ts2 : TS) (li : Nat)
    (log A R : List LogEntry) (D : Digest)
    (hdiv : 0 < cfg.delta / cfg.sub_intervals) (hD : D.config = cfg) :
    (∀ e : LogEntry, get_subinterval_panics cfg.delta e.timestamp cfg.sub_intervals = false)
    ∧ (∀ e : LogEntry,
        (get_subinterval cfg.delta e.timestamp cfg.sub_intervals).isSome
          = log_entry_valid cfg.delta e)
    ∧ create_digest ts cfg log li
        = create_digest ts cfg (log.filter (log_entry_valid cfg.delta)) li
    ∧ update_digest D li ts2 A R
        = update_digest D li ts2 (A.filter (log_entry_valid cfg.delta))
            (R.filter (log_entry_valid cfg.delta)) := by
  refine ⟨?_, ?_, ?_, ?_⟩
  · intro e
    unfold get_subinterval_panics
    simp only [decide_eq_false_iff_not]
    intro hcon
    rw [hcon.2.2.2] at hdiv
    exact Nat.lt_irrefl 0 hdiv
  · intro e
    exact get_subinterval_isSome_iff cfg.delta e cfg.sub_intervals
  · have h1 : List.foldl (create_step cfg li) ⟨[], [], [], 0, 0, .Cold, [], [], [], []⟩
        (sortLog log)
        = List.foldl (create_step cfg li) ⟨[], [], [], 0, 0, .Cold, [], [], [], []⟩
            (sortLog (log.filter (log_entry_valid cfg.delta))) := by
      rw [← filter_sortLog]
      exact create_fold_skips_invalid cfg li (sortLog log) _
    simp only [create_digest]
    rw [h1]
  · have hrem : remove_deleted_content D R li
        = remove_deleted_content D (R.filter (log_entry_valid cfg.delta)) li := by
      unfold remove_deleted_content
      exact remove_fold_skips_invalid li cfg.delta R ⟨D, [], [], []⟩ (by rw [hD])
    have hremcfg :
        (remove_deleted_content D (R.filter (log_entry_valid cfg.delta)) li).digest.config
          = cfg := by
      unfold remove_deleted_content
      rw [remove_fold_config]
      rw [hD]
    have hadd : update_new_content
          (remove_deleted_content D (R.filter (log_entry_valid cfg.delta)) li).digest A li
        = update_new_content
            (remove_deleted_content D (R.filter (log_entry_valid cfg.delta)) li).digest
            (A.filter (log_entry_valid cfg.delta)) li := by
      unfold update_new_content
      refine update_fold_skips_invalid li cfg.delta A
        ⟨(remove_deleted_content D (R.filter (log_entry_valid cfg.delta)) li).digest,
          [], [], []⟩ ?_
      show (remove_deleted_content D (R.filter (log_entry_valid cfg.delta)) li).digest.config.delta
        = cfg.delta
      rw [hremcfg]
    simp only [update_digest]
    rw [hrem, hadd]

/-- C7 witness: the amended theorem applied to the standard config, a log
with one pre-epoch entry (dropped) and one valid entry, and an update whose
added and removed sets each hold one pre-epoch entry. -/
theorem digest_defensive_total_witness :
    create_digest ⟨0, 1⟩ ⟨1000, 10, 6, 30⟩ [⟨⟨-5, 1⟩, "k/bad"⟩, ⟨⟨20, 1⟩, "k/ok"⟩] 5
      = create_digest ⟨0, 1⟩ ⟨1000, 10, 6, 30⟩
          ([⟨⟨-5, 1⟩, "k/bad"⟩, ⟨⟨20, 1⟩, "k/ok"⟩].filter (log_entry_valid 1000)) 5
    ∧ update_digest (create_digest ⟨0, 1⟩ ⟨1000, 10, 6, 30⟩ [] 5) 5 ⟨1, 1⟩
        [⟨⟨-7, 1⟩, "k/bad2"⟩] [⟨⟨-9, 1⟩, "k/bad3"⟩]
      = update_digest (create_digest ⟨0, 1⟩ ⟨1000, 10, 6, 30⟩ [] 5) 5 ⟨1, 1⟩
          ([⟨⟨-7, 1⟩, "k/bad2"⟩].filter (log_entry_valid 1000))
          ([⟨⟨-9, 1⟩, "k/bad3"⟩].filter (log_entry_valid 1000)) :=
  ⟨(digest_defensive_total ⟨1000, 10, 6, 30⟩ ⟨0, 1⟩ ⟨1, 1⟩ 5
      [⟨⟨-5, 1⟩, "k/bad"⟩, ⟨⟨20, 1⟩, "k/ok"⟩] [] []
      (create_digest ⟨0, 1⟩ ⟨1000, 10, 6, 30⟩ [] 5)
      (by decide) (by decide)).2.2.1,
   (digest_defensive_total ⟨1000, 10, 6, 30⟩ ⟨0, 1⟩ ⟨1, 1⟩ 5 []
      [⟨⟨-7, 1⟩, "k/bad2"⟩] [⟨⟨-9, 1⟩, "k/bad3"⟩]
      (create_digest ⟨0, 1⟩ ⟨1000, 10, 6, 30⟩ [] 5)
      (by decide) (by decide)).2.2.2⟩

/-! ## Claim C3 -/

theorem msorted_keys_nodup {cmp : κ → κ → Ordering} (K : KeyCmp cmp)
    {m : List (κ × ν)} (hs : MSorted cmp m) : (m.map Prod.fst).Nodup := by
  have h2 : (m.map Prod.fst).Pairwise (fun a b => cmp a b = .lt) :=
    List.pairwise_map.mpr hs
  refine h2.imp ?_
  intro a b hab
  intro hcon
  rw [hcon] at hab
  rw [K.total.refl b] at hab
  cases hab

theorem compress_hot_fold_fst (d : Digest) :
    ∀ (l : List Nat) (acc : List (Nat × Interval) × List (Nat × SubInterval)) (k : Nat),
      mapGet compare k ((l.foldl (fun acc int =>
        match mapGet compare int d.intervals with
        | none => acc
        | some inter =>
          (mapInsert compare int inter acc.1,
           inter.content.foldl (fun acc2 sub =>
             match mapGet compare sub d.subintervals with
             | none => acc2
             | some subinterval =>
               mapInsert compare sub ⟨subinterval.checksum, []⟩ acc2) acc.2)) acc).1)
      = if k ∈ l ∧ (mapGet compare k d.intervals).isSome
        then mapGet compare k d.intervals
        else mapGet compare k acc.1
  | [], acc, k => by simp
  | k0 :: rest, acc, k => by
    rw [List.foldl_cons]
    by_cases hk : k = k0
    · subst hk
      rcases hF : mapGet compare k d.intervals with _ | inter
      · simp only [hF]
        rw [compress_hot_fold_fst d rest acc k]
        rw [hF]
        simp
      · simp only [hF]
        rw [compress_hot_fold_fst d rest _ k]
        by_cases hmem : k ∈ rest
        · rw [if_pos ⟨hmem, by simp [hF]⟩, if_pos ⟨List.mem_cons_self _ _, by simp [hF]⟩]
          exact hF
        · rw [if_neg (fun hcon => hmem hcon.1),
            if_pos ⟨List.mem_cons_self _ _, by simp [hF]⟩]
          exact mapGet_mapInsert_self keyCmp_nat k inter acc.1
    · rcases hF : mapGet compare k0 d.intervals with _ | inter
      · simp only [hF]
        rw [compress_hot_fold_fst d rest acc k]
        simp [List.mem_cons, hk]
      · simp only [hF]
        rw [compress_hot_fold_fst d rest _ k]
        rw [show (mapInsert compare k0 inter acc.1,
            inter.content.foldl (fun acc2 sub =>
              match mapGet compare sub d.subintervals with
              | none => acc2
              | some subinterval =>
                mapInsert compare sub ⟨subinterval.checksum, []⟩ acc2) acc.2).1
          = mapInsert compare k0 inter acc.1 from rfl]
        rw [mapGet_mapInsert_ne keyCmp_nat hk]
        simp [List.mem_cons, hk]

theorem compress_sub_fold_none (d : Digest) {sid : Nat}
    (hF : mapGet compare sid d.subintervals = none) :
    ∀ (content : List Nat) (acc2 : List (Nat × SubInterval)),
      mapGet compare sid (content.foldl (fun acc2 sub =>
        match mapGet compare sub d.subintervals with
        | none => acc2
        | some subinterval =>
          mapInsert compare sub ⟨subinterval.checksum, []⟩ acc2) acc2)
      = mapGet compare sid acc2
  | [], acc2 => rfl
  | c :: rest, acc2 => by
    rw [List.foldl_cons]
    by_cases hc : c = sid
    · subst hc
      rw [show (match mapGet compare c d.subintervals with
          | none => acc2
          | some subinterval => mapInsert compare c ⟨subinterval.checksum, []⟩ acc2) = acc2 by
        rw [hF]]
      exact compress_sub_fold_none d hF rest acc2
    · rcases hG : mapGet compare c d.subintervals with _ | s
      · simp only [hG]
        exact compress_sub_fold_none d hF rest acc2
      · simp only [hG]
        rw [compress_sub_fold_none d hF rest _]
        exact mapGet_mapInsert_ne keyCmp_nat (fun h => hc h.symm) _ acc2

theorem compress_sub_fold_set (d : Digest) {sid : Nat} {s : SubInterval}
    (hF : mapGet compare sid d.subintervals = some s) :
    ∀ (content : List Nat) (acc2 : List (Nat × SubInterval)),
      mapGet compare sid (content.foldl (fun acc2 sub =>
        match mapGet compare sub d.subintervals with
        | none => acc2
        | some subinterval =>
          mapInsert compare sub ⟨subinterval.checksum, []⟩ acc2) acc2)
      = if sid ∈ content then some ⟨s.checksum, []⟩ else mapGet compare sid acc2
  | [], acc2 => by simp
  | c :: rest, acc2 => by
    rw [List.foldl_cons]
    by_cases hc : c = sid
    · subst hc
      rw [show (match mapGet compare c d.subintervals with
          | none => acc2
          | some subinterval => mapInsert compare c ⟨subinterval.checksum, []⟩ acc2)
        = mapInsert compare c ⟨s.checksum, []⟩ acc2 by rw [hF]]
      rw [compress_sub_fold_set d hF rest _]
      by_cases hmem : c ∈ rest
      · rw [if_pos hmem, if_pos (List.mem_cons_self _ _)]
      · rw [if_neg hmem, if_pos (List.mem_cons_self _ _)]
        exact mapGet_mapInsert_self keyCmp_nat c _ acc2
    · rcases hG : mapGet compare c d.subintervals with _ | s2
      · simp only [hG]
        rw [compress_sub_fold_set d hF rest acc2]
        have hsc : ¬ sid = c := fun h => hc h.symm
        simp [List.mem_cons, hsc]
      · simp only [hG]
        rw [compress_sub_fold_set d hF rest _]
        rw [mapGet_mapInsert_ne keyCmp_nat (fun h => hc h.symm)]
        have hsc : ¬ sid = c := fun h => hc h.symm
        simp [List.mem_cons, hsc]

theorem compress_hot_fold_snd_none (d : Digest) {sid : Nat}
    (hF : mapGet compare sid d.subintervals = none) :
    ∀ (l : List Nat) (acc : List (Nat × Interval) × List (Nat × SubInterval)),
      mapGet compare sid ((l.foldl (fun acc int =>
        match mapGet compare int d.intervals with
        | none => acc
        | some inter =>
          (mapInsert compare int inter acc.1,
           inter.content.foldl (fun acc2 sub =>
             match mapGet compare sub d.subintervals with
             | none => acc2
             | some subinterval =>
               mapInsert compare sub ⟨subinterval.checksum, []⟩ acc2) acc.2)) acc).2)
      = mapGet compare sid acc.2
  | [], acc => rfl
  | k0 :: rest, acc => by
    rw [List.foldl_cons]
    rcases hG : mapGet compare k0 d.intervals with _ | inter
    · simp only [hG]
      exact compress_hot_fold_snd_none d hF rest acc
    · simp only [hG]
      rw [compress_hot_fold_snd_none d hF rest _]
      exact compress_sub_fold_none d hF inter.content acc.2

theorem compress_hot_fold_snd_stable (d : Digest) {sid : Nat} {s : SubInterval}
    (hF : mapGet compare sid d.subintervals = some s) :
    ∀ (l : List Nat) (acc : List (Nat × Interval) × List (Nat × SubInterval)),
      mapGet compare sid acc.2 = some ⟨s.checksum, []⟩ →
      mapGet compare sid ((l.foldl (fun acc int =>
        match mapGet compare int d.intervals with
        | none => acc
        | some inter =>
          (mapInsert compare int inter acc.1,
           inter.content.foldl (fun acc2 sub =>
             match mapGet compare sub d.subintervals with
             | none => acc2
             | some subinterval =>
               mapInsert compare sub ⟨subinterval.checksum, []⟩ acc2) acc.2)) acc).2)
      = some ⟨s.checksum, []⟩
  | [], acc, hacc => hacc
  | k0 :: rest, acc, hacc => by
    rw [List.foldl_cons]
    rcases hG : mapGet compare k0 d.intervals with _ | inter
    · simp only [hG]
      exact compress_hot_fold_snd_stable d hF rest acc hacc
    · simp only [hG]
      refine compress_hot_fold_snd_stable d hF rest _ ?_
      rw [show ((mapInsert compare k0 inter acc.1,
          inter.content.foldl (fun acc2 sub =>
            match mapGet compare sub d.subintervals with
            | none => acc2
            | some subinterval =>
              mapInsert compare sub ⟨subinterval.checksum, []⟩ acc2) acc.2) :
          List (Nat × Interval) × List (Nat × SubInterval)).2
        = inter.content.foldl (fun acc2 sub =>
            match mapGet compare sub d.subintervals with
            | none => acc2
            | some subinterval =>
              mapInsert compare sub ⟨subinterval.checksum, []⟩ acc2) acc.2 from rfl]
      rw [compress_sub_fold_set d hF inter.content acc.2]
      by_cases hmem : sid ∈ inter.content
      · rw [if_pos hmem]
      · rw [if_neg hmem]
        exact hacc

theorem compress_hot_fold_snd_covered (d : Digest) {sid i : Nat} {s : SubInterval}
    {inter : Interval} (hF : mapGet compare sid d.subintervals = some s)
    (hI : mapGet compare i d.intervals = some inter) (hmem : sid ∈ inter.content) :
    ∀ (l : List Nat) (acc : List (Nat × Interval) × List (Nat × SubInterval)), i ∈ l →
      mapGet compare sid ((l.foldl (fun acc int =>
        match mapGet compare int d.intervals with
        | none => acc
        | some inter =>
          (mapInsert compare int inter acc.1,
           inter.content.foldl (fun acc2 sub =>
             match mapGet compare sub d.subintervals with
             | none => acc2
             | some subinterval =>
               mapInsert compare sub ⟨subinterval.checksum, []⟩ acc2) acc.2)) acc).2)
      = some ⟨s.checksum, []⟩
  | [], acc, hin => by simp at hin
  | k0 :: rest, acc, hin => by
    rw [List.foldl_cons]
    by_cases hk : i = k0
    · subst hk
      simp only [hI]
      refine compress_hot_fold_snd_stable d hF rest _ ?_
      rw [show ((mapInsert compare i inter acc.1,
          inter.content.foldl (fun acc2 sub =>
            match mapGet compare sub d.subintervals with
            | none => acc2
            | some subinterval =>
              mapInsert compare sub ⟨subinterval.checksum, []⟩ acc2) acc.2) :
          List (Nat × Interval) × List (Nat × SubInterval)).2
        = inter.content.foldl (fun acc2 sub =>
            match mapGet compare sub d.subintervals with
            | none => acc2
            | some subinterval =>
              mapInsert compare sub ⟨subinterval.checksum, []⟩ acc2) acc.2 from rfl]
      rw [compress_sub_fold_set d hF inter.content acc.2, if_pos hmem]
    · have hin2 : i ∈ rest := by
        rcases List.mem_cons.mp hin with h | h
        · exact absurd h hk
        · exact h
      rcases hG : mapGet compare k0 d.intervals with _ | inter2 <;> simp only [hG]
      · exact compress_hot_fold_snd_covered d hF hI hmem rest acc hin2
      · exact compress_hot_fold_snd_covered d hF hI hmem rest _ hin2

theorem compress_warm_fold_get (d : Digest) :
    ∀ (l : List Nat) (acc : List (Nat × Interval)) (k : Nat),
      mapGet compare k (l.foldl (fun acc int =>
        match mapGet compare int d.intervals with
        | none => acc
        | some interval => mapInsert compare int ⟨interval.checksum, []⟩ acc) acc)
      = if k ∈ l ∧ (mapGet compare k d.intervals).isSome
        then (mapGet compare k d.intervals).map (fun b => ⟨b.checksum, []⟩)
        else mapGet compare k acc
  | [], acc, k => by simp
  | k0 :: rest, acc, k => by
    rw [List.foldl_cons]
    by_cases hk : k = k0
    · subst hk
      rcases hF : mapGet compare k d.intervals with _ | inter
      · simp only [hF]
        rw [compress_warm_fold_get d rest acc k]
        rw [hF]
        simp
      · simp only [hF]
        rw [compress_warm_fold_get d rest _ k]
        by_cases hmem : k ∈ rest
        · rw [if_pos ⟨hmem, by simp [hF]⟩, if_pos ⟨List.mem_cons_self _ _, by simp [hF]⟩]
          rw [hF]
        · rw [if_neg (fun hcon => hmem hcon.1),
            if_pos ⟨List.mem_cons_self _ _, by simp [hF]⟩]
          rw [mapGet_mapInsert_self keyCmp_nat]
          rfl
    · rcases hF : mapGet compare k0 d.intervals with _ | inter
      · simp only [hF]
        rw [compress_warm_fold_get d rest acc k]
        simp [List.mem_cons, hk]
      · simp only [hF]
        rw [compress_warm_fold_get d rest _ k]
        rw [mapGet_mapInsert_ne keyCmp_nat hk]
        simp [List.mem_cons, hk]

theorem compress_eras_fold_get :
    ∀ (m : List (EraType × Interval)) (acc : List (EraType × Interval)) (e : EraType),
      (m.map Prod.fst).Nodup →
      mapGet cmpEra e (m.foldl (fun acc p =>
        if p.1 = .Cold then mapInsert cmpEra .Cold ⟨p.2.checksum, []⟩ acc
        else mapInsert cmpEra p.1 p.2 acc) acc)
      = match mapGet cmpEra e m with
        | some b => some (if e = .Cold then ⟨b.checksum, []⟩ else b)
        | none => mapGet cmpEra e acc
  | [], acc, e, _ => rfl
  | p :: rest, acc, e, hnd => by
    rw [List.foldl_cons]
    rw [List.map_cons] at hnd
    rcases List.nodup_cons.mp hnd with ⟨hp, hndr⟩
    by_cases he : e = p.1
    · subst he
      have hgetrest : mapGet cmpEra p.1 rest = none :=
        mapGet_eq_none_of_not_mem keyCmp_cmpEra hp
      rw [compress_eras_fold_get rest _ p.1 hndr, hgetrest]
      rw [mapGet_cons_self keyCmp_cmpEra.total p rest]
      by_cases hc : p.1 = .Cold
      · rw [if_pos hc, hc, mapGet_mapInsert_self keyCmp_cmpEra]
        simp
      · rw [if_neg hc, mapGet_mapInsert_self keyCmp_cmpEra]
        simp [hc]
    · rw [compress_eras_fold_get rest _ e hndr]
      rw [mapGet_cons_ne keyCmp_cmpEra he]
      rcases hg : mapGet cmpEra e rest with _ | b
      · by_cases hc : p.1 = .Cold
        · rw [if_pos hc]
          rw [mapGet_mapInsert_ne keyCmp_cmpEra (hc ▸ he)]
        · rw [if_neg hc]
          rw [mapGet_mapInsert_ne keyCmp_cmpEra he]
      · rfl

/-- A concrete one-hot-entry digest: `compress` empties the Hot subinterval's
log-entry content (keeping only its checksum), refuting the claim that the Hot
era's subintervals keep their content. -/
theorem compress_drops_hot_subinterval_content :
    (compress hotDigest).checksum = hotDigest.checksum
    ∧ (compress hotDigest).subintervals ≠ hotDigest.subintervals
    ∧ (compress hotDigest).subintervals.map (fun p => (p.1, p.2.content)) = [(31, [])]
    ∧ hotDigest.subintervals.map (fun p => (p.1, p.2.content))
        = [(31, [⟨⟨100, 1⟩, "k/a"⟩])] := by
  refine ⟨rfl, ?_, rfl, rfl⟩
  decide

/-- C3 (amended): `compress` keeps the digest checksum, flattens the Cold era
to its checksum with empty content, copies the non-Cold era buckets verbatim,
keeps the Hot era's intervals in full detail (for intervals not also listed in
the Warm era), keeps Warm-era intervals as checksums with empty content, and
keeps the Hot era's subintervals only as their checksums with **emptied**
log-entry content. -/
theorem compress_characterization (d : Digest) (hse : MSorted cmpEra d.eras) :
    (compress d).checksum = d.checksum
    ∧ mapGet cmpEra .Cold (compress d).eras
        = (mapGet cmpEra .Cold d.eras).map (fun b => ⟨b.checksum, []⟩)
    ∧ (∀ e, e ≠ .Cold → mapGet cmpEra e (compress d).eras = mapGet cmpEra e d.eras)
    ∧ (∀ i, i ∈ eraContent d .Hot → i ∉ eraContent d .Warm →
        mapGet compare i (compress d).intervals = mapGet compare i d.intervals)
    ∧ (∀ i, i ∈ eraContent d .Warm →
        mapGet compare i (compress d).intervals
          = (mapGet compare i d.intervals).map (fun b => ⟨b.checksum, []⟩))
    ∧ (∀ i inter sid, i ∈ eraContent d .Hot → mapGet compare i d.intervals = some inter →
        sid ∈ inter.content →
        mapGet compare sid (compress d).subintervals
          = (mapGet compare sid d.subintervals).map (fun b => ⟨b.checksum, []⟩)) := by
  have hnd : (d.eras.map Prod.fst).Nodup := msorted_keys_nodup keyCmp_cmpEra hse
  refine ⟨rfl, ?_, ?_, ?_, ?_, ?_⟩
  · show mapGet cmpEra .Cold (d.eras.foldl (fun acc p =>
        if p.1 = .Cold then mapInsert cmpEra .Cold ⟨p.2.checksum, []⟩ acc
        else mapInsert cmpEra p.1 p.2 acc) []) = _
    rw [compress_eras_fold_get d.eras [] .Cold hnd]
    rcases hg : mapGet cmpEra .Cold d.eras with _ | b
    · rfl
    · simp
  · intro e he
    show mapGet cmpEra e (d.eras.foldl (fun acc p =>
        if p.1 = .Cold then mapInsert cmpEra .Cold ⟨p.2.checksum, []⟩ acc
        else mapInsert cmpEra p.1 p.2 acc) []) = _
    rw [compress_eras_fold_get d.eras [] e hnd]
    rcases hg : mapGet cmpEra e d.eras with _ | b
    · rfl
    · simp [he]
  · intro i hihot hiwarm
    show mapGet compare i (compress d).intervals = _
    unfold compress eraContent at *
    rcases hhot : mapGet cmpEra .Hot d.eras with _ | hotb <;> rw [hhot] at hihot
    · simp at hihot
    · simp only [hhot]
      rcases hwarm : mapGet cmpEra .Warm d.eras with _ | warmb <;> rw [hwarm] at hiwarm
      · simp only [hwarm]
        rw [compress_hot_fold_fst d hotb.content ([], []) i]
        rcases hI : mapGet compare i d.intervals with _ | v
        · simp [hI, mapGet_nil]
        · rw [if_pos ⟨hihot, by simp [hI]⟩]
      · simp only [hwarm]
        rw [compress_warm_fold_get d warmb.content _ i]
        rw [if_neg (fun hcon => hiwarm hcon.1)]
        rw [compress_hot_fold_fst d hotb.content ([], []) i]
        rcases hI : mapGet compare i d.intervals with _ | v
        · simp [hI, mapGet_nil]
        · rw [if_pos ⟨hihot, by simp [hI]⟩]
  · intro i hiwarm
    show mapGet compare i (compress d).intervals = _
    unfold compress eraContent at *
    rcases hwarm : mapGet cmpEra .Warm d.eras with _ | warmb <;> rw [hwarm] at hiwarm
    · simp at hiwarm
    · rcases hhot : mapGet cmpEra .Hot d.eras with _ | hotb
      · simp only [hhot, hwarm]
        rw [compress_warm_fold_get d warmb.content _ i]
        rcases hI : mapGet compare i d.intervals with _ | v
        · simp [hI, mapGet_nil]
        · rw [if_pos ⟨hiwarm, by simp [hI]⟩]
      · simp only [hhot, hwarm]
        rw [compress_warm_fold_get d warmb.content _ i]
        rcases hI : mapGet compare i d.intervals with _ | v
        · rw [if_neg (by
            intro hcon
            simp at hcon)]
          rw [compress_hot_fold_fst d hotb.content ([], []) i]
          simp [hI, mapGet_nil]
        · rw [if_pos ⟨hiwarm, by simp [hI]⟩]
  · intro i inter sid hihot hI hsid
    show mapGet compare sid (compress d).subintervals = _
    unfold compress eraContent at *
    rcases hhot : mapGet cmpEra .Hot d.eras with _ | hotb <;> rw [hhot] at hihot
    · simp at hihot
    · simp only [hhot]
      rcases hS : mapGet compare sid d.subintervals with _ | s
      · rw [compress_hot_fold_snd_none d hS hotb.content ([], [])]
        rfl
      · rw [compress_hot_fold_snd_covered d hS hI hsid hotb.content ([], []) hihot]
        rfl

/-- C3 witness: the amended characterization applied to the concrete
one-hot-entry digest. -/
theorem compress_characterization_witness :
    (compress hotDigest).checksum = hotDigest.checksum
    ∧ mapGet cmpEra .Cold (compress hotDigest).eras
        = (mapGet cmpEra .Cold hotDigest.eras).map (fun b => ⟨b.checksum, []⟩)
    ∧ (∀ e, e ≠ .Cold →
        mapGet cmpEra e (compress hotDigest).eras = mapGet cmpEra e hotDigest.eras)
    ∧ (∀ i, i ∈ eraContent hotDigest .Hot → i ∉ eraContent hotDigest .Warm →
        mapGet compare i (compress hotDigest).intervals
          = mapGet compare i hotDigest.intervals)
    ∧ (∀ i, i ∈ eraContent hotDigest .Warm →
        mapGet compare i (compress hotDigest).intervals
          = (mapGet compare i hotDigest.intervals).map (fun b => ⟨b.checksum, []⟩))
    ∧ (∀ i inter sid, i ∈ eraContent hotDigest .Hot →
        mapGet compare i hotDigest.intervals = some inter → sid ∈ inter.content →
        mapGet compare sid (compress hotDigest).subintervals
          = (mapGet compare sid hotDigest.subintervals).map
              (fun b => ⟨b.checksum, []⟩)) :=
  compress_characterization hotDigest (by
    show List.Pairwise _ _
    decide)

/-! ## Queryable aggregation facts -/

lemma merge_comm (a b : QueryableInfo) :
    merge_qabl_infos a b = merge_qabl_infos b a := by
  simp only [merge_qabl_infos, QueryableInfo.mk.injEq]
  constructor
  · by_cases h1 : a.complete = 0 <;> by_cases h2 : b.complete = 0 <;> simp [h1, h2]
  · omega

lemma merge_assoc (a b c : QueryableInfo) :
    merge_qabl_infos (merge_qabl_infos a b) c
      = merge_qabl_infos a (merge_qabl_infos b c) := by
  simp only [merge_qabl_infos, QueryableInfo.mk.injEq]
  constructor
  · by_cases h1 : a.complete = 0 <;> by_cases h2 : b.complete = 0 <;>
      by_cases h3 : c.complete = 0 <;> simp [h1, h2, h3]
  · omega

lemma opt_merge_right_comm (a : Option QueryableInfo) (i j : QueryableInfo) :
    opt_merge (opt_merge a i) j = opt_merge (opt_merge a j) i := by
  rcases a with _ | x
  · simp [opt_merge, merge_comm i j]
  · simp [opt_merge, merge_assoc, merge_comm i j]

lemma qabl_fold_step_eq (zid : Nat) (a : Option QueryableInfo)
    (p : Nat × QueryableInfo) :
    qabl_fold_step zid a p = if p.1 ≠ zid then opt_merge a p.2 else a := rfl

lemma session_fold_step_eq (a : Option QueryableInfo) (c : SessionContext) :
    session_fold_step a c
      = match c.qabl with
        | some i => opt_merge a i
        | none => a := rfl

lemma qabl_fold_step_rc (zid : Nat) (a : Option QueryableInfo)
    (p q : Nat × QueryableInfo) :
    qabl_fold_step zid (qabl_fold_step zid a p) q
      = qabl_fold_step zid (qabl_fold_step zid a q) p := by
  simp only [qabl_fold_step_eq]
  by_cases h1 : p.1 = zid <;> by_cases h2 : q.1 = zid
  · simp [h1, h2]
  · simp [h1, h2]
  · simp [h1, h2]
  · simp [h1, h2, opt_merge_right_comm a p.2 q.2]

lemma session_fold_step_rc (a : Option QueryableInfo) (c d : SessionContext) :
    session_fold_step (session_fold_step a c) d
      = session_fold_step (session_fold_step a d) c := by
  simp only [session_fold_step_eq]
  rcases hc : c.qabl with _ | i
  · rcases hd : d.qabl with _ | j <;> simp
  · rcases hd : d.qabl with _ | j
    · simp
    · simp [opt_merge_right_comm a i j]

lemma vis_fold_step_rc (tq : TablesQ) (f : FaceState) (a : Option QueryableInfo)
    (c d : SessionContext) :
    vis_fold_step tq f (vis_fold_step tq f a c) d
      = vis_fold_step tq f (vis_fold_step tq f a d) c := by
  unfold vis_fold_step
  by_cases h1 : qabl_vis tq f c = true <;> by_cases h2 : qabl_vis tq f d = true
  · simp only [h1, h2, if_pos]
    exact session_fold_step_rc a c d
  · simp [h1, h2]
  · simp [h1, h2]
  · simp [h1, h2]

/-- C9: `merge_qabl_infos` is commutative and associative in the default
build — the merged `complete` is the boolean-or (as 0/1) of the two
`complete` fields and the merged `distance` the minimum of the two
distances — so the aggregates of `local_router_qabl_info`,
`local_peer_qabl_info` and `local_qabl_info` are unchanged under any
permutation of the folded registration maps and session contexts. -/
theorem merge_qabl_infos_order_independent
    (a b c : QueryableInfo) (tq : TablesQ) (f : FaceState)
    (rq rq' pq pq' : List (Nat × QueryableInfo)) (sc sc' : List SessionContext)
    (hr : rq.Perm rq') (hp : pq.Perm pq') (hs : sc.Perm sc') :
    merge_qabl_infos a b = merge_qabl_infos b a
    ∧ merge_qabl_infos (merge_qabl_infos a b) c
        = merge_qabl_infos a (merge_qabl_infos b c)
    ∧ (merge_qabl_infos a b).complete
        = (if a.complete ≠ 0 ∨ b.complete ≠ 0 then 1 else 0)
    ∧ (merge_qabl_infos a b).distance = min a.distance b.distance
    ∧ local_router_qabl_info tq ⟨some ⟨rq, pq⟩, sc⟩
        = local_router_qabl_info tq ⟨some ⟨rq', pq'⟩, sc'⟩
    ∧ local_peer_qabl_info tq ⟨some ⟨rq, pq⟩, sc⟩
        = local_peer_qabl_info tq ⟨some ⟨rq', pq'⟩, sc'⟩
    ∧ local_qabl_info tq ⟨some ⟨rq, pq⟩, sc⟩ f
        = local_qabl_info tq ⟨some ⟨rq', pq'⟩, sc'⟩ f := by
  haveI : RightCommutative (qabl_fold_step tq.zid) := ⟨qabl_fold_step_rc tq.zid⟩
  haveI : RightCommutative session_fold_step := ⟨session_fold_step_rc⟩
  haveI : RightCommutative (vis_fold_step tq f) := ⟨vis_fold_step_rc tq f⟩
  refine ⟨merge_comm a b, merge_assoc a b c, rfl, rfl, ?_, ?_, ?_⟩
  · simp only [local_router_qabl_info]
    rw [hp.foldl_eq, hs.foldl_eq]
  · simp only [local_peer_qabl_info]
    rw [hr.foldl_eq, hs.foldl_eq]
  · simp only [local_qabl_info, Option.isSome_some, true_and]
    rw [hr.foldl_eq, hp.foldl_eq, hs.foldl_eq]

/-- C9 witness: the order-independence at concrete two-entry maps and session
lists permuted by a swap. -/
theorem merge_qabl_infos_order_independent_witness :
    merge_qabl_infos ⟨1, 2⟩ ⟨0, 3⟩ = merge_qabl_infos ⟨0, 3⟩ ⟨1, 2⟩
    ∧ merge_qabl_infos (merge_qabl_infos ⟨1, 2⟩ ⟨0, 3⟩) ⟨0, 5⟩
        = merge_qabl_infos ⟨1, 2⟩ (merge_qabl_infos ⟨0, 3⟩ ⟨0, 5⟩)
    ∧ (merge_qabl_infos ⟨1, 2⟩ ⟨0, 3⟩).complete
        = (if (⟨1, 2⟩ : QueryableInfo).complete ≠ 0
              ∨ (⟨0, 3⟩ : QueryableInfo).complete ≠ 0 then 1 else 0)
    ∧ (merge_qabl_infos ⟨1, 2⟩ ⟨0, 3⟩).distance
        = min (⟨1, 2⟩ : QueryableInfo).distance (⟨0, 3⟩ : QueryableInfo).distance
    ∧ local_router_qabl_info c9tq ⟨some ⟨c9rq, c9pq⟩, c9sc⟩
        = local_router_qabl_info c9tq ⟨some ⟨c9rq', c9pq'⟩, c9sc'⟩
    ∧ local_peer_qabl_info c9tq ⟨some ⟨c9rq, c9pq⟩, c9sc⟩
        = local_peer_qabl_info c9tq ⟨some ⟨c9rq', c9pq'⟩, c9sc'⟩
    ∧ local_qabl_info c9tq ⟨some ⟨c9rq, c9pq⟩, c9sc⟩ c9f
        = local_qabl_info c9tq ⟨some ⟨c9rq', c9pq'⟩, c9sc'⟩ c9f :=
  merge_qabl_infos_order_independent ⟨1, 2⟩ ⟨0, 3⟩ ⟨0, 5⟩ c9tq c9f
    c9rq c9rq' c9pq c9pq' c9sc c9sc' (by decide) (by decide) (by decide)

/-! ## `local_qabl_info` versus its specification -/

lemma sel_qabls_nil (zid : Nat) : sel_qabls zid [] = [] := rfl

lemma sel_qabls_cons (zid : Nat) (p : Nat × QueryableInfo)
    (t : List (Nat × QueryableInfo)) :
    sel_qabls zid (p :: t)
      = if p.1 ≠ zid then p.2 :: sel_qabls zid t else sel_qabls zid t := by
  by_cases h : p.1 = zid <;> simp [sel_qabls, List.filter_cons, h]

lemma foldl_qabl_eq_opt (zid : Nat) (m : List (Nat × QueryableInfo)) :
    ∀ a : Option QueryableInfo,
      m.foldl (qabl_fold_step zid) a = (sel_qabls zid m).foldl opt_merge a := by
  induction m with
  | nil => intro a; rfl
  | cons p t ih =>
    intro a
    rw [List.foldl_cons, qabl_fold_step_eq, sel_qabls_cons]
    by_cases h : p.1 = zid
    · rw [if_neg (not_not_intro h), if_neg (not_not_intro h)]
      exact ih a
    · rw [if_pos h, if_pos h, List.foldl_cons]
      exact ih (opt_merge a p.2)

lemma foldl_session_eq_opt (sc : List SessionContext) :
    ∀ a : Option QueryableInfo,
      sc.foldl session_fold_step a
        = (sc.filterMap SessionContext.qabl).foldl opt_merge a := by
  induction sc with
  | nil => intro a; rfl
  | cons c t ih =>
    intro a
    rw [List.foldl_cons, session_fold_step_eq, List.filterMap_cons]
    rcases hc : c.qabl with _ | i <;> simp [hc, ih]

lemma foldl_vis_eq_opt (tq : TablesQ) (f : FaceState) (sc : List SessionContext) :
    ∀ a : Option QueryableInfo,
      sc.foldl (vis_fold_step tq f) a
        = ((sc.filter (qabl_vis tq f)).filterMap SessionContext.qabl).foldl
            opt_merge a := by
  induction sc with
  | nil => intro a; rfl
  | cons c t ih =>
    intro a
    rw [List.foldl_cons, List.filter_cons]
    by_cases h : qabl_vis tq f c = true
    · rw [vis_fold_step, if_pos h, session_fold_step_eq]
      simp only [h, if_true]
      rw [List.filterMap_cons]
      rcases hc : c.qabl with _ | i <;> simp [hc, ih]
    · rw [vis_fold_step, if_neg h]
      simp only [h, if_false]
      exact ih a

lemma opt_merge_foldl_some (l : List QueryableInfo) :
    ∀ x : QueryableInfo, l.foldl opt_merge (some x) = some (l.foldl merge_qabl_infos x) := by
  induction l with
  | nil => intro x; rfl
  | cons h t ih => intro x; simp [List.foldl_cons, opt_merge, ih]

lemma spec_merge_fold_eq_opt (l : List QueryableInfo) :
    spec_merge_fold l = (l.foldl opt_merge none).getD ⟨0, 0⟩ := by
  cases l with
  | nil => rfl
  | cons h t => simp [spec_merge_fold, List.foldl_cons, opt_merge, opt_merge_foldl_some]

lemma qabl_vis_and_eq : qabl_vis_and = qabl_vis := rfl

/-- C5 counterexample: at a Router with no full peer mesh and no failover
brokering, a session queryable on Peer face 1 is invisible to Peer face 2 in
the code (the conjunction reading) but visible under the claim's disjunction
reading, so the aggregates differ. -/
theorem local_qabl_info_or_counterexample :
    local_qabl_info c5tq c5res c5dst ≠ spec_local_qabl_info_or c5tq c5res c5dst := by
  decide

/-- C5 amended: `local_qabl_info(res, dst_face)` equals the
`merge_qabl_infos`-fold over (a) router-scope entries with zid different from
the local zid — gated on the local node being a Router, (b) peer-scope entries
under the same filter when `full_peer_net` holds, and (c) exactly those
session contexts passing `(ctx.face.id ≠ dst.id ∧ ctx.face.role ≠ Peer) ∨
dst.role ≠ Peer ∨ failover_brokering(ctx.face.zid, dst.zid)` — the first
selector being the **conjunction** of the id test and the role test, per the
source's `&&`/`||` precedence. -/
theorem local_qabl_info_matches_and_spec (tq : TablesQ) (res : Resource)
    (f : FaceState) :
    local_qabl_info tq res f = spec_local_qabl_info_and tq res f := by
  rcases res with ⟨rc, sc⟩
  rcases rc with _ | ⟨rqs, pqs⟩
  · simp only [local_qabl_info, spec_local_qabl_info_and, qabl_vis_and_eq]
    simp only [Option.isSome_none, Bool.false_eq_true, false_and, if_false, ite_self]
    rw [foldl_vis_eq_opt, spec_merge_fold_eq_opt]
    simp
  · simp only [local_qabl_info, spec_local_qabl_info_and, qabl_vis_and_eq]
    simp only [Option.isSome_some, true_and]
    rw [spec_merge_fold_eq_opt, List.foldl_append, List.foldl_append,
      foldl_vis_eq_opt]
    by_cases hw : tq.whatami = WhatAmI.Router <;>
      by_cases hf : tq.full_peer_net = true <;>
        simp [hw, hf, foldl_qabl_eq_opt]

/-! ## ZenohId codec -/

/-- C8: the ZenohId wire codec never yields an over-long identity: an
oversize length prefix makes `Zenoh080`'s read fail, a configured length
above `MAX_SIZE` makes both `Zenoh080Length` laws fail, every successfully
decoded identity has 1 to 16 bytes, and writing an identity of 1–16 bytes
then reading it back round-trips, leaving the remaining stream intact. -/
theorem zenohid_codec_safe :
    (∀ input size rest, read_usize input = some (size, rest) →
      zenohid_max_size < size → zenoh080_read_zenohid input = none)
    ∧ (∀ length input id, zenohid_max_size < length →
      zenoh080length_read_zenohid length input = none
        ∧ zenoh080length_write_zenohid length id = none)
    ∧ (∀ input id rest, zenoh080_read_zenohid input = some (id, rest) →
      1 ≤ id.length ∧ id.length ≤ zenohid_max_size)
    ∧ (∀ id extra, 1 ≤ id.length → id.length ≤ zenohid_max_size →
      zenoh080_read_zenohid (zenoh080_write_zenohid id ++ extra) = some (id, extra)
        ∧ zenoh080length_write_zenohid id.length id = some id
        ∧ zenoh080length_read_zenohid id.length (id ++ extra) = some (id, extra)) := by
  refine ⟨?_, ?_, ?_, ?_⟩
  · intro input size rest hsz hbig
    simp only [zenoh080_read_zenohid, hsz]
    simp [hbig]
  · intro length input id hlen
    constructor
    · simp only [zenoh080length_read_zenohid]
      simp [hlen]
    · simp only [zenoh080length_write_zenohid]
      simp [hlen]
  · intro input id rest h
    rw [zenoh080_read_zenohid] at h
    split at h
    · exact Option.noConfusion h
    · split at h
      · exact Option.noConfusion h
      · split at h
        · exact Option.noConfusion h
        · rename_i bytes r2 hre
          rw [zenohid_try_from] at h
          split at h
          · rename_i hb
            simp at h
            rcases h with ⟨hid, _⟩
            subst hid
            exact hb
          · simp at h
  · intro id extra h1 h2
    have h2' : id.length ≤ 16 := by simpa [zenohid_max_size] using h2
    have hw : write_usize id.length = [id.length] := by
      rw [write_usize, dif_pos (by omega : id.length < 128)]
    have hr : read_usize (id.length :: (id ++ extra))
        = some (id.length, id ++ extra) := by
      rw [read_usize, if_pos (by omega : id.length < 128)]
    have hre : read_exact id.length (id ++ extra) = some (id, extra) := by
      rw [read_exact, if_pos (by simp)]
      simp
    have htf : zenohid_try_from id = some id := by
      rw [zenohid_try_from, if_pos ⟨h1, h2⟩]
    have hng : ¬ id.length > zenohid_max_size := by
      simp only [zenohid_max_size]
      omega
    refine ⟨?_, ?_, ?_⟩
    · simp only [zenoh080_write_zenohid, hw, List.cons_append, List.nil_append]
      simp only [zenoh080_read_zenohid, hr]
      rw [if_neg hng, hre]
      show Option.map (fun i => (i, extra)) (zenohid_try_from id) = some (id, extra)
      rw [htf]
      rfl
    · rw [zenoh080length_write_zenohid, if_neg hng]
    · rw [zenoh080length_read_zenohid, if_neg hng, hre]
      show Option.map (fun i => (i, extra)) (zenohid_try_from id) = some (id, extra)
      rw [htf]
      rfl

/-- C8 witness: the four parts at concrete streams — an oversize prefix (17)
is rejected, an oversize configured length is rejected both ways, the decode
of `[2, 5, 6]` yields the 2-byte identity in bounds, and `[5, 6]` with a
trailing `[9]` round-trips through both codecs. -/
theorem zenohid_codec_safe_witness :
    zenoh080_read_zenohid [17, 0] = none
    ∧ (zenoh080length_read_zenohid 17 [0] = none
        ∧ zenoh080length_write_zenohid 17 [1] = none)
    ∧ (1 ≤ ([5, 6] : List Nat).length ∧ ([5, 6] : List Nat).length ≤ zenohid_max_size)
    ∧ (zenoh080_read_zenohid (zenoh080_write_zenohid [5, 6] ++ [9]) = some ([5, 6], [9])
        ∧ zenoh080length_write_zenohid ([5, 6] : List Nat).length [5, 6] = some [5, 6]
        ∧ zenoh080length_read_zenohid ([5, 6] : List Nat).length ([5, 6] ++ [9])
            = some ([5, 6], [9])) :=
  ⟨zenohid_codec_safe.1 [17, 0] 17 [0] (by decide) (by decide),
   zenohid_codec_safe.2.1 17 [0] [1] (by decide),
   zenohid_codec_safe.2.2.1 [2, 5, 6] [5, 6] [] (by decide),
   zenohid_codec_safe.2.2.2 [5, 6] [9] (by decide) (by decide)⟩

/-! ## Tree iterator facts -/

theorem tree_trace_eq_stackFlat (st : List (List KTree)) :
    tree_trace st = stackFlat st := by
  induction st using tree_trace.induct with
  | case1 => rw [tree_trace]; rfl
  | case2 rest ih =>
    rw [tree_trace, ih]
    simp [stackFlat, preForest]
  | case3 t ts rest ih =>
    rw [tree_trace, ih]
    rcases t with ⟨a, cs⟩
    simp [stackFlat, preForest, preFlat, KTree.children, List.append_assoc]

mutual

theorem preFlat_map_snd (d : Nat) (t : KTree) :
    (preFlat d t).map Prod.snd = preorderT t := by
  rcases t with ⟨a, cs⟩
  simp [preFlat, preorderT, preForest_map_snd (d + 1) cs]

theorem preForest_map_snd (d : Nat) (l : List KTree) :
    (preForest d l).map Prod.snd = preorderF l := by
  cases l with
  | nil => rfl
  | cons t ts =>
    simp [preForest, preorderF, preFlat_map_snd d t, preForest_map_snd d ts]

end

lemma depth_next_trace (st : List (List KTree)) :
    ∀ d n st', depth_next st = some (d, n, st') →
      1 ≤ d ∧ tree_trace st = (d, n) :: tree_trace st' := by
  induction st with
  | nil => intro d n st' h; simp [depth_next] at h
  | cons l rest ih =>
    rcases l with _ | ⟨t, ts⟩
    · intro d n st' h
      rw [depth_next] at h
      rcases ih d n st' h with ⟨h1, h2⟩
      exact ⟨h1, by rw [tree_trace, h2]⟩
    · intro d n st' h
      rw [depth_next] at h
      simp only [Option.some.injEq, Prod.mk.injEq] at h
      rcases h with ⟨hd, hn, hst⟩
      subst hd
      subst hn
      subst hst
      exact ⟨by omega, by rw [tree_trace]⟩

/-- C10: whenever `DepthInstrumented<TreeIter>::next` yields, the reported
depth is at least 1 (so `NonZeroUsize::new_unchecked` is safe) and extending
the run shows the depth is the yielded node's ancestor count plus one: the
full trace from a fresh iterator over children `cs` equals the pre-order
flatten annotated with exactly that depth, and erasing depths gives the plain
depth-first pre-order, in which every node precedes its descendants. -/
theorem tree_iter_depth_preorder (cs : List KTree) (st st' : List (List KTree))
    (d : Nat) (n : KTree) (h : depth_next st = some (d, n, st')) :
    1 ≤ d
    ∧ tree_trace st = (d, n) :: tree_trace st'
    ∧ tree_trace [cs] = preForest 1 cs
    ∧ (tree_trace [cs]).map Prod.snd = preorderF cs := by
  refine ⟨(depth_next_trace st d n st' h).1, (depth_next_trace st d n st' h).2,
    ?_, ?_⟩
  · rw [tree_trace_eq_stackFlat]
    simp [stackFlat]
  · rw [tree_trace_eq_stackFlat]
    simp [stackFlat, preForest_map_snd]

/-- C10 witness: the instrumented iterator on the chain `node 0 [node 1 []]`
yields depth 1 first, and the full trace is the annotated pre-order. -/
theorem tree_iter_depth_preorder_witness :
    1 ≤ 1
    ∧ tree_trace [[c10t]] = (1, c10t) :: tree_trace [[KTree.node 1 []], []]
    ∧ tree_trace [[c10t]] = preForest 1 [c10t]
    ∧ (tree_trace [[c10t]]).map Prod.snd = preorderF [c10t] :=
  tree_iter_depth_preorder [c10t] [[c10t]] [[KTree.node 1 []], []] 1 c10t rfl

/-! ## Node removal in the Peer scope -/

/-- C4: `queries_remove_node(tables, 5, Peer)` leaves the peer-scope
registration of node 5 untouched on a resource that carries only a peer-scope
queryable — the resource keeps `peer_qabls[5]` and stays in
`hat.peer_qabls` — because both branches of the selection loop scan
`hat.router_qabls` and `Context.router_qabls`; on a resource where node 5
also has a router-scope registration, the very same call does purge the
peer-scope entry. -/
theorem queries_remove_node_peer_scope_missed :
    (∃ r ∈ (queries_remove_node c4tables 5 .Peer).resources,
        (mapGet compare 5 r.peer_qabls).isSome = true)
    ∧ 1 ∈ (queries_remove_node c4tables 5 .Peer).hat_peer_qabls
    ∧ ((queries_remove_node c4tables2 5 .Peer).resources.all
        (fun r => (mapGet compare 5 r.peer_qabls).isNone)) = true := by
  decide

/-! ## Round-trip of `update_digest` (C1): list surgery -/

lemma filter_btreeInsert_of_false {cmp : α → α → Ordering} {p : α → Bool}
    {x : α} (hx : p x = false) :
    ∀ (l : List α), (btreeInsert cmp x l).filter p = l.filter p
  | [] => by simp [btreeInsert, hx]
  | y :: ys => by
    unfold btreeInsert
    rcases hc : cmp x y with _ | _ | _
    · simp [List.filter_cons, hx]
    · rfl
    · simp [List.filter_cons, filter_btreeInsert_of_false hx ys]

lemma rmAll_nil (l : List LogEntry) : rmAll [] l = l := rfl

lemma rmAll_cons (e : LogEntry) (P : List LogEntry) (l : List LogEntry) :
    rmAll (e :: P) l
      = rmAll P (l.filter (fun x => x.timestamp ≠ e.timestamp ∨ x.key ≠ e.key)) := rfl

lemma freshPred_cons (e : LogEntry) (S : List LogEntry) (x : LogEntry) :
    freshPred (e :: S) x
      = (decide (x.timestamp ≠ e.timestamp ∨ x.key ≠ e.key) && freshPred S x) := by
  simp [freshPred]

lemma rmAll_eq_filter : ∀ (S : List LogEntry) (l : List LogEntry),
    rmAll S l = l.filter (freshPred S)
  | [], l => by
    rw [rmAll_nil]
    refine (List.filter_eq_self.mpr ?_).symm
    intro x _
    simp [freshPred]
  | e :: S, l => by
    rw [rmAll_cons, rmAll_eq_filter S, List.filter_filter]
    apply List.filter_congr
    intro x _
    rw [freshPred_cons]
    cases hpe : decide (x.timestamp ≠ e.timestamp ∨ x.key ≠ e.key) <;>
      cases hfs : freshPred S x <;> simp [hpe, hfs]

lemma freshPred_self {S : List LogEntry} {x : LogEntry} (hx : x ∈ S) :
    freshPred S x = false := by
  cases h : freshPred S x
  · rfl
  · exfalso
    have := (List.all_eq_true.mp h) x hx
    simp at this

lemma insAllC_nil {cmp : α → α → Ordering} (b : List α) : insAllC cmp [] b = b := rfl

lemma insAllC_cons {cmp : α → α → Ordering} (x : α) (S b : List α) :
    insAllC cmp (x :: S) b = insAllC cmp S (btreeInsert cmp x b) := rfl

lemma filter_insAllC {cmp : α → α → Ordering} {p : α → Bool} :
    ∀ (S : List α) (b : List α), (∀ e ∈ S, p e = false) →
      (insAllC cmp S b).filter p = b.filter p
  | [], _, _ => rfl
  | x :: S, b, h => by
    rw [insAllC_cons, filter_insAllC S _ (fun e he => h e (List.mem_cons_of_mem _ he)),
      filter_btreeInsert_of_false (h x (List.mem_cons_self _ _))]

lemma rmAll_insAllC (S : List LogEntry) (b : List LogEntry)
    (hfresh : ∀ x ∈ b, freshPred S x = true) :
    rmAll S (insAllC cmpLog S b) = b := by
  rw [rmAll_eq_filter, filter_insAllC S b (fun e he => freshPred_self he)]
  exact List.filter_eq_self.mpr hfresh

lemma mem_insAllC_of_mem {cmp : α → α → Ordering} {x : α} :
    ∀ (S b : List α), x ∈ b → x ∈ insAllC cmp S b
  | [], _, h => h
  | y :: S, b, h => by
    rw [insAllC_cons]
    exact mem_insAllC_of_mem S _ (mem_btreeInsert_of_mem y h)

lemma mem_of_mem_insAllC {cmp : α → α → Ordering} {x : α} :
    ∀ (S b : List α), x ∈ insAllC cmp S b → x ∈ b ∨ x ∈ S
  | [], _, h => Or.inl h
  | y :: S, b, h => by
    rw [insAllC_cons] at h
    rcases mem_of_mem_insAllC S _ h with h2 | h2
    · rcases mem_of_mem_btreeInsert y h2 with h3 | h3
      · right; rw [h3]; exact List.mem_cons_self _ _
      · left; exact h3
    · right; exact List.mem_cons_of_mem _ h2

lemma mem_btreeInsert_self_key {cmp : α → α → Ordering} (K : KeyCmp cmp)
    (x : α) (l : List α) : x ∈ btreeInsert cmp x l := by
  by_cases hx : x ∈ l
  · exact mem_btreeInsert_of_mem x hx
  · apply mem_btreeInsert_self
    intro y hy hc
    exact hx (((K.eq_iff x y).mp hc) ▸ hy)

lemma mem_insAllC_of_mem_key {cmp : α → α → Ordering} (K : KeyCmp cmp) {x : α} :
    ∀ (S b : List α), x ∈ S → x ∈ insAllC cmp S b
  | [], _, h => by cases h
  | y :: S, b, h => by
    rw [insAllC_cons]
    rcases List.mem_cons.mp h with h2 | h2
    · subst h2
      exact mem_insAllC_of_mem S _ (mem_btreeInsert_self_key K x b)
    · exact mem_insAllC_of_mem_key K S _ h2

lemma csorted_insAllC {cmp : α → α → Ordering} (T : TotalCmp cmp) :
    ∀ (S b : List α), CSorted cmp b → CSorted cmp (insAllC cmp S b)
  | [], _, h => h
  | y :: S, b, h => by
    rw [insAllC_cons]
    exact csorted_insAllC T S _ (csorted_btreeInsert T y h)

lemma csorted_filter {cmp : α → α → Ordering} {l : List α} (p : α → Bool)
    (h : CSorted cmp l) : CSorted cmp (l.filter p) :=
  List.Pairwise.sublist (List.filter_sublist l) h

lemma btreeInsert_ne_nil {cmp : α → α → Ordering} (x : α) :
    ∀ (l : List α), btreeInsert cmp x l ≠ []
  | [] => by simp [btreeInsert]
  | y :: ys => by
    unfold btreeInsert
    rcases hc : cmp x y with _ | _ | _ <;> simp

lemma insAllC_ne_nil_of_ne_nil {cmp : α → α → Ordering} :
    ∀ (S b : List α), b ≠ [] → insAllC cmp S b ≠ []
  | [], _, h => h
  | y :: S, b, h => by
    rw [insAllC_cons]
    exact insAllC_ne_nil_of_ne_nil S _ (btreeInsert_ne_nil y b)

/-! ## C1: the add pass, componentwise and per key -/

lemma update_new_step_subId_none (li : Nat) (st : UpdateState) (e : LogEntry)
    (h : subId st.digest.config e = none) : update_new_step li st e = st := by
  unfold subId at h
  simp only [update_new_step, h]

lemma update_new_step_subId_some (li : Nat) (st : UpdateState) (e : LogEntry)
    (sub : Nat) (h : subId st.digest.config e = some sub) :
    update_new_step li st e
      = ⟨{ st.digest with
            subintervals := mapUpsert compare sub
              (fun s => { s with content := btreeInsert cmpLog e s.content })
              ⟨0, [e]⟩ st.digest.subintervals
            intervals := mapUpsert compare (sub / st.digest.config.sub_intervals)
              (fun i => { i with content := btreeInsert compare sub i.content })
              ⟨0, [sub]⟩ st.digest.intervals
            eras := mapUpsert cmpEra
              (get_era st.digest.config li (sub / st.digest.config.sub_intervals))
              (fun b => { b with
                content := btreeInsert compare
                    (sub / st.digest.config.sub_intervals) b.content })
              ⟨0, [sub / st.digest.config.sub_intervals]⟩ st.digest.eras },
         setInsert compare sub st.subs_upd,
         setInsert compare (sub / st.digest.config.sub_intervals) st.ints_upd,
         setInsert cmpEra
           (get_era st.digest.config li (sub / st.digest.config.sub_intervals))
           st.eras_upd⟩ := by
  unfold subId at h
  simp only [update_new_step, h, get_interval]

lemma addSubs_nil (cfg : DigestConfig) (m : List (Nat × SubInterval)) :
    addSubs cfg [] m = m := rfl

lemma addSubs_cons (cfg : DigestConfig) (e : LogEntry) (A : List LogEntry)
    (m : List (Nat × SubInterval)) :
    addSubs cfg (e :: A) m
      = addSubs cfg A (match subId cfg e with
          | none => m
          | some sub => mapUpsert compare sub
              (fun s => { s with content := btreeInsert cmpLog e s.content })
              ⟨0, [e]⟩ m) := rfl

lemma addInts_cons (cfg : DigestConfig) (e : LogEntry) (A : List LogEntry)
    (m : List (Nat × Interval)) :
    addInts cfg (e :: A) m
      = addInts cfg A (match subId cfg e with
          | none => m
          | some sub => mapUpsert compare (sub / cfg.sub_intervals)
              (fun i => { i with content := btreeInsert compare sub i.content })
              ⟨0, [sub]⟩ m) := rfl

lemma addEras_cons (cfg : DigestConfig) (li : Nat) (e : LogEntry)
    (A : List LogEntry) (m : List (EraType × Interval)) :
    addEras cfg li (e :: A) m
      = addEras cfg li A (match subId cfg e with
          | none => m
          | some sub => mapUpsert cmpEra (get_era cfg li (sub / cfg.sub_intervals))
              (fun b => { b with
                content := btreeInsert compare (sub / cfg.sub_intervals) b.content })
              ⟨0, [sub / cfg.sub_intervals]⟩ m) := rfl

lemma updSubs_cons (cfg : DigestConfig) (e : LogEntry) (A : List LogEntry)
    (s0 : List Nat) :
    updSubs cfg (e :: A) s0
      = updSubs cfg A (match subId cfg e with
          | none => s0
          | some sub => setInsert compare sub s0) := rfl

lemma updInts_cons (cfg : DigestConfig) (e : LogEntry) (A : List LogEntry)
    (s0 : List Nat) :
    updInts cfg (e :: A) s0
      = updInts cfg A (match subId cfg e with
          | none => s0
          | some sub => setInsert compare (sub / cfg.sub_intervals) s0) := rfl

lemma updEras_cons (cfg : DigestConfig) (li : Nat) (e : LogEntry)
    (A : List LogEntry) (s0 : List EraType) :
    updEras cfg li (e :: A) s0
      = updEras cfg li A (match subId cfg e with
          | none => s0
          | some sub => setInsert cmpEra (get_era cfg li (sub / cfg.sub_intervals)) s0)
      := rfl

lemma update_fold_eq (li : Nat) : ∀ (A : List LogEntry) (st : UpdateState),
    A.foldl (update_new_step li) st
      = ⟨{ st.digest with
            subintervals := addSubs st.digest.config A st.digest.subintervals
            intervals := addInts st.digest.config A st.digest.intervals
            eras := addEras st.digest.config li A st.digest.eras },
         updSubs st.digest.config A st.subs_upd,
         updInts st.digest.config A st.ints_upd,
         updEras st.digest.config li A st.eras_upd⟩
  | [], st => rfl
  | e :: A, st => by
    rw [List.foldl_cons]
    rcases h : subId st.digest.config e with _ | sub
    · rw [update_new_step_subId_none li st e h, update_fold_eq li A st,
        addSubs_cons, addInts_cons, addEras_cons, updSubs_cons, updInts_cons,
        updEras_cons]
      simp only [h]
    · rw [update_new_step_subId_some li st e sub h, update_fold_eq li A,
        addSubs_cons, addInts_cons, addEras_cons, updSubs_cons, updInts_cons,
        updEras_cons]
      simp only [h]

lemma update_new_content_eq (D : Digest) (A : List LogEntry) (li : Nat) :
    update_new_content D A li
      = ⟨{ D with
            subintervals := addSubs D.config A D.subintervals
            intervals := addInts D.config A D.intervals
            eras := addEras D.config li A D.eras },
         updSubs D.config A [],
         updInts D.config A [],
         updEras D.config li A []⟩ :=
  update_fold_eq li A ⟨D, [], [], []⟩

lemma psub_nil (cfg : DigestConfig) (sid : Nat) : psub cfg [] sid = [] := rfl

lemma psub_cons_eq (cfg : DigestConfig) {e : LogEntry} {sid : Nat}
    (h : subId cfg e = some sid) (P : List LogEntry) :
    psub cfg (e :: P) sid = e :: psub cfg P sid := by
  simp [psub, List.filter_cons, h]

lemma psub_cons_ne (cfg : DigestConfig) {e : LogEntry} {sid : Nat}
    (h : ¬ subId cfg e = some sid) (P : List LogEntry) :
    psub cfg (e :: P) sid = psub cfg P sid := by
  simp [psub, List.filter_cons, h]

lemma bucketAddAll_cons (e : LogEntry) (l : List LogEntry) (b : Option SubInterval) :
    bucketAddAll (e :: l) b = bucketAddAll l (some (bucketAdd e b)) := rfl

lemma childAddAll_cons (c : Nat) (cs : List Nat) (b : Option Interval) :
    childAddAll (c :: cs) b = childAddAll cs (some (childAdd c b)) := rfl

lemma mapGet_addSubs (cfg : DigestConfig) :
    ∀ (A : List LogEntry) (m : List (Nat × SubInterval)), MSorted compare m →
      ∀ sid, mapGet compare sid (addSubs cfg A m)
        = bucketAddAll (psub cfg A sid) (mapGet compare sid m)
  | [], _, _, _ => rfl
  | e :: A, m, hm, sid => by
    rcases h : subId cfg e with _ | sub
    · rw [addSubs_cons]
      simp only [h]
      rw [psub_cons_ne cfg (by simp [h]) A, mapGet_addSubs cfg A m hm sid]
    · by_cases hs : sub = sid
      · subst hs
        rw [addSubs_cons]
        simp only [h]
        rw [psub_cons_eq cfg h A, bucketAddAll_cons,
          mapGet_addSubs cfg A _ (msorted_mapUpsert keyCmp_nat _ _ _ hm) sub]
        congr 1
        rw [mapGet_mapUpsert_self keyCmp_nat sub _ _ hm]
        rcases mapGet compare sub m with _ | s <;> rfl
      · rw [addSubs_cons]
        simp only [h]
        rw [psub_cons_ne cfg (by simp [h, hs]) A,
          mapGet_addSubs cfg A _ (msorted_mapUpsert keyCmp_nat _ _ _ hm) sid,
          mapGet_mapUpsert_ne keyCmp_nat (fun hc => hs hc.symm) _ _ m]

lemma msorted_addSubs (cfg : DigestConfig) :
    ∀ (A : List LogEntry) (m : List (Nat × SubInterval)), MSorted compare m →
      MSorted compare (addSubs cfg A m)
  | [], _, hm => hm
  | e :: A, m, hm => by
    rw [addSubs_cons]
    rcases h : subId cfg e with _ | sub <;> simp only [h]
    · exact msorted_addSubs cfg A m hm
    · exact msorted_addSubs cfg A _ (msorted_mapUpsert keyCmp_nat _ _ _ hm)

lemma msorted_addInts (cfg : DigestConfig) :
    ∀ (A : List LogEntry) (m : List (Nat × Interval)), MSorted compare m →
      MSorted compare (addInts cfg A m)
  | [], _, hm => hm
  | e :: A, m, hm => by
    rw [addInts_cons]
    rcases h : subId cfg e with _ | sub <;> simp only [h]
    · exact msorted_addInts cfg A m hm
    · exact msorted_addInts cfg A _ (msorted_mapUpsert keyCmp_nat _ _ _ hm)

lemma msorted_addEras (cfg : DigestConfig) (li : Nat) :
    ∀ (A : List LogEntry) (m : List (EraType × Interval)), MSorted cmpEra m →
      MSorted cmpEra (addEras cfg li A m)
  | [], _, hm => hm
  | e :: A, m, hm => by
    rw [addEras_cons]
    rcases h : subId cfg e with _ | sub <;> simp only [h]
    · exact msorted_addEras cfg li A m hm
    · exact msorted_addEras cfg li A _ (msorted_mapUpsert keyCmp_cmpEra _ _ _ hm)

lemma bucketAddAll_some : ∀ (l : List LogEntry) (s : SubInterval),
    bucketAddAll l (some s) = some ⟨s.checksum, insAllC cmpLog l s.content⟩
  | [], _ => rfl
  | e :: l, s => by
    rw [bucketAddAll_cons]
    show bucketAddAll l (some ⟨s.checksum, btreeInsert cmpLog e s.content⟩) = _
    rw [bucketAddAll_some l ⟨s.checksum, btreeInsert cmpLog e s.content⟩]
    rfl

lemma bucketAddAll_none_cons (e : LogEntry) (l : List LogEntry) :
    bucketAddAll (e :: l) none = some ⟨0, insAllC cmpLog (e :: l) []⟩ := by
  rw [bucketAddAll_cons]
  show bucketAddAll l (some ⟨0, [e]⟩) = _
  rw [bucketAddAll_some l ⟨0, [e]⟩]
  rfl

lemma childAddAll_some : ∀ (cs : List Nat) (b : Interval),
    childAddAll cs (some b) = some ⟨b.checksum, insAllC compare cs b.content⟩
  | [], _ => rfl
  | c :: cs, b => by
    rw [childAddAll_cons]
    show childAddAll cs (some ⟨b.checksum, btreeInsert compare c b.content⟩) = _
    rw [childAddAll_some cs ⟨b.checksum, btreeInsert compare c b.content⟩]
    rfl

lemma childAddAll_none_cons (c : Nat) (cs : List Nat) :
    childAddAll (c :: cs) none = some ⟨0, insAllC compare (c :: cs) []⟩ := by
  rw [childAddAll_cons]
  show childAddAll cs (some ⟨0, [c]⟩) = _
  rw [childAddAll_some cs ⟨0, [c]⟩]
  rfl

lemma intId_of_subId {cfg : DigestConfig} {e : LogEntry} {sub : Nat}
    (h : subId cfg e = some sub) :
    intId cfg e = some (sub / cfg.sub_intervals) := by
  rw [intId, h]
  rfl

lemma subOf_of_subId {cfg : DigestConfig} {e : LogEntry} {sub : Nat}
    (h : subId cfg e = some sub) : subOf cfg e = sub := by
  rw [subOf, h]
  rfl

lemma eraId_of_subId {cfg : DigestConfig} {li : Nat} {e : LogEntry} {sub : Nat}
    (h : subId cfg e = some sub) :
    eraId cfg li e = some (get_era cfg li (sub / cfg.sub_intervals)) := by
  rw [eraId, intId_of_subId h]
  rfl

lemma intOf_of_subId {cfg : DigestConfig} {e : LogEntry} {sub : Nat}
    (h : subId cfg e = some sub) : intOf cfg e = sub / cfg.sub_intervals := by
  rw [intOf, intId_of_subId h]
  rfl

lemma mapGet_addInts (cfg : DigestConfig) :
    ∀ (A : List LogEntry) (m : List (Nat × Interval)), MSorted compare m →
      ∀ i, mapGet compare i (addInts cfg A m)
        = childAddAll ((pint cfg A i).map (subOf cfg)) (mapGet compare i m)
  | [], _, _, _ => rfl
  | e :: A, m, hm, i => by
    rcases h : subId cfg e with _ | sub
    · rw [addInts_cons]
      simp only [h]
      have hp : pint cfg (e :: A) i = pint cfg A i := by
        simp [pint, List.filter_cons, intId, h]
      rw [hp, mapGet_addInts cfg A m hm i]
    · have hint : intId cfg e = some (sub / cfg.sub_intervals) := intId_of_subId h
      by_cases hi : sub / cfg.sub_intervals = i
      · subst hi
        rw [addInts_cons]
        simp only [h]
        have hp : pint cfg (e :: A) (sub / cfg.sub_intervals)
            = e :: pint cfg A (sub / cfg.sub_intervals) := by
          simp [pint, List.filter_cons, hint]
        rw [hp, List.map_cons, childAddAll_cons,
          mapGet_addInts cfg A _ (msorted_mapUpsert keyCmp_nat _ _ _ hm) _]
        congr 1
        rw [subOf_of_subId h, mapGet_mapUpsert_self keyCmp_nat _ _ _ hm]
        rcases mapGet compare (sub / cfg.sub_intervals) m with _ | b <;> rfl
      · rw [addInts_cons]
        simp only [h]
        have hp : pint cfg (e :: A) i = pint cfg A i := by
          simp [pint, List.filter_cons, hint, hi]
        rw [hp, mapGet_addInts cfg A _ (msorted_mapUpsert keyCmp_nat _ _ _ hm) i,
          mapGet_mapUpsert_ne keyCmp_nat (fun hc => hi hc.symm) _ _ m]

lemma mapGet_addEras (cfg : DigestConfig) (li : Nat) :
    ∀ (A : List LogEntry) (m : List (EraType × Interval)), MSorted cmpEra m →
      ∀ er, mapGet cmpEra er (addEras cfg li A m)
        = childAddAll ((pera cfg li A er).map (intOf cfg)) (mapGet cmpEra er m)
  | [], _, _, _ => rfl
  | e :: A, m, hm, er => by
    rcases h : subId cfg e with _ | sub
    · rw [addEras_cons]
      simp only [h]
      have hp : pera cfg li (e :: A) er = pera cfg li A er := by
        simp [pera, List.filter_cons, eraId, intId, h]
      rw [hp, mapGet_addEras cfg li A m hm er]
    · have hera : eraId cfg li e = some (get_era cfg li (sub / cfg.sub_intervals)) :=
        eraId_of_subId h
      by_cases he : get_era cfg li (sub / cfg.sub_intervals) = er
      · subst he
        rw [addEras_cons]
        simp only [h]
        have hp : pera cfg li (e :: A) (get_era cfg li (sub / cfg.sub_intervals))
            = e :: pera cfg li A (get_era cfg li (sub / cfg.sub_intervals)) := by
          simp [pera, List.filter_cons, hera]
        rw [hp, List.map_cons, childAddAll_cons,
          mapGet_addEras cfg li A _ (msorted_mapUpsert keyCmp_cmpEra _ _ _ hm) _]
        congr 1
        rw [intOf_of_subId h, mapGet_mapUpsert_self keyCmp_cmpEra _ _ _ hm]
        rcases mapGet cmpEra (get_era cfg li (sub / cfg.sub_intervals)) m with _ | b <;>
          rfl
      · rw [addEras_cons]
        simp only [h]
        have hp : pera cfg li (e :: A) er = pera cfg li A er := by
          simp [pera, List.filter_cons, hera, he]
        rw [hp, mapGet_addEras cfg li A _ (msorted_mapUpsert keyCmp_cmpEra _ _ _ hm) er,
          mapGet_mapUpsert_ne keyCmp_cmpEra (fun hc => he hc.symm) _ _ m]

lemma mem_updSubs (cfg : DigestConfig) :
    ∀ (A : List LogEntry) (s0 : List Nat) (k : Nat),
      k ∈ updSubs cfg A s0 ↔ k ∈ s0 ∨ ∃ e ∈ A, subId cfg e = some k
  | [], s0, k => by simp [updSubs]
  | e :: A, s0, k => by
    rw [updSubs_cons]
    rcases h : subId cfg e with _ | sub <;> simp only [h]
    · rw [mem_updSubs cfg A s0 k, List.exists_mem_cons_iff]
      simp [h]
    · rw [mem_updSubs cfg A _ k, mem_setInsert keyCmp_nat sub s0 k,
        List.exists_mem_cons_iff, h]
      constructor
      · rintro ((h2 | h2) | h2)
        · right; left; rw [h2]
        · left; exact h2
        · right; right; exact h2
      · rintro (h2 | h2 | h2)
        · left; right; exact h2
        · left; left; exact (Option.some.inj h2).symm
        · right; exact h2

lemma mem_updInts (cfg : DigestConfig) :
    ∀ (A : List LogEntry) (s0 : List Nat) (k : Nat),
      k ∈ updInts cfg A s0 ↔ k ∈ s0 ∨ ∃ e ∈ A, intId cfg e = some k
  | [], s0, k => by simp [updInts]
  | e :: A, s0, k => by
    rw [updInts_cons]
    rcases h : subId cfg e with _ | sub <;> simp only [h]
    · rw [mem_updInts cfg A s0 k, List.exists_mem_cons_iff]
      simp [intId, h]
    · rw [mem_updInts cfg A _ k, mem_setInsert keyCmp_nat _ s0 k,
        List.exists_mem_cons_iff, intId_of_subId h]
      constructor
      · rintro ((h2 | h2) | h2)
        · right; left; rw [h2]
        · left; exact h2
        · right; right; exact h2
      · rintro (h2 | h2 | h2)
        · left; right; exact h2
        · left; left; exact (Option.some.inj h2).symm
        · right; exact h2

lemma mem_updEras (cfg : DigestConfig) (li : Nat) :
    ∀ (A : List LogEntry) (s0 : List EraType) (k : EraType),
      k ∈ updEras cfg li A s0 ↔ k ∈ s0 ∨ ∃ e ∈ A, eraId cfg li e = some k
  | [], s0, k => by simp [updEras]
  | e :: A, s0, k => by
    rw [updEras_cons]
    rcases h : subId cfg e with _ | sub <;> simp only [h]
    · rw [mem_updEras cfg li A s0 k, List.exists_mem_cons_iff]
      simp [eraId, intId, h]
    · rw [mem_updEras cfg li A _ k, mem_setInsert keyCmp_cmpEra _ s0 k,
        List.exists_mem_cons_iff, eraId_of_subId h]
      constructor
      · rintro ((h2 | h2) | h2)
        · right; left; rw [h2]
        · left; exact h2
        · right; right; exact h2
      · rintro (h2 | h2 | h2)
        · left; right; exact h2
        · left; left; exact (Option.some.inj h2).symm
        · right; exact h2

/-! ## C1: era realignment is a no-op on coherent digest states -/

lemma foldl_nop {β γ : Type} {f : γ → β → γ} :
    ∀ (l : List β), (∀ acc x, x ∈ l → f acc x = acc) → ∀ acc, l.foldl f acc = acc
  | [], _, _ => rfl
  | x :: t, h, acc => by
    rw [List.foldl_cons, h acc x (List.mem_cons_self _ _)]
    exact foldl_nop t (fun a y hy => h a y (List.mem_cons_of_mem _ hy)) acc

lemma realign_noop (D1 : Digest) (li : Nat)
    (hcorr : ∀ p ∈ D1.eras, (p.1 = EraType.Hot ∨ p.1 = EraType.Warm) →
      ∀ i ∈ p.2.content, get_era D1.config li i = p.1) :
    recalculate_era_content D1 li = (D1, []) := by
  have hstep : ∀ (acc : List (Nat × EraType × EraType)) (p : EraType × Interval),
      p ∈ D1.eras →
      (fun acc (p : EraType × Interval) =>
        if p.1 = EraType.Hot ∨ p.1 = EraType.Warm then
          p.2.content.foldl (fun acc interval =>
            let new_era := get_era D1.config li interval
            if new_era ≠ p.1 then (interval, p.1, new_era) :: acc else acc) acc
        else acc) acc p = acc := by
    intro acc p hp
    by_cases hw : p.1 = EraType.Hot ∨ p.1 = EraType.Warm
    · show (if p.1 = EraType.Hot ∨ p.1 = EraType.Warm then _ else acc) = acc
      rw [if_pos hw]
      apply foldl_nop
      intro a i hi
      show (if get_era D1.config li i ≠ p.1 then _ else a) = a
      rw [if_neg (not_not_intro (hcorr p hp hw i hi))]
    · show (if p.1 = EraType.Hot ∨ p.1 = EraType.Warm then _ else acc) = acc
      rw [if_neg hw]
  simp only [recalculate_era_content]
  rw [foldl_nop D1.eras hstep []]
  rfl

lemma msorted_mem_get {cmp : κ → κ → Ordering} (K : KeyCmp cmp) :
    ∀ {m : List (κ × ν)}, MSorted cmp m → ∀ {p : κ × ν}, p ∈ m →
      mapGet cmp p.1 m = some p.2
  | [], _, _, hp => by cases hp
  | q :: t, hs, p, hp => by
    rcases List.mem_cons.mp hp with h | h
    · subst h
      exact msorted_head_get K hs
    · rcases List.pairwise_cons.mp hs with ⟨hq, ht⟩
      rcases q with ⟨k1, v1⟩
      have hne : p.1 ≠ k1 := by
        intro hc
        have := hq p h
        rw [hc] at this
        rw [K.total.refl k1] at this
        cases this
      rw [mapGet_cons_ne K hne]
      exact msorted_mem_get K ht h

lemma mapGet_mem_pair {cmp : κ → κ → Ordering} (K : KeyCmp cmp) :
    ∀ {m : List (κ × ν)} {k : κ} {v : ν}, mapGet cmp k m = some v → (k, v) ∈ m
  | [], _, _, h => by cases h
  | (k2, v2) :: t, k, v, h => by
    unfold mapGet at h
    rcases hc : cmp k k2 with _ | _ | _ <;> rw [hc] at h
    · exact List.mem_cons_of_mem _ (mapGet_mem_pair K h)
    · have hk := (K.eq_iff k k2).mp hc
      subst hk
      rw [Option.some.inj h]
      exact List.mem_cons_self _ _
    · exact List.mem_cons_of_mem _ (mapGet_mem_pair K h)

lemma mem_psub {cfg : DigestConfig} {A : List LogEntry} {sid : Nat} {e : LogEntry} :
    e ∈ psub cfg A sid ↔ e ∈ A ∧ subId cfg e = some sid := by
  simp [psub, List.mem_filter]

lemma mem_pint {cfg : DigestConfig} {A : List LogEntry} {i : Nat} {e : LogEntry} :
    e ∈ pint cfg A i ↔ e ∈ A ∧ intId cfg e = some i := by
  simp [pint, List.mem_filter]

lemma mem_pera {cfg : DigestConfig} {li : Nat} {A : List LogEntry} {er : EraType}
    {e : LogEntry} :
    e ∈ pera cfg li A er ↔ e ∈ A ∧ eraId cfg li e = some er := by
  simp [pera, List.mem_filter]

lemma eraId_some_elim {cfg : DigestConfig} {li : Nat} {e : LogEntry} {er : EraType}
    (h : eraId cfg li e = some er) : get_era cfg li (intOf cfg e) = er := by
  rcases hid : intId cfg e with _ | j
  · rw [eraId, hid] at h
    cases h
  · rw [eraId, hid] at h
    rw [intOf, hid]
    exact Option.some.inj h

lemma intId_some_elim {cfg : DigestConfig} {e : LogEntry} {i : Nat}
    (h : intId cfg e = some i) : subOf cfg e / cfg.sub_intervals = i := by
  rcases hs : subId cfg e with _ | s
  · rw [intId, hs] at h
    cases h
  · rw [intId, hs] at h
    rw [subOf, hs]
    exact Option.some.inj h

lemma addEras_correct (cfg : DigestConfig) (li : Nat) (A : List LogEntry)
    (m : List (EraType × Interval)) (hm : MSorted cmpEra m)
    (hbase : ∀ p ∈ m, ∀ i ∈ p.2.content, get_era cfg li i = p.1) :
    ∀ p ∈ addEras cfg li A m, ∀ i ∈ p.2.content, get_era cfg li i = p.1 := by
  intro p hp i hi
  have hins : i ∈ ((pera cfg li A p.1).map (intOf cfg)) → get_era cfg li i = p.1 := by
    intro hS
    rcases List.mem_map.mp hS with ⟨e, he, hie⟩
    have hera := (mem_pera.mp he).2
    rw [← hie]
    exact eraId_some_elim hera
  have hget := msorted_mem_get keyCmp_cmpEra (msorted_addEras cfg li A m hm) hp
  rw [mapGet_addEras cfg li A m hm p.1] at hget
  rcases hb : mapGet cmpEra p.1 m with _ | b
  · rw [hb] at hget
    rcases hch : (pera cfg li A p.1).map (intOf cfg) with _ | ⟨c, cs⟩
    · rw [hch] at hget
      cases hget
    · rw [hch, childAddAll_none_cons] at hget
      have hp2 := Option.some.inj hget
      rw [← hp2] at hi
      rcases mem_of_mem_insAllC _ _ hi with h0 | hS

      · cases h0
      · apply hins
        rw [hch]
        exact hS
  · rw [hb, childAddAll_some] at hget
    have hp2 := Option.some.inj hget
    rw [← hp2] at hi
    rcases mem_of_mem_insAllC _ _ hi with h0 | hS
    · exact hbase (p.1, b) (mapGet_mem_pair keyCmp_cmpEra hb) i h0
    · exact hins hS

lemma addInts_consistent (cfg : DigestConfig) (A : List LogEntry)
    (m : List (Nat × Interval)) (hm : MSorted compare m)
    (hbase : ∀ q ∈ m, ∀ sid ∈ q.2.content, sid / cfg.sub_intervals = q.1) :
    ∀ q ∈ addInts cfg A m, ∀ sid ∈ q.2.content, sid / cfg.sub_intervals = q.1 := by
  intro q hq sid hsid
  have hins : sid ∈ ((pint cfg A q.1).map (subOf cfg)) →
      sid / cfg.sub_intervals = q.1 := by
    intro hS
    rcases List.mem_map.mp hS with ⟨e, he, hie⟩
    have hint := (mem_pint.mp he).2
    rw [← hie]
    exact intId_some_elim hint
  have hget := msorted_mem_get keyCmp_nat (msorted_addInts cfg A m hm) hq
  rw [mapGet_addInts cfg A m hm q.1] at hget
  rcases hb : mapGet compare q.1 m with _ | b
  · rw [hb] at hget
    rcases hch : (pint cfg A q.1).map (subOf cfg) with _ | ⟨c, cs⟩
    · rw [hch] at hget
      cases hget
    · rw [hch, childAddAll_none_cons] at hget
      have hq2 := Option.some.inj hget
      rw [← hq2] at hsid
      rcases mem_of_mem_insAllC _ _ hsid with h0 | hS
      · cases h0
      · apply hins
        rw [hch]
        exact hS
  · rw [hb, childAddAll_some] at hget
    have hq2 := Option.some.inj hget
    rw [← hq2] at hsid
    rcases mem_of_mem_insAllC _ _ hsid with h0 | hS
    · exact hbase (q.1, b) (mapGet_mem_pair keyCmp_nat hb) sid h0
    · exact hins hS

/-! ## C1: the removal pass, prefix bookkeeping -/

lemma rmAll_append (X Y : List LogEntry) (l : List LogEntry) :
    rmAll (X ++ Y) l = rmAll Y (rmAll X l) := by
  simp only [rmAll, List.foldl_append]

lemma rmAll_single (e : LogEntry) (l : List LogEntry) :
    rmAll [e] l
      = l.filter (fun x => x.timestamp ≠ e.timestamp ∨ x.key ≠ e.key) := rfl

lemma psub_append (cfg : DigestConfig) (P Q : List LogEntry) (sid : Nat) :
    psub cfg (P ++ Q) sid = psub cfg P sid ++ psub cfg Q sid := by
  simp [psub, List.filter_append]

lemma psub_single_eq {cfg : DigestConfig} {e : LogEntry} {sid : Nat}
    (h : subId cfg e = some sid) : psub cfg [e] sid = [e] := by
  simp [psub, List.filter_cons, h]

lemma psub_single_ne {cfg : DigestConfig} {e : LogEntry} {sid : Nat}
    (h : ¬ subId cfg e = some sid) : psub cfg [e] sid = [] := by
  simp [psub, List.filter_cons, h]

lemma rmAll_append_single_eq {cfg : DigestConfig} {e : LogEntry} {sub : Nat}
    (hsub : subId cfg e = some sub) (P : List LogEntry) (l : List LogEntry) :
    rmAll (psub cfg (P ++ [e]) sub) l
      = (rmAll (psub cfg P sub) l).filter
          (fun x => x.timestamp ≠ e.timestamp ∨ x.key ≠ e.key) := by
  rw [psub_append, psub_single_eq hsub, rmAll_append, rmAll_single]

lemma psub_append_single_ne {cfg : DigestConfig} {e : LogEntry} {sid : Nat}
    (h : ¬ subId cfg e = some sid) (P : List LogEntry) :
    psub cfg (P ++ [e]) sid = psub cfg P sid := by
  rw [psub_append, psub_single_ne h, List.append_nil]

lemma filter_ne_nil {l : List α} {p : α → Bool} (h : l.filter p ≠ []) : l ≠ [] := by
  intro hl
  rw [hl] at h
  exact h rfl

lemma subEmptyB_none {cfg : DigestConfig} {msub : List (Nat × SubInterval)}
    {P : List LogEntry} {sid : Nat} (h : mapGet compare sid msub = none) :
    subEmptyB cfg msub P sid = false := by
  simp [subEmptyB, h]

lemma subEmptyB_append_ne {cfg : DigestConfig} {msub : List (Nat × SubInterval)}
    {P : List LogEntry} {e : LogEntry} {sub sid : Nat}
    (hsub : subId cfg e = some sub) (hne : sid ≠ sub) :
    subEmptyB cfg msub (P ++ [e]) sid = subEmptyB cfg msub P sid := by
  have hnot : ¬ subId cfg e = some sid := by
    rw [hsub]
    intro hc
    exact hne (Option.some.inj hc).symm
  rcases hmg : mapGet compare sid msub with _ | s <;>
    simp [subEmptyB, hmg, psub_append_single_ne hnot]

lemma subEmptyB_append_none {cfg : DigestConfig} {msub : List (Nat × SubInterval)}
    {P : List LogEntry} {e : LogEntry}
    (hsub : subId cfg e = none) (sid : Nat) :
    subEmptyB cfg msub (P ++ [e]) sid = subEmptyB cfg msub P sid := by
  have hnot : ¬ subId cfg e = some sid := by
    rw [hsub]
    intro hc
    cases hc
  rcases hmg : mapGet compare sid msub with _ | s <;>
    simp [subEmptyB, hmg, psub_append_single_ne hnot]

lemma intEmptyB_ext {cfg : DigestConfig} {msub : List (Nat × SubInterval)}
    {mint : List (Nat × Interval)} {P Q : List LogEntry}
    (h : ∀ sid, subEmptyB cfg msub P sid = subEmptyB cfg msub Q sid) (i : Nat) :
    intEmptyB cfg msub mint P i = intEmptyB cfg msub mint Q i := by
  rcases hmg : mapGet compare i mint with _ | b <;> simp only [intEmptyB, hmg]
  congr 1
  apply List.filter_congr
  intro x _
  rw [h x]

lemma exists_mem_append_single {P : List α} {e : α} {p : α → Prop} :
    (∃ x ∈ P ++ [e], p x) ↔ (∃ x ∈ P, p x) ∨ p e := by
  constructor
  · rintro ⟨x, hx, hpx⟩
    rcases List.mem_append.mp hx with h | h
    · exact Or.inl ⟨x, h, hpx⟩
    · rcases List.mem_singleton.mp h with rfl
      exact Or.inr hpx
  · rintro (⟨x, hx, hpx⟩ | hpe)
    · exact ⟨x, List.mem_append.mpr (Or.inl hx), hpx⟩
    · exact ⟨e, List.mem_append.mpr (Or.inr (List.mem_singleton.mpr rfl)), hpe⟩

lemma isEmpty_false_of_ne_nil {l : List α} (h : l ≠ []) : l.isEmpty = false := by
  rcases l with _ | ⟨a, t⟩
  · exact absurd rfl h
  · rfl

lemma subId_ne_some_of_ne {cfg : DigestConfig} {e : LogEntry} {sub sid : Nat}
    (hsub : subId cfg e = some sub) (hne : sid ≠ sub) :
    ¬ subId cfg e = some sid := by
  rw [hsub]
  intro hc
  exact hne (Option.some.inj hc).symm

lemma subEmptyB_at {cfg : DigestConfig} {msub : List (Nat × SubInterval)}
    {sub : Nat} {s0 : SubInterval} (hs0 : mapGet compare sub msub = some s0)
    (P : List LogEntry) :
    subEmptyB cfg msub P sub = (rmAll (psub cfg P sub) s0.content).isEmpty := by
  simp [subEmptyB, hs0]

lemma intEmptyB_at {cfg : DigestConfig} {msub : List (Nat × SubInterval)}
    {mint : List (Nat × Interval)} {i : Nat} {b0 : Interval}
    (hb0 : mapGet compare i mint = some b0) (P : List LogEntry) :
    intEmptyB cfg msub mint P i
      = (b0.content.filter (fun sid => ! subEmptyB cfg msub P sid)).isEmpty := by
  simp [intEmptyB, hb0]

lemma intEmptyB_append_ne_of_consistent {cfg : DigestConfig}
    {msub : List (Nat × SubInterval)} {mint : List (Nat × Interval)}
    {P : List LogEntry} {e : LogEntry} {sub : Nat}
    (hsub : subId cfg e = some sub)
    (hcons : ∀ i b, mapGet compare i mint = some b →
      ∀ sid ∈ b.content, sid / cfg.sub_intervals = i)
    {i : Nat} (hi : i ≠ sub / cfg.sub_intervals) :
    intEmptyB cfg msub mint (P ++ [e]) i = intEmptyB cfg msub mint P i := by
  rcases hb : mapGet compare i mint with _ | b <;> simp only [intEmptyB, hb]
  congr 1
  apply List.filter_congr
  intro x hx
  have hxn : x ≠ sub := by
    intro hc
    subst hc
    exact hi (hcons i b hb x hx).symm
  rw [subEmptyB_append_ne hsub hxn]

set_option maxHeartbeats 1000000 in
lemma remInv_step (cfg : DigestConfig) (li : Nat) (D1 : Digest)
    (hIchild : ∀ i b, mapGet compare i D1.intervals = some b →
      ∀ sid ∈ b.content, sid / cfg.sub_intervals = i)
    (hEchild : ∀ er b, mapGet cmpEra er D1.eras = some b →
      ∀ i ∈ b.content, get_era cfg li i = er)
    (P : List LogEntry) (st : UpdateState) (hinv : RemInv cfg li D1 P st)
    (e : LogEntry)
    (hpres : ∀ sub, subId cfg e = some sub →
      (mapGet compare sub D1.subintervals).isSome
      ∧ (mapGet compare (sub / cfg.sub_intervals) D1.intervals).isSome
      ∧ (mapGet cmpEra (get_era cfg li (sub / cfg.sub_intervals)) D1.eras).isSome) :
    RemInv cfg li D1 (P ++ [e]) (remove_deleted_step li st e) := by
  obtain ⟨hcfg, hts, hck, hS, hI, hE, hmS, hmI, hmE, hUS, hUI, hUE⟩ := hinv
  rcases hsub : subId cfg e with _ | sub
  · -- the entry is dropped: the step is the identity
    have h1 : get_subinterval st.digest.config.delta e.timestamp
        st.digest.config.sub_intervals = none := by
      rw [hcfg]
      exact hsub
    have hstep : remove_deleted_step li st e = st := by
      simp only [remove_deleted_step, h1]
    rw [hstep]
    have hnot : ∀ sid, ¬ subId cfg e = some sid := by
      intro sid hc
      rw [hsub] at hc
      cases hc
    have hSE : ∀ sid, subEmptyB cfg D1.subintervals (P ++ [e]) sid
        = subEmptyB cfg D1.subintervals P sid := subEmptyB_append_none hsub
    refine ⟨hcfg, hts, hck, ?_, ?_, ?_, hmS, hmI, hmE, ?_, ?_, ?_⟩
    · intro sid
      rw [hS sid, psub_append_single_ne (hnot sid)]
    · intro i
      rw [hI i, show (fun sid => ! subEmptyB cfg D1.subintervals (P ++ [e]) sid)
          = fun sid => ! subEmptyB cfg D1.subintervals P sid from
        funext fun sid => by rw [hSE sid]]
    · intro er
      rw [hE er, show (fun i => ! intEmptyB cfg D1.subintervals D1.intervals
            (P ++ [e]) i)
          = fun i => ! intEmptyB cfg D1.subintervals D1.intervals P i from
        funext fun i => by rw [intEmptyB_ext hSE i]]
    · intro k
      rw [hUS k, exists_mem_append_single]
      simp [hsub]
    · intro k
      rw [hUI k, exists_mem_append_single]
      simp [intId, hsub]
    · intro k
      rw [hUE k, exists_mem_append_single]
      simp [eraId, intId, hsub]
  · -- a valid entry
    obtain ⟨hbs, hbi, hbe⟩ := hpres sub hsub
    rcases hs0 : mapGet compare sub D1.subintervals with _ | s0
    · rw [hs0] at hbs
      cases hbs
    rcases hb0 : mapGet compare (sub / cfg.sub_intervals) D1.intervals with _ | b0
    · rw [hb0] at hbi
      cases hbi
    rcases hc0 : mapGet cmpEra (get_era cfg li (sub / cfg.sub_intervals)) D1.eras
      with _ | c0
    · rw [hc0] at hbe
      cases hbe
    have h1 : get_subinterval cfg.delta e.timestamp cfg.sub_intervals = some sub :=
      hsub
    have hcur : mapGet compare sub st.digest.subintervals
        = some ⟨s0.checksum, rmAll (psub cfg P sub) s0.content⟩ := by
      rw [hS sub, hs0]
      rfl
    have hC : (rmAll (psub cfg P sub) s0.content).filter
        (fun x => x.timestamp ≠ e.timestamp ∨ x.key ≠ e.key)
        = rmAll (psub cfg (P ++ [e]) sub) s0.content :=
      (rmAll_append_single_eq hsub P _).symm
    simp only [remove_deleted_step, h1, get_interval, hcur, hcfg]
    rw [hC]
    by_cases hem : (rmAll (psub cfg (P ++ [e]) sub) s0.content).isEmpty = true
    · -- the bucket is emptied: the cascade runs
      rw [if_pos hem]
      have hint : mapGet compare (sub / cfg.sub_intervals) st.digest.intervals
          = some ⟨b0.checksum, b0.content.filter
              (fun sid => ! subEmptyB cfg D1.subintervals P sid)⟩ := by
        rw [hI _, hb0]
        rfl
      simp only [hint]
      have hSEsub : subEmptyB cfg D1.subintervals (P ++ [e]) sub = true := by
        rw [subEmptyB_at hs0]
        exact hem
      have hNI : (b0.content.filter
            (fun sid => ! subEmptyB cfg D1.subintervals P sid)).filter
          (fun x => x ≠ sub)
          = b0.content.filter
              (fun sid => ! subEmptyB cfg D1.subintervals (P ++ [e]) sid) := by
        rw [List.filter_filter]
        apply List.filter_congr
        intro x hx
        by_cases hxs : x = sub
        · subst hxs
          simp [hSEsub]
        · rw [subEmptyB_append_ne hsub hxs]
          simp [hxs]
      rw [hNI]
      have hSptw : ∀ sid, mapGet compare sid (mapAdjust compare sub
            (fun s => { s with
              content := rmAll (psub cfg (P ++ [e]) sub) s0.content })
            st.digest.subintervals)
          = (mapGet compare sid D1.subintervals).map
              (fun s => ⟨s.checksum, rmAll (psub cfg (P ++ [e]) sid) s.content⟩) := by
        intro sid
        by_cases hsid : sid = sub
        · subst hsid
          rw [mapGet_mapAdjust_self keyCmp_nat, hcur, hs0]
          rfl
        · rw [mapGet_mapAdjust_ne keyCmp_nat hsid, hS sid,
            psub_append_single_ne (subId_ne_some_of_ne hsub hsid)]
      have hIptw : ∀ i, i ≠ sub / cfg.sub_intervals →
          Option.map (fun b => (⟨b.checksum, b.content.filter
              (fun sid => ! subEmptyB cfg D1.subintervals P sid)⟩ : Interval))
            (mapGet compare i D1.intervals)
          = Option.map (fun b => ⟨b.checksum, b.content.filter
              (fun sid => ! subEmptyB cfg D1.subintervals (P ++ [e]) sid)⟩)
            (mapGet compare i D1.intervals) := by
        intro i hi
        rcases hb : mapGet compare i D1.intervals with _ | b
        · rfl
        · refine congrArg some ?_
          show (⟨b.checksum, b.content.filter
              (fun sid => ! subEmptyB cfg D1.subintervals P sid)⟩ : Interval)
            = ⟨b.checksum, b.content.filter
              (fun sid => ! subEmptyB cfg D1.subintervals (P ++ [e]) sid)⟩
          congr 1
          apply List.filter_congr
          intro x hx
          have hxs : x ≠ sub := by
            intro hc
            subst hc
            exact hi ((hIchild i b hb x hx).symm)
          rw [subEmptyB_append_ne hsub hxs]
      by_cases hie : (b0.content.filter
          (fun sid => ! subEmptyB cfg D1.subintervals (P ++ [e]) sid)).isEmpty = true
      · -- the interval also empties: the era content is adjusted
        rw [if_pos hie]
        have herag : mapGet cmpEra (get_era cfg li (sub / cfg.sub_intervals))
            st.digest.eras
            = some ⟨c0.checksum, c0.content.filter
                (fun i => ! intEmptyB cfg D1.subintervals D1.intervals P i)⟩ := by
          rw [hE _, hc0]
          rfl
        have hIEe : intEmptyB cfg D1.subintervals D1.intervals (P ++ [e])
            (sub / cfg.sub_intervals) = true := by
          rw [intEmptyB_at hb0]
          exact hie
        have hIEne : ∀ i, i ≠ sub / cfg.sub_intervals →
            intEmptyB cfg D1.subintervals D1.intervals (P ++ [e]) i
              = intEmptyB cfg D1.subintervals D1.intervals P i :=
          fun i hi => intEmptyB_append_ne_of_consistent hsub hIchild hi
        have hNE : (c0.content.filter
              (fun i => ! intEmptyB cfg D1.subintervals D1.intervals P i)).filter
            (fun x => x ≠ sub / cfg.sub_intervals)
            = c0.content.filter
                (fun i => ! intEmptyB cfg D1.subintervals D1.intervals
                  (P ++ [e]) i) := by
          rw [List.filter_filter]
          apply List.filter_congr
          intro x hx
          by_cases hxi : x = sub / cfg.sub_intervals
          · subst hxi
            simp [hIEe]
          · rw [hIEne x hxi]
            simp [hxi]
        refine ⟨rfl, hts, hck, hSptw, ?_, ?_, msorted_mapAdjust _ _ hmS,
          msorted_mapAdjust _ _ hmI, msorted_mapAdjust _ _ hmE, ?_, ?_, ?_⟩
        · intro i
          by_cases hi : i = sub / cfg.sub_intervals
          · subst hi
            rw [mapGet_mapAdjust_self keyCmp_nat, hint, hb0]
            rfl
          · rw [mapGet_mapAdjust_ne keyCmp_nat hi, hI i]
            exact hIptw i hi
        · intro er
          by_cases her : er = get_era cfg li (sub / cfg.sub_intervals)
          · subst her
            rw [mapGet_mapAdjust_self keyCmp_cmpEra, herag, hc0]
            refine congrArg some ?_
            show (⟨c0.checksum, _⟩ : Interval) = ⟨c0.checksum, _⟩
            rw [hNE]
          · rw [mapGet_mapAdjust_ne keyCmp_cmpEra her, hE er]
            rcases hcb : mapGet cmpEra er D1.eras with _ | c
            · rfl
            · refine congrArg some ?_
              show (⟨c.checksum, c.content.filter
                  (fun i => ! intEmptyB cfg D1.subintervals D1.intervals P i)⟩
                    : Interval)
                = ⟨c.checksum, c.content.filter
                  (fun i => ! intEmptyB cfg D1.subintervals D1.intervals
                    (P ++ [e]) i)⟩
              congr 1
              apply List.filter_congr
              intro x hx
              have hxi : x ≠ sub / cfg.sub_intervals := by
                intro hc
                subst hc
                exact her ((hEchild er c hcb _ hx).symm)
              rw [hIEne x hxi]
        · intro k
          rw [mem_setInsert keyCmp_nat, hUS k, exists_mem_append_single, hsub]
          constructor
          · rintro (h2 | h2)
            · right; rw [h2]
            · left; exact h2
          · rintro (h2 | h2)
            · right; exact h2
            · left; exact (Option.some.inj h2).symm
        · intro k
          rw [mem_setInsert keyCmp_nat, hUI k, exists_mem_append_single,
            intId_of_subId hsub]
          constructor
          · rintro (h2 | h2)
            · right; rw [h2]
            · left; exact h2
          · rintro (h2 | h2)
            · right; exact h2
            · left; exact (Option.some.inj h2).symm
        · intro k
          rw [mem_setInsert keyCmp_cmpEra, mem_setInsert keyCmp_cmpEra, hUE k,
            exists_mem_append_single, eraId_of_subId hsub]
          constructor
          · rintro (h2 | h2 | h2)
            · right; rw [h2]
            · right; rw [h2]
            · left; exact h2
          · rintro (h2 | h2)
            · right; right; exact h2
            · left; exact (Option.some.inj h2).symm
      · -- the interval keeps children: eras are untouched
        rw [if_neg hie]
        have hIE : ∀ i, intEmptyB cfg D1.subintervals D1.intervals (P ++ [e]) i
            = intEmptyB cfg D1.subintervals D1.intervals P i := by
          intro i
          by_cases hi : i = sub / cfg.sub_intervals
          · subst hi
            rw [intEmptyB_at hb0, intEmptyB_at hb0]
            have h1 : b0.content.filter
                (fun sid => ! subEmptyB cfg D1.subintervals (P ++ [e]) sid) ≠ [] := by
              intro hc
              rw [hc] at hie
              exact hie rfl
            have h1' : (b0.content.filter
                (fun sid => ! subEmptyB cfg D1.subintervals P sid)).filter
                (fun x => x ≠ sub) ≠ [] := by
              rw [hNI]
              exact h1
            rw [isEmpty_false_of_ne_nil h1, isEmpty_false_of_ne_nil
              (filter_ne_nil h1')]
          · exact intEmptyB_append_ne_of_consistent hsub hIchild hi
        refine ⟨rfl, hts, hck, hSptw, ?_, ?_, msorted_mapAdjust _ _ hmS,
          msorted_mapAdjust _ _ hmI, hmE, ?_, ?_, ?_⟩
        · intro i
          by_cases hi : i = sub / cfg.sub_intervals
          · subst hi
            rw [mapGet_mapAdjust_self keyCmp_nat, hint, hb0]
            rfl
          · rw [mapGet_mapAdjust_ne keyCmp_nat hi, hI i]
            exact hIptw i hi
        · intro er
          rw [hE er, show (fun i => ! intEmptyB cfg D1.subintervals D1.intervals
                (P ++ [e]) i)
              = fun i => ! intEmptyB cfg D1.subintervals D1.intervals P i from
            funext fun i => by rw [hIE i]]
        · intro k
          rw [mem_setInsert keyCmp_nat, hUS k, exists_mem_append_single, hsub]
          constructor
          · rintro (h2 | h2)
            · right; rw [h2]
            · left; exact h2
          · rintro (h2 | h2)
            · right; exact h2
            · left; exact (Option.some.inj h2).symm
        · intro k
          rw [mem_setInsert keyCmp_nat, hUI k, exists_mem_append_single,
            intId_of_subId hsub]
          constructor
          · rintro (h2 | h2)
            · right; rw [h2]
            · left; exact h2
          · rintro (h2 | h2)
            · right; exact h2
            · left; exact (Option.some.inj h2).symm
        · intro k
          rw [mem_setInsert keyCmp_cmpEra, hUE k, exists_mem_append_single,
            eraId_of_subId hsub]
          constructor
          · rintro (h2 | h2)
            · right; rw [h2]
            · left; exact h2
          · rintro (h2 | h2)
            · right; exact h2
            · left; exact (Option.some.inj h2).symm
    · -- the bucket keeps entries: only the subinterval map changes
      rw [if_neg hem]
      have hSE : ∀ sid, subEmptyB cfg D1.subintervals (P ++ [e]) sid
          = subEmptyB cfg D1.subintervals P sid := by
        intro sid
        by_cases hsid : sid = sub
        · subst hsid
          rw [subEmptyB_at hs0, subEmptyB_at hs0]
          have hne1 : rmAll (psub cfg (P ++ [e]) sid) s0.content ≠ [] := by
            intro hc
            rw [hc] at hem
            exact hem rfl
          have hne1' : (rmAll (psub cfg P sid) s0.content).filter
              (fun x => x.timestamp ≠ e.timestamp ∨ x.key ≠ e.key) ≠ [] := by
            rw [← rmAll_append_single_eq hsub]
            exact hne1
          rw [isEmpty_false_of_ne_nil hne1, isEmpty_false_of_ne_nil
            (filter_ne_nil hne1')]
        · exact subEmptyB_append_ne hsub hsid
      refine ⟨rfl, hts, hck, ?_, ?_, ?_, msorted_mapAdjust _ _ hmS, hmI, hmE,
        ?_, ?_, ?_⟩
      · intro sid
        by_cases hsid : sid = sub
        · subst hsid
          rw [mapGet_mapAdjust_self keyCmp_nat, hcur, hs0]
          rfl
        · rw [mapGet_mapAdjust_ne keyCmp_nat hsid, hS sid,
            psub_append_single_ne (subId_ne_some_of_ne hsub hsid)]
      · intro i
        rw [hI i, show (fun sid => ! subEmptyB cfg D1.subintervals (P ++ [e]) sid)
            = fun sid => ! subEmptyB cfg D1.subintervals P sid from
          funext fun sid => by rw [hSE sid]]
      · intro er
        rw [hE er, show (fun i => ! intEmptyB cfg D1.subintervals D1.intervals
              (P ++ [e]) i)
            = fun i => ! intEmptyB cfg D1.subintervals D1.intervals P i from
          funext fun i => by rw [intEmptyB_ext hSE i]]
      · intro k
        rw [mem_setInsert keyCmp_nat, hUS k, exists_mem_append_single, hsub]
        constructor
        · rintro (h2 | h2)
          · right; rw [h2]
          · left; exact h2
        · rintro (h2 | h2)
          · right; exact h2
          · left; exact (Option.some.inj h2).symm
      · intro k
        rw [mem_setInsert keyCmp_nat, hUI k, exists_mem_append_single,
          intId_of_subId hsub]
        constructor
        · rintro (h2 | h2)
          · right; rw [h2]
          · left; exact h2
        · rintro (h2 | h2)
          · right; exact h2
          · left; exact (Option.some.inj h2).symm
      · intro k
        rw [mem_setInsert keyCmp_cmpEra, hUE k, exists_mem_append_single,
          eraId_of_subId hsub]
        constructor
        · rintro (h2 | h2)
          · right; rw [h2]
          · left; exact h2
        · rintro (h2 | h2)
          · right; exact h2
          · left; exact (Option.some.inj h2).symm

lemma remInv_fold (cfg : DigestConfig) (li : Nat) (D1 : Digest)
    (hIchild : ∀ i b, mapGet compare i D1.intervals = some b →
      ∀ sid ∈ b.content, sid / cfg.sub_intervals = i)
    (hEchild : ∀ er b, mapGet cmpEra er D1.eras = some b →
      ∀ i ∈ b.content, get_era cfg li i = er) :
    ∀ (A P : List LogEntry) (st : UpdateState), RemInv cfg li D1 P st →
      (∀ e ∈ A, ∀ sub, subId cfg e = some sub →
        (mapGet compare sub D1.subintervals).isSome
        ∧ (mapGet compare (sub / cfg.sub_intervals) D1.intervals).isSome
        ∧ (mapGet cmpEra (get_era cfg li (sub / cfg.sub_intervals)) D1.eras).isSome) →
      RemInv cfg li D1 (P ++ A) (A.foldl (remove_deleted_step li) st)
  | [], P, st, hinv, _ => by
    rw [List.append_nil]
    exact hinv
  | e :: A, P, st, hinv, hpres => by
    rw [List.foldl_cons, show P ++ e :: A = (P ++ [e]) ++ A by simp]
    exact remInv_fold cfg li D1 hIchild hEchild A (P ++ [e]) _
      (remInv_step cfg li D1 hIchild hEchild P st hinv e
        (hpres e (List.mem_cons_self _ _)))
      (fun e' he' => hpres e' (List.mem_cons_of_mem _ he'))

lemma subEmptyB_nil {cfg : DigestConfig} {msub : List (Nat × SubInterval)}
    (hNE : ∀ sid s, mapGet compare sid msub = some s → s.content ≠ [])
    (sid : Nat) : subEmptyB cfg msub [] sid = false := by
  rcases h : mapGet compare sid msub with _ | s
  · simp [subEmptyB, h]
  · simp only [subEmptyB, h]
    show (rmAll (psub cfg [] sid) s.content).isEmpty = false
    exact isEmpty_false_of_ne_nil (hNE sid s h)

lemma remInv_init (cfg : DigestConfig) (li : Nat) (D1 : Digest)
    (hcfg : D1.config = cfg)
    (hmS : MSorted compare D1.subintervals) (hmI : MSorted compare D1.intervals)
    (hmE : MSorted cmpEra D1.eras)
    (hNEsub : ∀ sid s, mapGet compare sid D1.subintervals = some s → s.content ≠ [])
    (hNEint : ∀ i b, mapGet compare i D1.intervals = some b → b.content ≠ []) :
    RemInv cfg li D1 [] ⟨D1, [], [], []⟩ := by
  refine ⟨hcfg, rfl, rfl, ?_, ?_, ?_, hmS, hmI, hmE, ?_, ?_, ?_⟩
  · intro sid
    rcases h : mapGet compare sid D1.subintervals with _ | s <;> rfl
  · intro i
    rcases h : mapGet compare i D1.intervals with _ | b
    · rfl
    · refine congrArg some ?_
      show b = ⟨b.checksum, b.content.filter
        (fun sid => ! subEmptyB cfg D1.subintervals [] sid)⟩
      have : b.content.filter (fun sid => ! subEmptyB cfg D1.subintervals [] sid)
          = b.content := by
        apply List.filter_eq_self.mpr
        intro x _
        rw [subEmptyB_nil hNEsub x]
        rfl
      rw [this]
  · intro er
    rcases h : mapGet cmpEra er D1.eras with _ | c
    · rfl
    · refine congrArg some ?_
      show c = ⟨c.checksum, c.content.filter
        (fun i => ! intEmptyB cfg D1.subintervals D1.intervals [] i)⟩
      have : c.content.filter
          (fun i => ! intEmptyB cfg D1.subintervals D1.intervals [] i)
          = c.content := by
        apply List.filter_eq_self.mpr
        intro x _
        rcases hb : mapGet compare x D1.intervals with _ | b
        · simp [intEmptyB, hb]
        · simp only [intEmptyB, hb]
          have hf : b.content.filter
              (fun sid => ! subEmptyB cfg D1.subintervals [] sid) = b.content := by
            apply List.filter_eq_self.mpr
            intro y _
            rw [subEmptyB_nil hNEsub y]
            rfl
          rw [hf]
          simp [isEmpty_false_of_ne_nil (hNEint x b hb)]
      rw [this]
  · intro k
    simp
  · intro k
    simp
  · intro k
    simp

/-! ## C1: the reconstruction loops, per key -/

lemma mapGet_recompute_subs_ne :
    ∀ (toUpd : List Nat) (m : List (Nat × SubInterval)) (k : Nat), k ∉ toUpd →
      mapGet compare k (recompute_subintervals toUpd m) = mapGet compare k m
  | [], _, _, _ => rfl
  | t :: rest, m, k, hk => by
    have hkt : k ≠ t := fun hc => hk (hc ▸ List.mem_cons_self _ _)
    have hkr : k ∉ rest := fun hc => hk (List.mem_cons_of_mem _ hc)
    rw [recompute_subintervals, List.foldl_cons]
    rw [← recompute_subintervals]
    rw [mapGet_recompute_subs_ne rest _ k hkr]
    rcases h : mapGet compare t m with _ | s
    · simp [h]
    · simp only [h]
      by_cases he : s.content.isEmpty = true
      · rw [if_pos he]
        exact mapGet_mapRemove_ne keyCmp_nat hkt m
      · rw [if_neg he]
        exact mapGet_mapAdjust_ne keyCmp_nat hkt _ m

lemma msorted_recompute_subs :
    ∀ (toUpd : List Nat) (m : List (Nat × SubInterval)), MSorted compare m →
      MSorted compare (recompute_subintervals toUpd m)
  | [], _, hm => hm
  | t :: rest, m, hm => by
    rw [recompute_subintervals, List.foldl_cons, ← recompute_subintervals]
    apply msorted_recompute_subs rest
    rcases h : mapGet compare t m with _ | s
    · simpa [h] using hm
    · simp only [h]
      by_cases he : s.content.isEmpty = true
      · rw [if_pos he]
        exact msorted_mapRemove _ hm
      · rw [if_neg he]
        exact msorted_mapAdjust _ _ hm

lemma mapGet_recompute_subs_mem :
    ∀ (toUpd : List Nat) (m : List (Nat × SubInterval)), MSorted compare m →
      ∀ k, k ∈ toUpd →
      mapGet compare k (recompute_subintervals toUpd m)
        = match mapGet compare k m with
          | none => none
          | some s =>
            if s.content.isEmpty then none
            else some ⟨get_subinterval_checksum s.content, s.content⟩
  | [], _, _, k, hk => absurd hk (List.not_mem_nil k)
  | t :: rest, m, hm, k, hk => by
    rw [recompute_subintervals, List.foldl_cons, ← recompute_subintervals]
    by_cases hkt : k = t
    · subst hkt
      rcases h : mapGet compare k m with _ | s
      · simp only [h]
        by_cases hkr : k ∈ rest
        · rw [mapGet_recompute_subs_mem rest m hm k hkr, h]
        · rw [mapGet_recompute_subs_ne rest m k hkr, h]
      · simp only [h]
        by_cases he : s.content.isEmpty = true
        · rw [if_pos he]
          have hrm : mapGet compare k (mapRemove compare k m) = none :=
            mapGet_mapRemove_self keyCmp_nat k hm
          by_cases hkr : k ∈ rest
          · rw [mapGet_recompute_subs_mem rest _ (msorted_mapRemove _ hm) k hkr, hrm]
            simp [he]
          · rw [mapGet_recompute_subs_ne rest _ k hkr, hrm, if_pos he]
        · rw [if_neg he]
          have had : mapGet compare k (mapAdjust compare k
              (fun s2 => { s2 with
                checksum := get_subinterval_checksum s2.content }) m)
              = some ⟨get_subinterval_checksum s.content, s.content⟩ := by
            rw [mapGet_mapAdjust_self keyCmp_nat, h]
            rfl
          by_cases hkr : k ∈ rest
          · rw [mapGet_recompute_subs_mem rest _ (msorted_mapAdjust _ _ hm) k hkr,
              had]
          · rw [mapGet_recompute_subs_ne rest _ k hkr, had, if_neg he]
    · have hkr : k ∈ rest := by
        rcases List.mem_cons.mp hk with h | h
        · exact absurd h hkt
        · exact h
      rcases h : mapGet compare t m with _ | s
      · simp only [h]
        rw [mapGet_recompute_subs_mem rest m hm k hkr]
      · simp only [h]
        by_cases he : s.content.isEmpty = true
        · rw [if_pos he, mapGet_recompute_subs_mem rest _ (msorted_mapRemove _ hm)
            k hkr, mapGet_mapRemove_ne keyCmp_nat hkt m]
        · rw [if_neg he, mapGet_recompute_subs_mem rest _ (msorted_mapAdjust _ _ hm)
            k hkr, mapGet_mapAdjust_ne keyCmp_nat hkt _ m]

lemma filter_isSome_idem {l : List Nat} {p : Nat → Bool} :
    (l.filter p).filter p = l.filter p :=
  List.filter_eq_self.mpr (fun x hx => (List.mem_filter.mp hx).2)

lemma recompute_int_val_fix (subs : List (Nat × SubInterval)) (i : Interval)
    (he : (i.content.filter (fun x => (mapGet compare x subs).isSome)).isEmpty
      = false) :
    recompute_int_val subs (some ⟨get_interval_checksum
        (i.content.filter (fun x => (mapGet compare x subs).isSome)) subs,
      i.content.filter (fun x => (mapGet compare x subs).isSome)⟩)
      = recompute_int_val subs (some i) := by
  simp only [recompute_int_val, filter_isSome_idem, he]

lemma recompute_era_val_fix (ints : List (Nat × Interval)) (b : Interval)
    (he : (b.content.filter (fun x => (mapGet compare x ints).isSome)).isEmpty
      = false) :
    recompute_era_val ints (some ⟨get_era_checksum
        (b.content.filter (fun x => (mapGet compare x ints).isSome)) ints,
      b.content.filter (fun x => (mapGet compare x ints).isSome)⟩)
      = recompute_era_val ints (some b) := by
  simp only [recompute_era_val, filter_isSome_idem, he]

lemma mapGet_recompute_ints_ne :
    ∀ (toUpd : List Nat) (subs : List (Nat × SubInterval))
      (m : List (Nat × Interval)) (k : Nat), k ∉ toUpd →
      mapGet compare k (recompute_intervals toUpd subs m) = mapGet compare k m
  | [], _, _, _, _ => rfl
  | t :: rest, subs, m, k, hk => by
    have hkt : k ≠ t := fun hc => hk (hc ▸ List.mem_cons_self _ _)
    have hkr : k ∉ rest := fun hc => hk (List.mem_cons_of_mem _ hc)
    rw [recompute_intervals, List.foldl_cons, ← recompute_intervals]
    rw [mapGet_recompute_ints_ne rest subs _ k hkr]
    rcases h : mapGet compare t m with _ | i
    · simp [h]
    · simp only [h]
      by_cases he : (i.content.filter
          (fun x => (mapGet compare x subs).isSome)).isEmpty = true
      · rw [if_pos he]
        exact mapGet_mapRemove_ne keyCmp_nat hkt m
      · rw [if_neg he]
        exact mapGet_mapAdjust_ne keyCmp_nat hkt _ m

lemma msorted_recompute_ints :
    ∀ (toUpd : List Nat) (subs : List (Nat × SubInterval))
      (m : List (Nat × Interval)), MSorted compare m →
      MSorted compare (recompute_intervals toUpd subs m)
  | [], _, _, hm => hm
  | t :: rest, subs, m, hm => by
    rw [recompute_intervals, List.foldl_cons, ← recompute_intervals]
    apply msorted_recompute_ints rest subs
    rcases h : mapGet compare t m with _ | i
    · simpa [h] using hm
    · simp only [h]
      by_cases he : (i.content.filter
          (fun x => (mapGet compare x subs).isSome)).isEmpty = true
      · rw [if_pos he]
        exact msorted_mapRemove _ hm
      · rw [if_neg he]
        exact msorted_mapAdjust _ _ hm

lemma mapGet_recompute_ints_mem :
    ∀ (toUpd : List Nat) (subs : List (Nat × SubInterval))
      (m : List (Nat × Interval)), MSorted compare m →
      ∀ k, k ∈ toUpd →
      mapGet compare k (recompute_intervals toUpd subs m)
        = recompute_int_val subs (mapGet compare k m)
  | [], _, _, _, k, hk => absurd hk (List.not_mem_nil k)
  | t :: rest, subs, m, hm, k, hk => by
    rw [recompute_intervals, List.foldl_cons, ← recompute_intervals]
    by_cases hkt : k = t
    · subst hkt
      rcases h : mapGet compare k m with _ | i
      · simp only [h]
        by_cases hkr : k ∈ rest
        · rw [mapGet_recompute_ints_mem rest subs m hm k hkr, h]
        · rw [mapGet_recompute_ints_ne rest subs m k hkr, h]
          rfl
      · simp only [h]
        by_cases he : (i.content.filter
            (fun x => (mapGet compare x subs).isSome)).isEmpty = true
        · rw [if_pos he]
          have hrm : mapGet compare k (mapRemove compare k m) = none :=
            mapGet_mapRemove_self keyCmp_nat k hm
          have hval : recompute_int_val subs (some i) = none := by
            simp only [recompute_int_val, he]
            rfl
          by_cases hkr : k ∈ rest
          · rw [mapGet_recompute_ints_mem rest subs _ (msorted_mapRemove _ hm)
              k hkr, hrm, hval]
            rfl
          · rw [mapGet_recompute_ints_ne rest subs _ k hkr, hrm, hval]
        · rw [if_neg he]
          have had : mapGet compare k (mapAdjust compare k
              (fun _ => (⟨get_interval_checksum (i.content.filter
                  (fun x => (mapGet compare x subs).isSome)) subs,
                i.content.filter (fun x => (mapGet compare x subs).isSome)⟩
                  : Interval)) m)
              = some ⟨get_interval_checksum (i.content.filter
                  (fun x => (mapGet compare x subs).isSome)) subs,
                i.content.filter (fun x => (mapGet compare x subs).isSome)⟩ := by
            rw [mapGet_mapAdjust_self keyCmp_nat, h]
            rfl
          have hval2 : recompute_int_val subs (some i)
              = some ⟨get_interval_checksum (i.content.filter
                  (fun x => (mapGet compare x subs).isSome)) subs,
                i.content.filter (fun x => (mapGet compare x subs).isSome)⟩ := by
            simp only [recompute_int_val]
            rw [if_neg he]
          by_cases hkr : k ∈ rest
          · rw [mapGet_recompute_ints_mem rest subs _ (msorted_mapAdjust _ _ hm)
              k hkr, had]
            exact recompute_int_val_fix subs i (by rw [Bool.eq_false_iff]; exact he)
          · rw [mapGet_recompute_ints_ne rest subs _ k hkr, had, hval2]
    · have hkr : k ∈ rest := by
        rcases List.mem_cons.mp hk with h | h
        · exact absurd h hkt
        · exact h
      rcases h : mapGet compare t m with _ | i
      · simp only [h]
        rw [mapGet_recompute_ints_mem rest subs m hm k hkr]
      · simp only [h]
        by_cases he : (i.content.filter
            (fun x => (mapGet compare x subs).isSome)).isEmpty = true
        · rw [if_pos he, mapGet_recompute_ints_mem rest subs _
            (msorted_mapRemove _ hm) k hkr,
            mapGet_mapRemove_ne keyCmp_nat hkt m]
        · rw [if_neg he, mapGet_recompute_ints_mem rest subs _
            (msorted_mapAdjust _ _ hm) k hkr,
            mapGet_mapAdjust_ne keyCmp_nat hkt _ m]

lemma mapGet_recompute_eras_ne :
    ∀ (toUpd : List EraType) (ints : List (Nat × Interval))
      (m : List (EraType × Interval)) (k : EraType), k ∉ toUpd →
      mapGet cmpEra k (recompute_eras toUpd ints m) = mapGet cmpEra k m
  | [], _, _, _, _ => rfl
  | t :: rest, ints, m, k, hk => by
    have hkt : k ≠ t := fun hc => hk (hc ▸ List.mem_cons_self _ _)
    have hkr : k ∉ rest := fun hc => hk (List.mem_cons_of_mem _ hc)
    rw [recompute_eras, List.foldl_cons, ← recompute_eras]
    rw [mapGet_recompute_eras_ne rest ints _ k hkr]
    rcases h : mapGet cmpEra t m with _ | b
    · simp [h]
    · simp only [h]
      by_cases he : (b.content.filter
          (fun x => (mapGet compare x ints).isSome)).isEmpty = true
      · rw [if_pos he]
        exact mapGet_mapRemove_ne keyCmp_cmpEra hkt m
      · rw [if_neg he]
        exact mapGet_mapAdjust_ne keyCmp_cmpEra hkt _ m

lemma msorted_recompute_eras :
    ∀ (toUpd : List EraType) (ints : List (Nat × Interval))
      (m : List (EraType × Interval)), MSorted cmpEra m →
      MSorted cmpEra (recompute_eras toUpd ints m)
  | [], _, _, hm => hm
  | t :: rest, ints, m, hm => by
    rw [recompute_eras, List.foldl_cons, ← recompute_eras]
    apply msorted_recompute_eras rest ints
    rcases h : mapGet cmpEra t m with _ | b
    · simpa [h] using hm
    · simp only [h]
      by_cases he : (b.content.filter
          (fun x => (mapGet compare x ints).isSome)).isEmpty = true
      · rw [if_pos he]
        exact msorted_mapRemove _ hm
      · rw [if_neg he]
        exact msorted_mapAdjust _ _ hm

lemma mapGet_recompute_eras_mem :
    ∀ (toUpd : List EraType) (ints : List (Nat × Interval))
      (m : List (EraType × Interval)), MSorted cmpEra m →
      ∀ k, k ∈ toUpd →
      mapGet cmpEra k (recompute_eras toUpd ints m)
        = recompute_era_val ints (mapGet cmpEra k m)
  | [], _, _, _, k, hk => absurd hk (List.not_mem_nil k)
  | t :: rest, ints, m, hm, k, hk => by
    rw [recompute_eras, List.foldl_cons, ← recompute_eras]
    by_cases hkt : k = t
    · subst hkt
      rcases h : mapGet cmpEra k m with _ | b
      · simp only [h]
        by_cases hkr : k ∈ rest
        · rw [mapGet_recompute_eras_mem rest ints m hm k hkr, h]
        · rw [mapGet_recompute_eras_ne rest ints m k hkr, h]
          rfl
      · simp only [h]
        by_cases he : (b.content.filter
            (fun x => (mapGet compare x ints).isSome)).isEmpty = true
        · rw [if_pos he]
          have hrm : mapGet cmpEra k (mapRemove cmpEra k m) = none :=
            mapGet_mapRemove_self keyCmp_cmpEra k hm
          have hval : recompute_era_val ints (some b) = none := by
            simp only [recompute_era_val, he]
            rfl
          by_cases hkr : k ∈ rest
          · rw [mapGet_recompute_eras_mem rest ints _ (msorted_mapRemove _ hm)
              k hkr, hrm, hval]
            rfl
          · rw [mapGet_recompute_eras_ne rest ints _ k hkr, hrm, hval]
        · rw [if_neg he]
          have had : mapGet cmpEra k (mapAdjust cmpEra k
              (fun _ => (⟨get_era_checksum (b.content.filter
                  (fun x => (mapGet compare x ints).isSome)) ints,
                b.content.filter (fun x => (mapGet compare x ints).isSome)⟩
                  : Interval)) m)
              = some ⟨get_era_checksum (b.content.filter
                  (fun x => (mapGet compare x ints).isSome)) ints,
                b.content.filter (fun x => (mapGet compare x ints).isSome)⟩ := by
            rw [mapGet_mapAdjust_self keyCmp_cmpEra, h]
            rfl
          have hval2 : recompute_era_val ints (some b)
              = some ⟨get_era_checksum (b.content.filter
                  (fun x => (mapGet compare x ints).isSome)) ints,
                b.content.filter (fun x => (mapGet compare x ints).isSome)⟩ := by
            simp only [recompute_era_val]
            rw [if_neg he]
          by_cases hkr : k ∈ rest
          · rw [mapGet_recompute_eras_mem rest ints _ (msorted_mapAdjust _ _ hm)
              k hkr, had]
            exact recompute_era_val_fix ints b (by rw [Bool.eq_false_iff]; exact he)
          · rw [mapGet_recompute_eras_ne rest ints _ k hkr, had, hval2]
    · have hkr : k ∈ rest := by
        rcases List.mem_cons.mp hk with h | h
        · exact absurd h hkt
        · exact h
      rcases h : mapGet cmpEra t m with _ | b
      · simp only [h]
        rw [mapGet_recompute_eras_mem rest ints m hm k hkr]
      · simp only [h]
        by_cases he : (b.content.filter
            (fun x => (mapGet compare x ints).isSome)).isEmpty = true
        · rw [if_pos he, mapGet_recompute_eras_mem rest ints _
            (msorted_mapRemove _ hm) k hkr,
            mapGet_mapRemove_ne keyCmp_cmpEra hkt m]
        · rw [if_neg he, mapGet_recompute_eras_mem rest ints _
            (msorted_mapAdjust _ _ hm) k hkr,
            mapGet_mapAdjust_ne keyCmp_cmpEra hkt _ m]

/-! ## C1: pipeline shapes of the two passes -/

lemma setExtend_nil {cmp : κ → κ → Ordering} (s : List κ) :
    setExtend cmp s [] = s := rfl

lemma psub_eq_nil_of_not_exists {cfg : DigestConfig} {A : List LogEntry} {k : Nat}
    (h : ¬ ∃ e ∈ A, subId cfg e = some k) : psub cfg A k = [] := by
  rcases hp : psub cfg A k with _ | ⟨x, xs⟩
  · rfl
  · exfalso
    have hx : x ∈ psub cfg A k := by
      rw [hp]
      exact List.mem_cons_self _ _
    rcases mem_psub.mp hx with ⟨hxA, hxk⟩
    exact h ⟨x, hxA, hxk⟩

lemma pint_eq_nil_of_not_exists {cfg : DigestConfig} {A : List LogEntry} {k : Nat}
    (h : ¬ ∃ e ∈ A, intId cfg e = some k) : pint cfg A k = [] := by
  rcases hp : pint cfg A k with _ | ⟨x, xs⟩
  · rfl
  · exfalso
    have hx : x ∈ pint cfg A k := by
      rw [hp]
      exact List.mem_cons_self _ _
    rcases mem_pint.mp hx with ⟨hxA, hxk⟩
    exact h ⟨x, hxA, hxk⟩

lemma pera_eq_nil_of_not_exists {cfg : DigestConfig} {li : Nat} {A : List LogEntry}
    {k : EraType} (h : ¬ ∃ e ∈ A, eraId cfg li e = some k) : pera cfg li A k = [] := by
  rcases hp : pera cfg li A k with _ | ⟨x, xs⟩
  · rfl
  · exfalso
    have hx : x ∈ pera cfg li A k := by
      rw [hp]
      exact List.mem_cons_self _ _
    rcases mem_pera.mp hx with ⟨hxA, hxk⟩
    exact h ⟨x, hxA, hxk⟩

lemma insAllC_src_ne_nil {cmp : α → α → Ordering} {S : List α} (h : S ≠ []) :
    insAllC cmp S [] ≠ [] := by
  rcases S with _ | ⟨x, xs⟩
  · exact absurd rfl h
  · rw [insAllC_cons]
    exact insAllC_ne_nil_of_ne_nil xs _ (btreeInsert_ne_nil x [])

lemma update_digest_nil_del (D : Digest) (li : Nat) (ts : TS) (A : List LogEntry)
    (hcorr : ∀ p ∈ addEras D.config li A D.eras,
      (p.1 = EraType.Hot ∨ p.1 = EraType.Warm) →
      ∀ i ∈ p.2.content, get_era D.config li i = p.1) :
    update_digest D li ts A [] = phase1 D li ts A := by
  simp only [phase1, phase1eras, phase1ints, phase1subs]
  simp only [update_digest, remove_deleted_content]
  dsimp only [List.foldl]
  rw [update_new_content_eq D A li]
  dsimp only
  rw [realign_noop _ li (by
    intro p hp hw i hi
    exact hcorr p hp hw i hi)]
  dsimp only
  rw [setExtend_nil, setExtend_nil, setExtend_nil, setExtend_nil]

lemma update_digest_nil_new (D1 : Digest) (li : Nat) (ts : TS) (A : List LogEntry)
    (hcorr : ∀ p ∈ (remove_deleted_content D1 A li).digest.eras,
      (p.1 = EraType.Hot ∨ p.1 = EraType.Warm) →
      ∀ i ∈ p.2.content,
        get_era (remove_deleted_content D1 A li).digest.config li i = p.1) :
    update_digest D1 li ts [] A = phase2 D1 li ts A := by
  simp only [phase2, phase2eras, phase2ints, phase2subs]
  simp only [update_digest, update_new_content]
  dsimp only [List.foldl]
  rw [realign_noop _ li hcorr]
  dsimp only
  rw [setExtend_nil]

/-! ## C1: the first pass, per key -/

lemma phase1subs_get_untouched (cfg : DigestConfig) (A : List LogEntry)
    (m : List (Nat × SubInterval)) (hm : MSorted compare m) (k : Nat)
    (hex : ¬ ∃ e ∈ A, subId cfg e = some k) :
    mapGet compare k (phase1subs cfg A m) = mapGet compare k m := by
  have hk : k ∉ updSubs cfg A [] := by
    intro hk
    rcases (mem_updSubs cfg A [] k).mp hk with h | h
    · exact absurd h (List.not_mem_nil k)
    · exact hex h
  rw [phase1subs, mapGet_recompute_subs_ne _ _ k hk, mapGet_addSubs cfg A m hm k,
    psub_eq_nil_of_not_exists hex]
  rfl

lemma phase1subs_get_some (cfg : DigestConfig) (A : List LogEntry)
    (m : List (Nat × SubInterval)) (hm : MSorted compare m) {k : Nat}
    {s0 : SubInterval} (hb : mapGet compare k m = some s0)
    (hs0 : s0.content ≠ []) (hex : ∃ e ∈ A, subId cfg e = some k) :
    mapGet compare k (phase1subs cfg A m)
      = some ⟨get_subinterval_checksum (insAllC cmpLog (psub cfg A k) s0.content),
          insAllC cmpLog (psub cfg A k) s0.content⟩ := by
  have hk : k ∈ updSubs cfg A [] := (mem_updSubs cfg A [] k).mpr (Or.inr hex)
  rw [phase1subs, mapGet_recompute_subs_mem _ _ (msorted_addSubs cfg A m hm) k hk,
    mapGet_addSubs cfg A m hm k, hb, bucketAddAll_some]
  have hne2 : (insAllC cmpLog (psub cfg A k) s0.content).isEmpty ≠ true := by
    rw [isEmpty_false_of_ne_nil (insAllC_ne_nil_of_ne_nil _ _ hs0)]
    exact Bool.false_ne_true
  show (if (insAllC cmpLog (psub cfg A k) s0.content).isEmpty = true then none
    else some (⟨get_subinterval_checksum (insAllC cmpLog (psub cfg A k) s0.content),
      insAllC cmpLog (psub cfg A k) s0.content⟩ : SubInterval)) = _
  rw [if_neg hne2]

lemma phase1subs_get_none (cfg : DigestConfig) (A : List LogEntry)
    (m : List (Nat × SubInterval)) (hm : MSorted compare m) {k : Nat}
    (hb : mapGet compare k m = none) (hex : ∃ e ∈ A, subId cfg e = some k) :
    mapGet compare k (phase1subs cfg A m)
      = some ⟨get_subinterval_checksum (insAllC cmpLog (psub cfg A k) []),
          insAllC cmpLog (psub cfg A k) []⟩ := by
  have hk : k ∈ updSubs cfg A [] := (mem_updSubs cfg A [] k).mpr (Or.inr hex)
  have hpne : psub cfg A k ≠ [] := by
    rcases hex with ⟨e, heA, hek⟩
    intro hc
    have hmem : e ∈ psub cfg A k := mem_psub.mpr ⟨heA, hek⟩
    rw [hc] at hmem
    exact absurd hmem (List.not_mem_nil e)
  rw [phase1subs, mapGet_recompute_subs_mem _ _ (msorted_addSubs cfg A m hm) k hk,
    mapGet_addSubs cfg A m hm k, hb]
  rcases hp : psub cfg A k with _ | ⟨x, xs⟩
  · exact absurd hp hpne
  · rw [bucketAddAll_none_cons]
    have hne2 : (insAllC cmpLog (x :: xs) []).isEmpty ≠ true := by
      rw [isEmpty_false_of_ne_nil (insAllC_src_ne_nil (List.cons_ne_nil x xs))]
      exact Bool.false_ne_true
    show (if (insAllC cmpLog (x :: xs) []).isEmpty = true then none
      else some (⟨get_subinterval_checksum (insAllC cmpLog (x :: xs) []),
        insAllC cmpLog (x :: xs) []⟩ : SubInterval)) = _
    rw [if_neg hne2]

lemma phase1subs_content_ne_nil (cfg : DigestConfig) (A : List LogEntry)
    (m : List (Nat × SubInterval)) (hm : MSorted compare m)
    (hgood : ∀ sid s0, mapGet compare sid m = some s0 → s0.content ≠ []) :
    ∀ sid s, mapGet compare sid (phase1subs cfg A m) = some s → s.content ≠ [] := by
  intro sid s h
  by_cases hex : ∃ e ∈ A, subId cfg e = some sid
  · rcases hb : mapGet compare sid m with _ | s0
    · rw [phase1subs_get_none cfg A m hm hb hex] at h
      cases h
      have hpne : psub cfg A sid ≠ [] := by
        rcases hex with ⟨e, heA, hek⟩
        intro hc
        have hmem : e ∈ psub cfg A sid := mem_psub.mpr ⟨heA, hek⟩
        rw [hc] at hmem
        exact absurd hmem (List.not_mem_nil e)
      show insAllC cmpLog (psub cfg A sid) [] ≠ []
      exact insAllC_src_ne_nil hpne
    · rw [phase1subs_get_some cfg A m hm hb (hgood sid s0 hb) hex] at h
      cases h
      show insAllC cmpLog (psub cfg A sid) s0.content ≠ []
      exact insAllC_ne_nil_of_ne_nil _ _ (hgood sid s0 hb)
  · rw [phase1subs_get_untouched cfg A m hm sid hex] at h
    exact hgood sid s h

lemma phase1subs_isSome_of_base (cfg : DigestConfig) (A : List LogEntry)
    (m : List (Nat × SubInterval)) (hm : MSorted compare m)
    (hgood : ∀ sid s0, mapGet compare sid m = some s0 → s0.content ≠ []) (k : Nat)
    (h : (mapGet compare k m).isSome = true ∨ ∃ e ∈ A, subId cfg e = some k) :
    (mapGet compare k (phase1subs cfg A m)).isSome = true := by
  by_cases hex : ∃ e ∈ A, subId cfg e = some k
  · rcases hb : mapGet compare k m with _ | s0
    · rw [phase1subs_get_none cfg A m hm hb hex]
      rfl
    · rw [phase1subs_get_some cfg A m hm hb (hgood k s0 hb) hex]
      rfl
  · rcases h with h | h
    · rw [phase1subs_get_untouched cfg A m hm k hex]
      exact h
    · exact absurd h hex

lemma subId_of_intId {cfg : DigestConfig} {e : LogEntry} {i : Nat}
    (h : intId cfg e = some i) : subId cfg e = some (subOf cfg e) := by
  rcases hs : subId cfg e with _ | s
  · rw [intId, hs] at h
    cases h
  · rw [subOf, hs]
    rfl

lemma subId_of_eraId {cfg : DigestConfig} {li : Nat} {e : LogEntry} {er : EraType}
    (h : eraId cfg li e = some er) : subId cfg e = some (subOf cfg e) := by
  rcases hi : intId cfg e with _ | i
  · rw [eraId, hi] at h
    cases h
  · exact subId_of_intId hi

lemma intId_of_eraId {cfg : DigestConfig} {li : Nat} {e : LogEntry} {er : EraType}
    (h : eraId cfg li e = some er) : intId cfg e = some (intOf cfg e) := by
  rcases hi : intId cfg e with _ | i
  · rw [eraId, hi] at h
    cases h
  · rw [intOf, hi]
    rfl

lemma recompute_int_val_some_elim {subs : List (Nat × SubInterval)}
    {o : Option Interval} {b : Interval} (h : recompute_int_val subs o = some b) :
    b.content ≠ [] := by
  rcases o with _ | i
  · simp only [recompute_int_val] at h
    cases h
  · simp only [recompute_int_val] at h
    by_cases he : (i.content.filter
        (fun x => (mapGet compare x subs).isSome)).isEmpty = true
    · rw [if_pos he] at h
      cases h
    · rw [if_neg he] at h
      cases h
      show i.content.filter (fun x => (mapGet compare x subs).isSome) ≠ []
      intro hc
      apply he
      rw [hc]
      rfl

lemma recompute_era_val_some_elim {ints : List (Nat × Interval)}
    {o : Option Interval} {b : Interval} (h : recompute_era_val ints o = some b) :
    b.content ≠ [] := by
  rcases o with _ | i
  · simp only [recompute_era_val] at h
    cases h
  · simp only [recompute_era_val] at h
    by_cases he : (i.content.filter
        (fun x => (mapGet compare x ints).isSome)).isEmpty = true
    · rw [if_pos he] at h
      cases h
    · rw [if_neg he] at h
      cases h
      show i.content.filter (fun x => (mapGet compare x ints).isSome) ≠ []
      intro hc
      apply he
      rw [hc]
      rfl

lemma phase1ints_get_untouched (cfg : DigestConfig) (A : List LogEntry)
    (msub : List (Nat × SubInterval)) (mint : List (Nat × Interval))
    (hmi : MSorted compare mint) (k : Nat)
    (hex : ¬ ∃ e ∈ A, intId cfg e = some k) :
    mapGet compare k (phase1ints cfg A msub mint) = mapGet compare k mint := by
  have hk : k ∉ updInts cfg A [] := by
    intro hk
    rcases (mem_updInts cfg A [] k).mp hk with h | h
    · exact absurd h (List.not_mem_nil k)
    · exact hex h
  rw [phase1ints, mapGet_recompute_ints_ne _ _ _ k hk, mapGet_addInts cfg A mint hmi k,
    pint_eq_nil_of_not_exists hex]
  rfl

lemma phase1ints_get_some (cfg : DigestConfig) (A : List LogEntry)
    (msub : List (Nat × SubInterval)) (mint : List (Nat × Interval))
    (hmi : MSorted compare mint) {k : Nat} {b0 : Interval}
    (hb : mapGet compare k mint = some b0) (hb0 : b0.content ≠ [])
    (hex : ∃ e ∈ A, intId cfg e = some k)
    (hpres : ∀ x ∈ insAllC compare ((pint cfg A k).map (subOf cfg)) b0.content,
      (mapGet compare x (phase1subs cfg A msub)).isSome = true) :
    mapGet compare k (phase1ints cfg A msub mint)
      = some ⟨get_interval_checksum
          (insAllC compare ((pint cfg A k).map (subOf cfg)) b0.content)
          (phase1subs cfg A msub),
        insAllC compare ((pint cfg A k).map (subOf cfg)) b0.content⟩ := by
  have hk : k ∈ updInts cfg A [] := (mem_updInts cfg A [] k).mpr (Or.inr hex)
  rw [phase1ints, mapGet_recompute_ints_mem _ _ _ (msorted_addInts cfg A mint hmi) k hk,
    mapGet_addInts cfg A mint hmi k, hb, childAddAll_some]
  simp only [recompute_int_val]
  rw [List.filter_eq_self.mpr hpres]
  have hne2 : (insAllC compare ((pint cfg A k).map (subOf cfg))
      b0.content).isEmpty ≠ true := by
    rw [isEmpty_false_of_ne_nil (insAllC_ne_nil_of_ne_nil _ _ hb0)]
    exact Bool.false_ne_true
  rw [if_neg hne2]

lemma phase1ints_get_none (cfg : DigestConfig) (A : List LogEntry)
    (msub : List (Nat × SubInterval)) (mint : List (Nat × Interval))
    (hmi : MSorted compare mint) {k : Nat}
    (hb : mapGet compare k mint = none) (hex : ∃ e ∈ A, intId cfg e = some k)
    (hpres : ∀ x ∈ insAllC compare ((pint cfg A k).map (subOf cfg)) [],
      (mapGet compare x (phase1subs cfg A msub)).isSome = true) :
    mapGet compare k (phase1ints cfg A msub mint)
      = some ⟨get_interval_checksum
          (insAllC compare ((pint cfg A k).map (subOf cfg)) [])
          (phase1subs cfg A msub),
        insAllC compare ((pint cfg A k).map (subOf cfg)) []⟩ := by
  have hk : k ∈ updInts cfg A [] := (mem_updInts cfg A [] k).mpr (Or.inr hex)
  have hpne : (pint cfg A k).map (subOf cfg) ≠ [] := by
    rcases hex with ⟨e, heA, hek⟩
    intro hc
    have hmem : e ∈ pint cfg A k := mem_pint.mpr ⟨heA, hek⟩
    have hmm : subOf cfg e ∈ (pint cfg A k).map (subOf cfg) :=
      List.mem_map_of_mem _ hmem
    rw [hc] at hmm
    exact absurd hmm (List.not_mem_nil _)
  rw [phase1ints, mapGet_recompute_ints_mem _ _ _ (msorted_addInts cfg A mint hmi) k hk,
    mapGet_addInts cfg A mint hmi k, hb]
  rcases hp : (pint cfg A k).map (subOf cfg) with _ | ⟨c, cs⟩
  · exact absurd hp hpne
  · rw [hp] at hpres
    rw [childAddAll_none_cons]
    simp only [recompute_int_val]
    rw [List.filter_eq_self.mpr hpres]
    have hne2 : (insAllC compare (c :: cs) []).isEmpty ≠ true := by
      rw [isEmpty_false_of_ne_nil (insAllC_src_ne_nil (List.cons_ne_nil c cs))]
      exact Bool.false_ne_true
    rw [if_neg hne2]

lemma phase1eras_get_untouched (cfg : DigestConfig) (li : Nat) (A : List LogEntry)
    (msub : List (Nat × SubInterval)) (mint : List (Nat × Interval))
    (m : List (EraType × Interval)) (hme : MSorted cmpEra m) (k : EraType)
    (hex : ¬ ∃ e ∈ A, eraId cfg li e = some k) :
    mapGet cmpEra k (phase1eras cfg li A msub mint m) = mapGet cmpEra k m := by
  have hk : k ∉ updEras cfg li A [] := by
    intro hk
    rcases (mem_updEras cfg li A [] k).mp hk with h | h
    · exact absurd h (List.not_mem_nil k)
    · exact hex h
  rw [phase1eras, mapGet_recompute_eras_ne _ _ _ k hk,
    mapGet_addEras cfg li A m hme k, pera_eq_nil_of_not_exists hex]
  rfl

lemma phase1eras_get_some (cfg : DigestConfig) (li : Nat) (A : List LogEntry)
    (msub : List (Nat × SubInterval)) (mint : List (Nat × Interval))
    (m : List (EraType × Interval)) (hme : MSorted cmpEra m) {k : EraType}
    {c0 : Interval} (hb : mapGet cmpEra k m = some c0) (hc0 : c0.content ≠ [])
    (hex : ∃ e ∈ A, eraId cfg li e = some k)
    (hpres : ∀ x ∈ insAllC compare ((pera cfg li A k).map (intOf cfg)) c0.content,
      (mapGet compare x (phase1ints cfg A msub mint)).isSome = true) :
    mapGet cmpEra k (phase1eras cfg li A msub mint m)
      = some ⟨get_era_checksum
          (insAllC compare ((pera cfg li A k).map (intOf cfg)) c0.content)
          (phase1ints cfg A msub mint),
        insAllC compare ((pera cfg li A k).map (intOf cfg)) c0.content⟩ := by
  have hk : k ∈ updEras cfg li A [] := (mem_updEras cfg li A [] k).mpr (Or.inr hex)
  rw [phase1eras, mapGet_recompute_eras_mem _ _ _ (msorted_addEras cfg li A m hme) k hk,
    mapGet_addEras cfg li A m hme k, hb, childAddAll_some]
  simp only [recompute_era_val]
  rw [List.filter_eq_self.mpr hpres]
  have hne2 : (insAllC compare ((pera cfg li A k).map (intOf cfg))
      c0.content).isEmpty ≠ true := by
    rw [isEmpty_false_of_ne_nil (insAllC_ne_nil_of_ne_nil _ _ hc0)]
    exact Bool.false_ne_true
  rw [if_neg hne2]

lemma phase1eras_get_none (cfg : DigestConfig) (li : Nat) (A : List LogEntry)
    (msub : List (Nat × SubInterval)) (mint : List (Nat × Interval))
    (m : List (EraType × Interval)) (hme : MSorted cmpEra m) {k : EraType}
    (hb : mapGet cmpEra k m = none) (hex : ∃ e ∈ A, eraId cfg li e = some k)
    (hpres : ∀ x ∈ insAllC compare ((pera cfg li A k).map (intOf cfg)) [],
      (mapGet compare x (phase1ints cfg A msub mint)).isSome = true) :
    mapGet cmpEra k (phase1eras cfg li A msub mint m)
      = some ⟨get_era_checksum
          (insAllC compare ((pera cfg li A k).map (intOf cfg)) [])
          (phase1ints cfg A msub mint),
        insAllC compare ((pera cfg li A k).map (intOf cfg)) []⟩ := by
  have hk : k ∈ updEras cfg li A [] := (mem_updEras cfg li A [] k).mpr (Or.inr hex)
  have hpne : (pera cfg li A k).map (intOf cfg) ≠ [] := by
    rcases hex with ⟨e, heA, hek⟩
    intro hc
    have hmem : e ∈ pera cfg li A k := mem_pera.mpr ⟨heA, hek⟩
    have hmm : intOf cfg e ∈ (pera cfg li A k).map (intOf cfg) :=
      List.mem_map_of_mem _ hmem
    rw [hc] at hmm
    exact absurd hmm (List.not_mem_nil _)
  rw [phase1eras, mapGet_recompute_eras_mem _ _ _ (msorted_addEras cfg li A m hme) k hk,
    mapGet_addEras cfg li A m hme k, hb]
  rcases hp : (pera cfg li A k).map (intOf cfg) with _ | ⟨c, cs⟩
  · exact absurd hp hpne
  · rw [hp] at hpres
    rw [childAddAll_none_cons]
    simp only [recompute_era_val]
    rw [List.filter_eq_self.mpr hpres]
    have hne2 : (insAllC compare (c :: cs) []).isEmpty ≠ true := by
      rw [isEmpty_false_of_ne_nil (insAllC_src_ne_nil (List.cons_ne_nil c cs))]
      exact Bool.false_ne_true
    rw [if_neg hne2]

/-! ## C1: unpacking coherence at a key -/

lemma coh_sub (D : Digest) (li : Nat) (hco : CoherentProp D li) :
    ∀ sid s, mapGet compare sid D.subintervals = some s →
      s.content ≠ [] ∧ s.checksum = get_subinterval_checksum s.content
      ∧ ∃ b, mapGet compare (sid / D.config.sub_intervals) D.intervals = some b
          ∧ sid ∈ b.content := by
  intro sid s h
  obtain ⟨h1, h2, h3⟩ := hco.2.2.2.1 (sid, s) (mapGet_mem_pair keyCmp_nat h)
  refine ⟨h1, h2, ?_⟩
  rcases hb : mapGet compare (sid / D.config.sub_intervals) D.intervals with _ | b
  · rw [hb] at h3
    exact absurd h3 (List.not_mem_nil sid)
  · rw [hb] at h3
    exact ⟨b, rfl, h3⟩

lemma coh_int (D : Digest) (li : Nat) (hco : CoherentProp D li) :
    ∀ i b, mapGet compare i D.intervals = some b →
      b.content ≠ [] ∧ CSorted compare b.content
      ∧ b.checksum = get_interval_checksum b.content D.subintervals
      ∧ (∀ sid ∈ b.content, (mapGet compare sid D.subintervals).isSome = true
          ∧ sid / D.config.sub_intervals = i)
      ∧ ∃ c, mapGet cmpEra (get_era D.config li i) D.eras = some c
          ∧ i ∈ c.content := by
  intro i b h
  obtain ⟨h1, h2, h3, h4, h5⟩ := hco.2.2.2.2.1 (i, b) (mapGet_mem_pair keyCmp_nat h)
  refine ⟨h1, h2, h3, h4, ?_⟩
  rcases hc : mapGet cmpEra (get_era D.config li i) D.eras with _ | c
  · rw [hc] at h5
    exact absurd h5 (List.not_mem_nil i)
  · rw [hc] at h5
    exact ⟨c, rfl, h5⟩

lemma coh_era (D : Digest) (li : Nat) (hco : CoherentProp D li) :
    ∀ er c, mapGet cmpEra er D.eras = some c →
      c.content ≠ [] ∧ CSorted compare c.content
      ∧ c.checksum = get_era_checksum c.content D.intervals
      ∧ ∀ i ∈ c.content, (mapGet compare i D.intervals).isSome = true
          ∧ get_era D.config li i = er :=
  fun er c h => hco.2.2.2.2.2.1 (er, c) (mapGet_mem_pair keyCmp_cmpEra h)

/-! ## C1: presence of buckets after the first pass -/

lemma phase1subs_isSome_D (D : Digest) (li : Nat) (A : List LogEntry)
    (hco : CoherentProp D li) (k : Nat)
    (h : (mapGet compare k D.subintervals).isSome = true
      ∨ ∃ e ∈ A, subId D.config e = some k) :
    (mapGet compare k (phase1subs D.config A D.subintervals)).isSome = true :=
  phase1subs_isSome_of_base D.config A D.subintervals hco.1
    (fun sid s0 hb => (coh_sub D li hco sid s0 hb).1) k h

lemma phase1_presI_of_CS (D : Digest) (li : Nat) (A : List LogEntry)
    (hco : CoherentProp D li) {k x : Nat}
    (hx : x ∈ (pint D.config A k).map (subOf D.config)) :
    (mapGet compare x (phase1subs D.config A D.subintervals)).isSome = true := by
  rcases List.mem_map.mp hx with ⟨e, he, hxe⟩
  rcases mem_pint.mp he with ⟨heA, hek⟩
  refine phase1subs_isSome_D D li A hco x (Or.inr ⟨e, heA, ?_⟩)
  rw [← hxe]
  exact subId_of_intId hek

lemma phase1_presI_of_base (D : Digest) (li : Nat) (A : List LogEntry)
    (hco : CoherentProp D li) {k x : Nat} {b0 : Interval}
    (hb : mapGet compare k D.intervals = some b0) (hx : x ∈ b0.content) :
    (mapGet compare x (phase1subs D.config A D.subintervals)).isSome = true :=
  phase1subs_isSome_D D li A hco x
    (Or.inl ((coh_int D li hco k b0 hb).2.2.2.1 x hx).1)

lemma phase1ints_isSome_D (D : Digest) (li : Nat) (A : List LogEntry)
    (hco : CoherentProp D li) (k : Nat)
    (h : (mapGet compare k D.intervals).isSome = true
      ∨ ∃ e ∈ A, intId D.config e = some k) :
    (mapGet compare k
      (phase1ints D.config A D.subintervals D.intervals)).isSome = true := by
  by_cases hex : ∃ e ∈ A, intId D.config e = some k
  · rcases hb : mapGet compare k D.intervals with _ | b0
    · rw [phase1ints_get_none D.config A _ _ hco.2.1 hb hex (fun x hx => by
        rcases mem_of_mem_insAllC _ _ hx with h2 | h2
        · exact absurd h2 (List.not_mem_nil x)
        · exact phase1_presI_of_CS D li A hco h2)]
      rfl
    · rw [phase1ints_get_some D.config A _ _ hco.2.1 hb
        (coh_int D li hco k b0 hb).1 hex (fun x hx => by
          rcases mem_of_mem_insAllC _ _ hx with h2 | h2
          · exact phase1_presI_of_base D li A hco hb h2
          · exact phase1_presI_of_CS D li A hco h2)]
      rfl
  · rcases h with h | h
    · rw [phase1ints_get_untouched D.config A _ _ hco.2.1 k hex]
      exact h
    · exact absurd h hex

lemma phase1_presE_of_ES (D : Digest) (li : Nat) (A : List LogEntry)
    (hco : CoherentProp D li) {k : EraType} {x : Nat}
    (hx : x ∈ (pera D.config li A k).map (intOf D.config)) :
    (mapGet compare x
      (phase1ints D.config A D.subintervals D.intervals)).isSome = true := by
  rcases List.mem_map.mp hx with ⟨e, he, hxe⟩
  rcases mem_pera.mp he with ⟨heA, hek⟩
  refine phase1ints_isSome_D D li A hco x (Or.inr ⟨e, heA, ?_⟩)
  rw [← hxe]
  exact intId_of_eraId hek

lemma phase1_presE_of_base (D : Digest) (li : Nat) (A : List LogEntry)
    (hco : CoherentProp D li) {k : EraType} {x : Nat} {c0 : Interval}
    (hb : mapGet cmpEra k D.eras = some c0) (hx : x ∈ c0.content) :
    (mapGet compare x
      (phase1ints D.config A D.subintervals D.intervals)).isSome = true :=
  phase1ints_isSome_D D li A hco x
    (Or.inl ((coh_era D li hco k c0 hb).2.2.2 x hx).1)

lemma phase1eras_isSome_D (D : Digest) (li : Nat) (A : List LogEntry)
    (hco : CoherentProp D li) (k : EraType)
    (h : (mapGet cmpEra k D.eras).isSome = true
      ∨ ∃ e ∈ A, eraId D.config li e = some k) :
    (mapGet cmpEra k
      (phase1eras D.config li A D.subintervals D.intervals D.eras)).isSome
      = true := by
  by_cases hex : ∃ e ∈ A, eraId D.config li e = some k
  · rcases hb : mapGet cmpEra k D.eras with _ | c0
    · rw [phase1eras_get_none D.config li A _ _ _ hco.2.2.1 hb hex (fun x hx => by
        rcases mem_of_mem_insAllC _ _ hx with h2 | h2
        · exact absurd h2 (List.not_mem_nil x)
        · exact phase1_presE_of_ES D li A hco h2)]
      rfl
    · rw [phase1eras_get_some D.config li A _ _ _ hco.2.2.1 hb
        (coh_era D li hco k c0 hb).1 hex (fun x hx => by
          rcases mem_of_mem_insAllC _ _ hx with h2 | h2
          · exact phase1_presE_of_base D li A hco hb h2
          · exact phase1_presE_of_ES D li A hco h2)]
      rfl
  · rcases h with h | h
    · rw [phase1eras_get_untouched D.config li A _ _ _ hco.2.2.1 k hex]
      exact h
    · exact absurd h hex

/-! ## C1: structural facts about the first pass's maps -/

lemma phase1ints_child_div_D (D : Digest) (li : Nat) (A : List LogEntry)
    (hco : CoherentProp D li) :
    ∀ i b, mapGet compare i (phase1ints D.config A D.subintervals D.intervals)
        = some b →
      ∀ sid ∈ b.content, sid / D.config.sub_intervals = i := by
  intro i b hget sid hsid
  by_cases hex : ∃ e ∈ A, intId D.config e = some i
  · rcases hb : mapGet compare i D.intervals with _ | b0
    · rw [phase1ints_get_none D.config A _ _ hco.2.1 hb hex (fun x hx => by
        rcases mem_of_mem_insAllC _ _ hx with h2 | h2
        · exact absurd h2 (List.not_mem_nil x)
        · exact phase1_presI_of_CS D li A hco h2)] at hget
      cases hget
      rcases mem_of_mem_insAllC _ _ hsid with h2 | h2
      · exact absurd h2 (List.not_mem_nil sid)
      · rcases List.mem_map.mp h2 with ⟨e, he, hxe⟩
        rcases mem_pint.mp he with ⟨heA, hek⟩
        rw [← hxe]
        exact intId_some_elim hek
    · rw [phase1ints_get_some D.config A _ _ hco.2.1 hb
        (coh_int D li hco i b0 hb).1 hex (fun x hx => by
          rcases mem_of_mem_insAllC _ _ hx with h2 | h2
          · exact phase1_presI_of_base D li A hco hb h2
          · exact phase1_presI_of_CS D li A hco h2)] at hget
      cases hget
      rcases mem_of_mem_insAllC _ _ hsid with h2 | h2
      · exact ((coh_int D li hco i b0 hb).2.2.2.1 sid h2).2
      · rcases List.mem_map.mp h2 with ⟨e, he, hxe⟩
        rcases mem_pint.mp he with ⟨heA, hek⟩
        rw [← hxe]
        exact intId_some_elim hek
  · rw [phase1ints_get_untouched D.config A _ _ hco.2.1 i hex] at hget
    exact ((coh_int D li hco i b hget).2.2.2.1 sid hsid).2

lemma phase1ints_content_ne_nil_D (D : Digest) (li : Nat) (A : List LogEntry)
    (hco : CoherentProp D li) :
    ∀ i b, mapGet compare i (phase1ints D.config A D.subintervals D.intervals)
        = some b →
      b.content ≠ [] := by
  intro i b hget
  by_cases hex : ∃ e ∈ A, intId D.config e = some i
  · rcases hb : mapGet compare i D.intervals with _ | b0
    · have hpne : (pint D.config A i).map (subOf D.config) ≠ [] := by
        rcases hex with ⟨e, heA, hek⟩
        intro hc
        have hmem : e ∈ pint D.config A i := mem_pint.mpr ⟨heA, hek⟩
        have hmm : subOf D.config e ∈ (pint D.config A i).map (subOf D.config) :=
          List.mem_map_of_mem _ hmem
        rw [hc] at hmm
        exact absurd hmm (List.not_mem_nil _)
      rw [phase1ints_get_none D.config A _ _ hco.2.1 hb hex (fun x hx => by
        rcases mem_of_mem_insAllC _ _ hx with h2 | h2
        · exact absurd h2 (List.not_mem_nil x)
        · exact phase1_presI_of_CS D li A hco h2)] at hget
      cases hget
      show insAllC compare ((pint D.config A i).map (subOf D.config)) [] ≠ []
      exact insAllC_src_ne_nil hpne
    · rw [phase1ints_get_some D.config A _ _ hco.2.1 hb
        (coh_int D li hco i b0 hb).1 hex (fun x hx => by
          rcases mem_of_mem_insAllC _ _ hx with h2 | h2
          · exact phase1_presI_of_base D li A hco hb h2
          · exact phase1_presI_of_CS D li A hco h2)] at hget
      cases hget
      show insAllC compare ((pint D.config A i).map (subOf D.config))
        b0.content ≠ []
      exact insAllC_ne_nil_of_ne_nil _ _ (coh_int D li hco i b0 hb).1
  · rw [phase1ints_get_untouched D.config A _ _ hco.2.1 i hex] at hget
    exact (coh_int D li hco i b hget).1

lemma phase1eras_era_correct_D (D : Digest) (li : Nat) (A : List LogEntry)
    (hco : CoherentProp D li) :
    ∀ er c, mapGet cmpEra er
        (phase1eras D.config li A D.subintervals D.intervals D.eras) = some c →
      ∀ i ∈ c.content, get_era D.config li i = er := by
  intro er c hget i hi
  by_cases hex : ∃ e ∈ A, eraId D.config li e = some er
  · rcases hb : mapGet cmpEra er D.eras with _ | c0
    · rw [phase1eras_get_none D.config li A _ _ _ hco.2.2.1 hb hex (fun x hx => by
        rcases mem_of_mem_insAllC _ _ hx with h2 | h2
        · exact absurd h2 (List.not_mem_nil x)
        · exact phase1_presE_of_ES D li A hco h2)] at hget
      cases hget
      rcases mem_of_mem_insAllC _ _ hi with h2 | h2
      · exact absurd h2 (List.not_mem_nil i)
      · rcases List.mem_map.mp h2 with ⟨e, he, hxe⟩
        rcases mem_pera.mp he with ⟨heA, hek⟩
        rw [← hxe]
        exact eraId_some_elim hek
    · rw [phase1eras_get_some D.config li A _ _ _ hco.2.2.1 hb
        (coh_era D li hco er c0 hb).1 hex (fun x hx => by
          rcases mem_of_mem_insAllC _ _ hx with h2 | h2
          · exact phase1_presE_of_base D li A hco hb h2
          · exact phase1_presE_of_ES D li A hco h2)] at hget
      cases hget
      rcases mem_of_mem_insAllC _ _ hi with h2 | h2
      · exact ((coh_era D li hco er c0 hb).2.2.2 i h2).2
      · rcases List.mem_map.mp h2 with ⟨e, he, hxe⟩
        rcases mem_pera.mp he with ⟨heA, hek⟩
        rw [← hxe]
        exact eraId_some_elim hek
  · rw [phase1eras_get_untouched D.config li A _ _ _ hco.2.2.1 er hex] at hget
    exact ((coh_era D li hco er c hget).2.2.2 i hi).2

lemma addEras_correct_D (D : Digest) (li : Nat) (A : List LogEntry)
    (hco : CoherentProp D li) :
    ∀ p ∈ addEras D.config li A D.eras, ∀ i ∈ p.2.content,
      get_era D.config li i = p.1 :=
  addEras_correct D.config li A D.eras hco.2.2.1
    (fun r hr j hj => (hco.2.2.2.2.2.1 r hr).2.2.2 j hj |>.2)

lemma remInv_phase1 (D : Digest) (li : Nat) (ts : TS) (A : List LogEntry)
    (hco : CoherentProp D li) :
    RemInv D.config li (phase1 D li ts A) A
      (remove_deleted_content (phase1 D li ts A) A li) := by
  have hmS1 : MSorted compare (phase1 D li ts A).subintervals :=
    msorted_recompute_subs _ _ (msorted_addSubs D.config A _ hco.1)
  have hmI1 : MSorted compare (phase1 D li ts A).intervals :=
    msorted_recompute_ints _ _ _ (msorted_addInts D.config A _ hco.2.1)
  have hmE1 : MSorted cmpEra (phase1 D li ts A).eras :=
    msorted_recompute_eras _ _ _ (msorted_addEras D.config li A _ hco.2.2.1)
  have hinit := remInv_init D.config li (phase1 D li ts A) rfl hmS1 hmI1 hmE1
    (phase1subs_content_ne_nil D.config A D.subintervals hco.1
      (fun sid s0 hb => (coh_sub D li hco sid s0 hb).1))
    (phase1ints_content_ne_nil_D D li A hco)
  have h0 := remInv_fold D.config li (phase1 D li ts A)
    (phase1ints_child_div_D D li A hco) (phase1eras_era_correct_D D li A hco)
    A [] ⟨phase1 D li ts A, [], [], []⟩ hinit
    (fun e he sub hsub => ⟨
      phase1subs_isSome_D D li A hco sub (Or.inr ⟨e, he, hsub⟩),
      phase1ints_isSome_D D li A hco _ (Or.inr ⟨e, he, intId_of_subId hsub⟩),
      phase1eras_isSome_D D li A hco _ (Or.inr ⟨e, he, eraId_of_subId hsub⟩)⟩)
  rw [List.nil_append] at h0
  exact h0

/-! ## C1: the second pass restores the original maps -/

lemma phase1_subintervals (D : Digest) (li : Nat) (ts : TS) (A : List LogEntry) :
    (phase1 D li ts A).subintervals = phase1subs D.config A D.subintervals := rfl

lemma phase1_intervals (D : Digest) (li : Nat) (ts : TS) (A : List LogEntry) :
    (phase1 D li ts A).intervals
      = phase1ints D.config A D.subintervals D.intervals := rfl

lemma phase1_eras (D : Digest) (li : Nat) (ts : TS) (A : List LogEntry) :
    (phase1 D li ts A).eras
      = phase1eras D.config li A D.subintervals D.intervals D.eras := rfl

lemma phase2subs_restore (D : Digest) (li : Nat) (ts : TS) (A : List LogEntry)
    (hco : CoherentProp D li)
    (hfresh : ∀ e ∈ A, ∀ sub, subId D.config e = some sub →
      ∀ s, mapGet compare sub D.subintervals = some s →
      ∀ x ∈ s.content, x.timestamp ≠ e.timestamp ∨ x.key ≠ e.key) :
    phase2subs (phase1 D li ts A) li A = D.subintervals := by
  obtain ⟨hcfgR, htsR, hckR, hSfor, hIfor, hEfor, hmSR, hmIR, hmER, hUS, hUI, hUE⟩ :=
    remInv_phase1 D li ts A hco
  apply msorted_ext keyCmp_nat (msorted_recompute_subs _ _ hmSR) hco.1
  intro k
  by_cases hex : ∃ e ∈ A, subId D.config e = some k
  · have hkU : k ∈ setExtend compare []
        (remove_deleted_content (phase1 D li ts A) A li).subs_upd :=
      (mem_setExtend keyCmp_nat _ _ k).mpr (Or.inr ((hUS k).mpr hex))
    rw [mapGet_recompute_subs_mem _ _ hmSR k hkU, hSfor k,
      phase1_subintervals]
    rcases hb : mapGet compare k D.subintervals with _ | s0
    · rw [phase1subs_get_none D.config A _ hco.1 hb hex]
      have hr : rmAll (psub D.config A k)
          (insAllC cmpLog (psub D.config A k) []) = [] :=
        rmAll_insAllC _ [] (fun x hx => absurd hx (List.not_mem_nil x))
      show (if (rmAll (psub D.config A k)
            (insAllC cmpLog (psub D.config A k) [])).isEmpty = true then none
        else some (⟨get_subinterval_checksum (rmAll (psub D.config A k)
            (insAllC cmpLog (psub D.config A k) [])),
          rmAll (psub D.config A k)
            (insAllC cmpLog (psub D.config A k) [])⟩ : SubInterval)) = none
      rw [hr]
      rfl
    · obtain ⟨hs0ne, hs0ck, _⟩ := coh_sub D li hco k s0 hb
      rw [phase1subs_get_some D.config A _ hco.1 hb hs0ne hex]
      have hfr : ∀ x ∈ s0.content, freshPred (psub D.config A k) x = true := by
        intro x hx
        rw [freshPred, List.all_eq_true]
        intro e he'
        rcases mem_psub.mp he' with ⟨heA, hek⟩
        exact decide_eq_true (hfresh e heA k hek s0 hb x hx)
      have hr : rmAll (psub D.config A k)
          (insAllC cmpLog (psub D.config A k) s0.content) = s0.content :=
        rmAll_insAllC _ _ hfr
      show (if (rmAll (psub D.config A k)
            (insAllC cmpLog (psub D.config A k) s0.content)).isEmpty = true
          then none
        else some (⟨get_subinterval_checksum (rmAll (psub D.config A k)
            (insAllC cmpLog (psub D.config A k) s0.content)),
          rmAll (psub D.config A k)
            (insAllC cmpLog (psub D.config A k) s0.content)⟩ : SubInterval))
        = some s0
      rw [hr, if_neg (by
        rw [isEmpty_false_of_ne_nil hs0ne]
        exact Bool.false_ne_true), ← hs0ck]
  · have hkU : k ∉ setExtend compare []
        (remove_deleted_content (phase1 D li ts A) A li).subs_upd := by
      intro hk
      rcases (mem_setExtend keyCmp_nat _ _ k).mp hk with h | h
      · exact absurd h (List.not_mem_nil k)
      · exact hex ((hUS k).mp h)
    rw [mapGet_recompute_subs_ne _ _ k hkU, hSfor k,
      phase1_subintervals, phase1subs_get_untouched D.config A _ hco.1 k hex,
      psub_eq_nil_of_not_exists hex]
    rcases mapGet compare k D.subintervals with _ | s0
    · rfl
    · rfl

lemma subEmptyB_phase1_of_base (D : Digest) (li : Nat) (A : List LogEntry)
    (hco : CoherentProp D li)
    (hfresh : ∀ e ∈ A, ∀ sub, subId D.config e = some sub →
      ∀ s, mapGet compare sub D.subintervals = some s →
      ∀ x ∈ s.content, x.timestamp ≠ e.timestamp ∨ x.key ≠ e.key)
    {x : Nat} {s0 : SubInterval}
    (hb : mapGet compare x D.subintervals = some s0) :
    subEmptyB D.config (phase1subs D.config A D.subintervals) A x = false := by
  have hs0ne := (coh_sub D li hco x s0 hb).1
  by_cases hexx : ∃ e ∈ A, subId D.config e = some x
  · have hget := phase1subs_get_some D.config A _ hco.1 hb hs0ne hexx
    rw [subEmptyB_at hget A]
    have hfr : ∀ y ∈ s0.content, freshPred (psub D.config A x) y = true := by
      intro y hy
      rw [freshPred, List.all_eq_true]
      intro e he'
      rcases mem_psub.mp he' with ⟨heA, hek⟩
      exact decide_eq_true (hfresh e heA x hek s0 hb y hy)
    show (rmAll (psub D.config A x)
      (insAllC cmpLog (psub D.config A x) s0.content)).isEmpty = false
    rw [rmAll_insAllC _ _ hfr]
    exact isEmpty_false_of_ne_nil hs0ne
  · have hget : mapGet compare x (phase1subs D.config A D.subintervals)
        = some s0 := by
      rw [phase1subs_get_untouched D.config A _ hco.1 x hexx]
      exact hb
    rw [subEmptyB_at hget A, psub_eq_nil_of_not_exists hexx]
    exact isEmpty_false_of_ne_nil hs0ne

lemma subEmptyB_phase1_of_none (D : Digest) (li : Nat) (A : List LogEntry)
    (hco : CoherentProp D li) {x : Nat}
    (hexx : ∃ e ∈ A, subId D.config e = some x)
    (hbn : mapGet compare x D.subintervals = none) :
    subEmptyB D.config (phase1subs D.config A D.subintervals) A x = true := by
  have hget := phase1subs_get_none D.config A _ hco.1 hbn hexx
  rw [subEmptyB_at hget A]
  show (rmAll (psub D.config A x)
    (insAllC cmpLog (psub D.config A x) [])).isEmpty = true
  rw [rmAll_insAllC _ [] (fun y hy => absurd hy (List.not_mem_nil y))]
  rfl

lemma phase1_base_filter_eq (D : Digest) (li : Nat) (A : List LogEntry)
    (hco : CoherentProp D li)
    (hfresh : ∀ e ∈ A, ∀ sub, subId D.config e = some sub →
      ∀ s, mapGet compare sub D.subintervals = some s →
      ∀ x ∈ s.content, x.timestamp ≠ e.timestamp ∨ x.key ≠ e.key)
    {k : Nat} {b0 : Interval} (hb : mapGet compare k D.intervals = some b0) :
    b0.content.filter (fun sid => ! subEmptyB D.config
      (phase1subs D.config A D.subintervals) A sid) = b0.content :=
  List.filter_eq_self.mpr (fun y hy => by
    rcases Option.isSome_iff_exists.mp
      (((coh_int D li hco k b0 hb).2.2.2.1 y hy).1) with ⟨s0y, hs⟩
    rw [subEmptyB_phase1_of_base D li A hco hfresh hs]
    rfl)

lemma phase1_CC_filter_nil (D : Digest) (li : Nat) (A : List LogEntry)
    (hco : CoherentProp D li) {k : Nat}
    (hb : mapGet compare k D.intervals = none) :
    (insAllC compare ((pint D.config A k).map (subOf D.config)) []).filter
      (fun sid => ! subEmptyB D.config
        (phase1subs D.config A D.subintervals) A sid) = [] := by
  have hnosub : ∀ y ∈ (pint D.config A k).map (subOf D.config),
      mapGet compare y D.subintervals = none := by
    intro y hy
    rcases List.mem_map.mp hy with ⟨e, he, hye⟩
    rcases mem_pint.mp he with ⟨heA, hek⟩
    rcases hs : mapGet compare y D.subintervals with _ | s0y
    · rfl
    · exfalso
      obtain ⟨_, _, b, hbp, hyb⟩ := coh_sub D li hco y s0y hs
      have hdiv : y / D.config.sub_intervals = k := by
        rw [← hye]
        exact intId_some_elim hek
      rw [hdiv, hb] at hbp
      cases hbp
  rw [List.filter_eq_nil]
  intro y hy
  rcases mem_of_mem_insAllC _ _ hy with h2 | h2
  · exact absurd h2 (List.not_mem_nil y)
  · rcases List.mem_map.mp h2 with ⟨e, he, hye⟩
    rcases mem_pint.mp he with ⟨heA, hek⟩
    have hexx : ∃ e' ∈ A, subId D.config e' = some y :=
      ⟨e, heA, by rw [← hye]; exact subId_of_intId hek⟩
    rw [subEmptyB_phase1_of_none D li A hco hexx (hnosub y h2)]
    intro hc
    cases hc

lemma phase1_CC_filter_eq (D : Digest) (li : Nat) (A : List LogEntry)
    (hco : CoherentProp D li)
    (hfresh : ∀ e ∈ A, ∀ sub, subId D.config e = some sub →
      ∀ s, mapGet compare sub D.subintervals = some s →
      ∀ x ∈ s.content, x.timestamp ≠ e.timestamp ∨ x.key ≠ e.key)
    {k : Nat} {b0 : Interval} (hb : mapGet compare k D.intervals = some b0) :
    (insAllC compare ((pint D.config A k).map (subOf D.config))
      b0.content).filter (fun sid => ! subEmptyB D.config
        (phase1subs D.config A D.subintervals) A sid) = b0.content := by
  have hb0cs := (coh_int D li hco k b0 hb).2.1
  apply csorted_ext totalCmp_nat
    (csorted_filter _ (csorted_insAllC totalCmp_nat _ _ hb0cs)) hb0cs
  intro y
  constructor
  · intro hy
    rcases List.mem_filter.mp hy with ⟨hyCC, hkeep⟩
    rcases mem_of_mem_insAllC _ _ hyCC with h2 | h2
    · exact h2
    · rcases List.mem_map.mp h2 with ⟨e, he, hye⟩
      rcases mem_pint.mp he with ⟨heA, hek⟩
      rcases hs : mapGet compare y D.subintervals with _ | s0y
      · exfalso
        have hexx : ∃ e' ∈ A, subId D.config e' = some y :=
          ⟨e, heA, by rw [← hye]; exact subId_of_intId hek⟩
        rw [subEmptyB_phase1_of_none D li A hco hexx hs] at hkeep
        cases hkeep
      · obtain ⟨_, _, b, hbp, hyb⟩ := coh_sub D li hco y s0y hs
        have hdiv : y / D.config.sub_intervals = k := by
          rw [← hye]
          exact intId_some_elim hek
        rw [hdiv, hb] at hbp
        cases hbp
        exact hyb
  · intro hy
    apply List.mem_filter.mpr
    refine ⟨mem_insAllC_of_mem _ _ hy, ?_⟩
    rcases Option.isSome_iff_exists.mp
      (((coh_int D li hco k b0 hb).2.2.2.1 y hy).1) with ⟨s0y, hs⟩
    rw [subEmptyB_phase1_of_base D li A hco hfresh hs]
    rfl

lemma recompute_int_val_empty (subs : List (Nat × SubInterval)) (ck : Nat) :
    recompute_int_val subs (some ⟨ck, []⟩) = none := rfl

lemma recompute_era_val_empty (ints : List (Nat × Interval)) (ck : Nat) :
    recompute_era_val ints (some ⟨ck, []⟩) = none := rfl

lemma phase2ints_restore (D : Digest) (li : Nat) (ts : TS) (A : List LogEntry)
    (hco : CoherentProp D li)
    (hfresh : ∀ e ∈ A, ∀ sub, subId D.config e = some sub →
      ∀ s, mapGet compare sub D.subintervals = some s →
      ∀ x ∈ s.content, x.timestamp ≠ e.timestamp ∨ x.key ≠ e.key) :
    phase2ints (phase1 D li ts A) li A = D.intervals := by
  obtain ⟨hcfgR, htsR, hckR, hSfor, hIfor, hEfor, hmSR, hmIR, hmER, hUS, hUI, hUE⟩ :=
    remInv_phase1 D li ts A hco
  simp only [phase2ints]
  rw [phase2subs_restore D li ts A hco hfresh]
  apply msorted_ext keyCmp_nat (msorted_recompute_ints _ _ _ hmIR) hco.2.1
  intro k
  by_cases hex : ∃ e ∈ A, intId D.config e = some k
  · have hkU : k ∈ setExtend compare []
        (remove_deleted_content (phase1 D li ts A) A li).ints_upd :=
      (mem_setExtend keyCmp_nat _ _ k).mpr (Or.inr ((hUI k).mpr hex))
    rw [mapGet_recompute_ints_mem _ _ _ hmIR k hkU, hIfor k, phase1_intervals,
      phase1_subintervals]
    rcases hb : mapGet compare k D.intervals with _ | b0
    · rw [phase1ints_get_none D.config A _ _ hco.2.1 hb hex (fun x hx => by
        rcases mem_of_mem_insAllC _ _ hx with h2 | h2
        · exact absurd h2 (List.not_mem_nil x)
        · exact phase1_presI_of_CS D li A hco h2)]
      show recompute_int_val D.subintervals (some
        ⟨get_interval_checksum (insAllC compare
            ((pint D.config A k).map (subOf D.config)) [])
          (phase1subs D.config A D.subintervals),
        (insAllC compare ((pint D.config A k).map (subOf D.config)) []).filter
          (fun sid => ! subEmptyB D.config
            (phase1subs D.config A D.subintervals) A sid)⟩) = none
      rw [phase1_CC_filter_nil D li A hco hb]
      rfl
    · obtain ⟨hb0ne, hb0cs, hb0ck, hb0ch, _⟩ := coh_int D li hco k b0 hb
      rw [phase1ints_get_some D.config A _ _ hco.2.1 hb hb0ne hex (fun x hx => by
        rcases mem_of_mem_insAllC _ _ hx with h2 | h2
        · exact phase1_presI_of_base D li A hco hb h2
        · exact phase1_presI_of_CS D li A hco h2)]
      show recompute_int_val D.subintervals (some
        ⟨get_interval_checksum (insAllC compare
            ((pint D.config A k).map (subOf D.config)) b0.content)
          (phase1subs D.config A D.subintervals),
        (insAllC compare ((pint D.config A k).map (subOf D.config))
            b0.content).filter
          (fun sid => ! subEmptyB D.config
            (phase1subs D.config A D.subintervals) A sid)⟩) = some b0
      rw [phase1_CC_filter_eq D li A hco hfresh hb]
      simp only [recompute_int_val]
      rw [List.filter_eq_self.mpr (fun y hy => (hb0ch y hy).1), if_neg (by
        rw [isEmpty_false_of_ne_nil hb0ne]
        exact Bool.false_ne_true), ← hb0ck]
  · have hkU : k ∉ setExtend compare []
        (remove_deleted_content (phase1 D li ts A) A li).ints_upd := by
      intro hk
      rcases (mem_setExtend keyCmp_nat _ _ k).mp hk with h | h
      · exact absurd h (List.not_mem_nil k)
      · exact hex ((hUI k).mp h)
    rw [mapGet_recompute_ints_ne _ _ _ k hkU, hIfor k, phase1_intervals,
      phase1_subintervals, phase1ints_get_untouched D.config A _ _ hco.2.1 k hex]
    rcases hb : mapGet compare k D.intervals with _ | b0
    · rfl
    · show some (⟨b0.checksum, b0.content.filter (fun sid => ! subEmptyB D.config
        (phase1subs D.config A D.subintervals) A sid)⟩ : Interval) = some b0
      rw [phase1_base_filter_eq D li A hco hfresh hb]

lemma intEmptyB_phase1_of_base (D : Digest) (li : Nat) (A : List LogEntry)
    (hco : CoherentProp D li)
    (hfresh : ∀ e ∈ A, ∀ sub, subId D.config e = some sub →
      ∀ s, mapGet compare sub D.subintervals = some s →
      ∀ x ∈ s.content, x.timestamp ≠ e.timestamp ∨ x.key ≠ e.key)
    {i : Nat} {b0 : Interval} (hb : mapGet compare i D.intervals = some b0) :
    intEmptyB D.config (phase1subs D.config A D.subintervals)
      (phase1ints D.config A D.subintervals D.intervals) A i = false := by
  have hb0ne := (coh_int D li hco i b0 hb).1
  by_cases hex : ∃ e ∈ A, intId D.config e = some i
  · have hget := phase1ints_get_some D.config A _ _ hco.2.1 hb hb0ne hex
      (fun x hx => by
        rcases mem_of_mem_insAllC _ _ hx with h2 | h2
        · exact phase1_presI_of_base D li A hco hb h2
        · exact phase1_presI_of_CS D li A hco h2)
    rw [intEmptyB_at hget A]
    show ((insAllC compare ((pint D.config A i).map (subOf D.config))
      b0.content).filter (fun sid => ! subEmptyB D.config
        (phase1subs D.config A D.subintervals) A sid)).isEmpty = false
    rw [phase1_CC_filter_eq D li A hco hfresh hb]
    exact isEmpty_false_of_ne_nil hb0ne
  · have hget : mapGet compare i
        (phase1ints D.config A D.subintervals D.intervals) = some b0 := by
      rw [phase1ints_get_untouched D.config A _ _ hco.2.1 i hex]
      exact hb
    rw [intEmptyB_at hget A, phase1_base_filter_eq D li A hco hfresh hb]
    exact isEmpty_false_of_ne_nil hb0ne

lemma intEmptyB_phase1_of_none (D : Digest) (li : Nat) (A : List LogEntry)
    (hco : CoherentProp D li) {i : Nat}
    (hexi : ∃ e ∈ A, intId D.config e = some i)
    (hbn : mapGet compare i D.intervals = none) :
    intEmptyB D.config (phase1subs D.config A D.subintervals)
      (phase1ints D.config A D.subintervals D.intervals) A i = true := by
  have hget := phase1ints_get_none D.config A _ _ hco.2.1 hbn hexi
    (fun x hx => by
      rcases mem_of_mem_insAllC _ _ hx with h2 | h2
      · exact absurd h2 (List.not_mem_nil x)
      · exact phase1_presI_of_CS D li A hco h2)
  rw [intEmptyB_at hget A]
  show ((insAllC compare ((pint D.config A i).map (subOf D.config))
    []).filter (fun sid => ! subEmptyB D.config
      (phase1subs D.config A D.subintervals) A sid)).isEmpty = true
  rw [phase1_CC_filter_nil D li A hco hbn]
  rfl

lemma phase2eras_restore (D : Digest) (li : Nat) (ts : TS) (A : List LogEntry)
    (hco : CoherentProp D li)
    (hfresh : ∀ e ∈ A, ∀ sub, subId D.config e = some sub →
      ∀ s, mapGet compare sub D.subintervals = some s →
      ∀ x ∈ s.content, x.timestamp ≠ e.timestamp ∨ x.key ≠ e.key) :
    phase2eras (phase1 D li ts A) li A = D.eras := by
  obtain ⟨hcfgR, htsR, hckR, hSfor, hIfor, hEfor, hmSR, hmIR, hmER, hUS, hUI, hUE⟩ :=
    remInv_phase1 D li ts A hco
  simp only [phase2eras]
  rw [phase2ints_restore D li ts A hco hfresh]
  apply msorted_ext keyCmp_cmpEra (msorted_recompute_eras _ _ _ hmER) hco.2.2.1
  intro k
  by_cases hex : ∃ e ∈ A, eraId D.config li e = some k
  · have hkU : k ∈ setExtend cmpEra []
        (remove_deleted_content (phase1 D li ts A) A li).eras_upd :=
      (mem_setExtend keyCmp_cmpEra _ _ k).mpr (Or.inr ((hUE k).mpr hex))
    rw [mapGet_recompute_eras_mem _ _ _ hmER k hkU, hEfor k, phase1_eras,
      phase1_subintervals, phase1_intervals]
    rcases hb : mapGet cmpEra k D.eras with _ | c0
    · have hnoint : ∀ y ∈ (pera D.config li A k).map (intOf D.config),
          mapGet compare y D.intervals = none := by
        intro y hy
        rcases List.mem_map.mp hy with ⟨e, he, hye⟩
        rcases mem_pera.mp he with ⟨heA, hek⟩
        rcases hs : mapGet compare y D.intervals with _ | by0
        · rfl
        · exfalso
          obtain ⟨_, _, _, _, c, hcp, hyc⟩ := coh_int D li hco y by0 hs
          have hera : get_era D.config li y = k := by
            rw [← hye]
            exact eraId_some_elim hek
          rw [hera, hb] at hcp
          cases hcp
      rw [phase1eras_get_none D.config li A _ _ _ hco.2.2.1 hb hex (fun x hx => by
        rcases mem_of_mem_insAllC _ _ hx with h2 | h2
        · exact absurd h2 (List.not_mem_nil x)
        · exact phase1_presE_of_ES D li A hco h2)]
      have hfnil : (insAllC compare ((pera D.config li A k).map (intOf D.config))
          []).filter (fun i => ! intEmptyB D.config
            (phase1subs D.config A D.subintervals)
            (phase1ints D.config A D.subintervals D.intervals) A i) = [] := by
        rw [List.filter_eq_nil]
        intro y hy
        rcases mem_of_mem_insAllC _ _ hy with h2 | h2
        · exact absurd h2 (List.not_mem_nil y)
        · rcases List.mem_map.mp h2 with ⟨e, he, hye⟩
          rcases mem_pera.mp he with ⟨heA, hek⟩
          have hexi : ∃ e' ∈ A, intId D.config e' = some y :=
            ⟨e, heA, by rw [← hye]; exact intId_of_eraId hek⟩
          rw [intEmptyB_phase1_of_none D li A hco hexi (hnoint y h2)]
          intro hc
          cases hc
      show recompute_era_val D.intervals (some
        ⟨get_era_checksum (insAllC compare
            ((pera D.config li A k).map (intOf D.config)) [])
          (phase1ints D.config A D.subintervals D.intervals),
        (insAllC compare ((pera D.config li A k).map (intOf D.config)) []).filter
          (fun i => ! intEmptyB D.config
            (phase1subs D.config A D.subintervals)
            (phase1ints D.config A D.subintervals D.intervals) A i)⟩) = none
      rw [hfnil]
      rfl
    · obtain ⟨hc0ne, hc0cs, hc0ck, hc0ch⟩ := coh_era D li hco k c0 hb
      rw [phase1eras_get_some D.config li A _ _ _ hco.2.2.1 hb hc0ne hex
        (fun x hx => by
          rcases mem_of_mem_insAllC _ _ hx with h2 | h2
          · exact phase1_presE_of_base D li A hco hb h2
          · exact phase1_presE_of_ES D li A hco h2)]
      have hfeq : (insAllC compare ((pera D.config li A k).map (intOf D.config))
          c0.content).filter (fun i => ! intEmptyB D.config
            (phase1subs D.config A D.subintervals)
            (phase1ints D.config A D.subintervals D.intervals) A i)
          = c0.content := by
        apply csorted_ext totalCmp_nat
          (csorted_filter _ (csorted_insAllC totalCmp_nat _ _ hc0cs)) hc0cs
        intro y
        constructor
        · intro hy
          rcases List.mem_filter.mp hy with ⟨hyCC, hkeep⟩
          rcases mem_of_mem_insAllC _ _ hyCC with h2 | h2
          · exact h2
          · rcases List.mem_map.mp h2 with ⟨e, he, hye⟩
            rcases mem_pera.mp he with ⟨heA, hek⟩
            rcases hs : mapGet compare y D.intervals with _ | by0
            · exfalso
              have hexi : ∃ e' ∈ A, intId D.config e' = some y :=
                ⟨e, heA, by rw [← hye]; exact intId_of_eraId hek⟩
              rw [intEmptyB_phase1_of_none D li A hco hexi hs] at hkeep
              cases hkeep
            · obtain ⟨_, _, _, _, c, hcp, hyc⟩ := coh_int D li hco y by0 hs
              have hera : get_era D.config li y = k := by
                rw [← hye]
                exact eraId_some_elim hek
              rw [hera, hb] at hcp
              cases hcp
              exact hyc
        · intro hy
          apply List.mem_filter.mpr
          refine ⟨mem_insAllC_of_mem _ _ hy, ?_⟩
          rcases Option.isSome_iff_exists.mp (hc0ch y hy).1 with ⟨by0, hs⟩
          rw [intEmptyB_phase1_of_base D li A hco hfresh hs]
          rfl
      show recompute_era_val D.intervals (some
        ⟨get_era_checksum (insAllC compare
            ((pera D.config li A k).map (intOf D.config)) c0.content)
          (phase1ints D.config A D.subintervals D.intervals),
        (insAllC compare ((pera D.config li A k).map (intOf D.config))
            c0.content).filter
          (fun i => ! intEmptyB D.config
            (phase1subs D.config A D.subintervals)
            (phase1ints D.config A D.subintervals D.intervals) A i)⟩)
        = some c0
      rw [hfeq]
      simp only [recompute_era_val]
      rw [List.filter_eq_self.mpr (fun y hy => (hc0ch y hy).1), if_neg (by
        rw [isEmpty_false_of_ne_nil hc0ne]
        exact Bool.false_ne_true), ← hc0ck]
  · have hkU : k ∉ setExtend cmpEra []
        (remove_deleted_content (phase1 D li ts A) A li).eras_upd := by
      intro hk
      rcases (mem_setExtend keyCmp_cmpEra _ _ k).mp hk with h | h
      · exact absurd h (List.not_mem_nil k)
      · exact hex ((hUE k).mp h)
    rw [mapGet_recompute_eras_ne _ _ _ k hkU, hEfor k, phase1_eras,
      phase1_subintervals, phase1_intervals,
      phase1eras_get_untouched D.config li A _ _ _ hco.2.2.1 k hex]
    rcases hb : mapGet cmpEra k D.eras with _ | c0
    · rfl
    · obtain ⟨hc0ne, _, _, hc0ch⟩ := coh_era D li hco k c0 hb
      have hfe : c0.content.filter (fun i => ! intEmptyB D.config
          (phase1subs D.config A D.subintervals)
          (phase1ints D.config A D.subintervals D.intervals) A i)
          = c0.content :=
        List.filter_eq_self.mpr (fun y hy => by
          rcases Option.isSome_iff_exists.mp (hc0ch y hy).1 with ⟨by0, hs⟩
          rw [intEmptyB_phase1_of_base D li A hco hfresh hs]
          rfl)
      show some (⟨c0.checksum, c0.content.filter (fun i => ! intEmptyB D.config
        (phase1subs D.config A D.subintervals)
        (phase1ints D.config A D.subintervals D.intervals) A i)⟩ : Interval)
        = some c0
      rw [hfe]

lemma remR_era_correct (D : Digest) (li : Nat) (ts : TS) (A : List LogEntry)
    (hco : CoherentProp D li) :
    ∀ p ∈ (remove_deleted_content (phase1 D li ts A) A li).digest.eras,
      (p.1 = EraType.Hot ∨ p.1 = EraType.Warm) →
      ∀ i ∈ p.2.content,
        get_era (remove_deleted_content (phase1 D li ts A) A li).digest.config li i
          = p.1 := by
  obtain ⟨hcfgR, htsR, hckR, hSfor, hIfor, hEfor, hmSR, hmIR, hmER, hUS, hUI, hUE⟩ :=
    remInv_phase1 D li ts A hco
  intro p hp hw i hi
  have hget := msorted_mem_get keyCmp_cmpEra hmER hp
  rw [hEfor p.1, phase1_eras] at hget
  rcases hE1 : mapGet cmpEra p.1
      (phase1eras D.config li A D.subintervals D.intervals D.eras) with _ | c1
  · rw [hE1] at hget
    cases hget
  · rw [hE1] at hget
    have h2 := Option.some.inj hget
    rw [← h2] at hi
    have hi2 : i ∈ c1.content := (List.mem_filter.mp hi).1
    rw [hcfgR]
    exact phase1eras_era_correct_D D li A hco p.1 c1 hE1 i hi2

/-! ## Claim C1 -/

set_option maxRecDepth 8000 in
/-- C1 (counterexample): the add/remove round-trip fails on a digest that
already holds one of the added entries.  `c1D` stores exactly the log entry
`c1e`; adding `c1e` again is absorbed by the subinterval `BTreeSet` (the
bucket is unchanged), but the removal pass then deletes the original copy and
collapses the whole bucket chain, so the final digest is empty rather than
`c1D` with a refreshed timestamp. -/
theorem update_digest_roundtrip_counterexample :
    update_digest (update_digest c1D c1li c1ts [c1e] []) c1li c1ts [] [c1e]
      ≠ { c1D with timestamp := c1ts } := by decide

/-- C1 (amended): the add/remove round-trip of `update_digest` holds for
coherent digests and structurally fresh additions.  If `D` satisfies the
digest invariant `CoherentProp` at `li`, the configured subinterval width
`delta / sub_intervals` is nonzero (otherwise the source's bucketing divides
by zero), and no added entry collides — on timestamp and key — with an entry
already stored in its target subinterval bucket, then adding `A` and removing
`A` returns `D` with its timestamp replaced by `ts`, and re-adding `A` to
that digest yields exactly the digest the first addition produced. -/
theorem update_digest_roundtrip (D : Digest) (li : Nat) (ts : TS)
    (A : List LogEntry) (hco : CoherentProp D li)
    (hdz : D.config.delta / D.config.sub_intervals ≠ 0)
    (hfresh : ∀ e ∈ A, ∀ sub, subId D.config e = some sub →
      ∀ s, mapGet compare sub D.subintervals = some s →
      ∀ x ∈ s.content, x.timestamp ≠ e.timestamp ∨ x.key ≠ e.key) :
    update_digest (update_digest D li ts A []) li ts [] A
        = { D with timestamp := ts }
      ∧ update_digest { D with timestamp := ts } li ts A []
        = update_digest D li ts A [] := by
  have hcorr1 : ∀ p ∈ addEras D.config li A D.eras,
      (p.1 = EraType.Hot ∨ p.1 = EraType.Warm) →
      ∀ i ∈ p.2.content, get_era D.config li i = p.1 :=
    fun p hp _ i hi => addEras_correct_D D li A hco p hp i hi
  constructor
  · rw [update_digest_nil_del D li ts A hcorr1,
      update_digest_nil_new (phase1 D li ts A) li ts A
        (remR_era_correct D li ts A hco)]
    obtain ⟨hcfgR, _, _, _, _, _, _, _, _, _, _, _⟩ := remInv_phase1 D li ts A hco
    show (⟨ts, (remove_deleted_content (phase1 D li ts A) A li).digest.config,
      get_digest_checksum (phase2eras (phase1 D li ts A) li A),
      phase2eras (phase1 D li ts A) li A,
      phase2ints (phase1 D li ts A) li A,
      phase2subs (phase1 D li ts A) li A⟩ : Digest)
      = ⟨ts, D.config, D.checksum, D.eras, D.intervals, D.subintervals⟩
    rw [phase2subs_restore D li ts A hco hfresh,
      phase2ints_restore D li ts A hco hfresh,
      phase2eras_restore D li ts A hco hfresh, hcfgR,
      ← hco.2.2.2.2.2.2]
  · rw [update_digest_nil_del D li ts A hcorr1,
      update_digest_nil_del { D with timestamp := ts } li ts A hcorr1]
    rfl

/-- C1 (witness): the amended round-trip applied to the empty digest of the
reference config and the singleton addition `[c1e]`: the empty digest is
coherent, the subinterval width is `100 ≠ 0`, and freshness is vacuous
because the empty digest has no subinterval buckets. -/
theorem update_digest_roundtrip_witness :
    update_digest (update_digest c1empty c1li c1ts [c1e] []) c1li c1ts [] [c1e]
        = { c1empty with timestamp := c1ts }
      ∧ update_digest { c1empty with timestamp := c1ts } c1li c1ts [c1e] []
        = update_digest c1empty c1li c1ts [c1e] [] :=
  update_digest_roundtrip c1empty c1li c1ts [c1e] (by decide) (by decide)
    (fun e he sub hsub s hs x hx => by
      have h0 : (none : Option SubInterval) = some s :=
        (mapGet_nil sub).symm.trans hs
      cases h0)

end Zenoh
